import Mathlib

/-!
# Action batching and submission engine of `client/client.go`

A shallow embedding of the batch container (`Actions`, `Actions.Add`), the
combiner with approval injection (`DefiClient.CombineActions`), the executor
(`DefiClient.ExecuteActionsWithGasPrice`, `DefiClient.ExecuteActions`), the
gas price estimator (`DefiClient.SuggestGasPrice`), the Compound action
builders, the swap builders, `CurveClient.AddLiquidityActions`, the composite
builders (`FlashLoanActions`, `FlashSwapActions`) and `byte32PutString`.

Conventions of the embedding:

* `*big.Int` is `Option Int` (`none` is the nil pointer); arithmetic is exact.
* `*Actions` is `Option Actions` (`none` is the nil pointer).  `Add` mutates
  its receiver while it reads its arguments through their pointers, so an
  argument of `Add` is an `ActionsPtr`: the receiver's own pointer, read as
  the list the receiver holds when the loop reaches that argument, or
  another pointer, whose batch the call never changes.
* a Go slice is a `List`; where the source returns a literal `nil` slice next
  to an error the result field is an `Option (List _)`.
* a run-time panic (nil dereference, index out of range) is `Except.error`
  of a `Panic`; a returned Go `error` is an `Option Error` / `Except Error`.
* the generated contract bindings, the ABI encoder and the chain connection
  are not part of `client.go`; they are parameters (`Bindings`, `Conn`).
  The balance reads, `Pack` calls, submissions and waits that the combiner,
  the executor and the composite builders make are recorded, in order, in
  the `events` of the `Run` they return; a call is recorded whether or not it
  returns an error.
-/

set_option linter.dupNamespace false

namespace Client

/-! ## Basic types -/

/-- A 20-byte `common.Address`, as the number its bytes spell. -/
abbrev Address := Nat

/-- A Go `[]byte`. -/
abbrev Bytes := List Nat

/-- A Go `error` value, identified with its message. -/
abbrev Error := String

/-- Handle of a submitted transaction (`*types.Transaction`). -/
abbrev Tx := Nat

/-- Run-time panics of the Go code. -/
inductive Panic
  | nilDereference
  | indexOutOfRange
  | sliceBoundsOutOfRange
  deriving DecidableEq, Repr

/-- The `coinType` enumeration (`type coinType int`). -/
abbrev coinType := Int

def ETH : coinType := 0
def BAT : coinType := 1
def COMP : coinType := 2
def DAI : coinType := 3
def REP : coinType := 4
def SAI : coinType := 5
def UNI : coinType := 6
def USDC : coinType := 7
def USDT : coinType := 8
def WBTC : coinType := 9
def ZRX : coinType := 10
def BUSD : coinType := 11
def YFI : coinType := 12
def AAVE : coinType := 13
def cETH : coinType := 14
def cDAI : coinType := 15
def cUSDC : coinType := 16
def yWETH : coinType := 17

/-! ## Address constants (`common.HexToAddress` of the string constants) -/

def ProxyAddr : Address := 0x57805e5a227937bac2b0fdacaa30413ddac6b8e1
def hCEtherAddr : Address := 0x9A1049f7f87Dbb0468C745d9B3952e23d5d6CE5e
def hCTokenAddr : Address := 0x8973D623d883c5641Dd3906625Aac31cdC8790c5
def hFunds : Address := 0xf9b03e9ea64b2311b0221b2854edd6df97669c09
def hAaveAddr : Address := 0xf579b009748a62b1978639d6b54259f8dc915229
def hSwapper : Address := 0x017F3f2EB0c55DDF49B95ad38Cd2737ACf64AB4d
def hUniswapAddr : Address := 0x58a21cfcee675d65d577b251668f7dc46ea9c3a0
def hCurveAddr : Address := 0xa36dfb057010c419c5917f3d68b4520db3671cdb
def hKyberAddr : Address := 0xe2a3431508cd8e72d53a0e4b57c24af2899322a0
def hSushiswapAddr : Address := 0xB6F469a8930dd5111c0EA76571c7E86298A171f7

/-- The map `CoinToAddressMap`; a missing key reads as the zero address. -/
def CoinToAddressMap (coin : coinType) : Address :=
  if coin = ETH then 0xc02aaa39b223fe8d0a0e5c4f27ead9083c756cc2
  else if coin = BAT then 0x0d8775f648430679a709e98d2b0cb6250d2887ef
  else if coin = COMP then 0xc00e94cb662c3520282e6f5717214004a7f26888
  else if coin = DAI then 0x6b175474e89094c44da98b954eedeac495271d0f
  else if coin = USDC then 0xa0b86991c6218b36c1d19d4a2e9eb0ce3606eb48
  else if coin = USDT then 0xdac17f958d2ee523a2206206994597c13d831ec7
  else if coin = cETH then 0x4ddc2d193948926d02f9b1fe9e1daa0718270ed5
  else if coin = cDAI then 0x5d3a536e4d6dbd6114cc1ead35777bab948e3643
  else if coin = cUSDC then 0x39aa39c021dfbae8fac545936693ac917d5e7563
  else if coin = BUSD then 0x4Fabb145d64652a948d72533023f6E7A623C7C53
  else if coin = yWETH then 0xe1237aA7f535b0CC33Fd973D66cBf830354D16c7
  else 0

/-- The map `CoinToCompoundMap`; a missing key reads as the zero address. -/
def CoinToCompoundMap (coin : coinType) : Address :=
  if coin = ETH then 0x4ddc2d193948926d02f9b1fe9e1daa0718270ed5
  else if coin = DAI then 0x5d3a536e4d6dbd6114cc1ead35777bab948e3643
  else if coin = USDC then 0x39aa39c021dfbae8fac545936693ac917d5e7563
  else 0

/-! ## Actions and batches -/

/-- The struct `action`: one encoded call with its resource requirements. -/
structure action where
  handlerAddr : Address
  data : Bytes
  ethersNeeded : Option Int
  approvalTokens : List Address
  approvalTokenAmounts : List (Option Int)
  deriving DecidableEq, Repr

/-- The struct `Actions`: an ordered list of `action`. -/
structure Actions where
  Actions : List action
  deriving DecidableEq, Repr

/-! ## External collaborators -/

/-- The fields of `bind.TransactOpts` the executor sets (lines 295-301). -/
structure TransactOpts where
  Value : Option Int
  Signer : Nat
  From : Address
  GasLimit : Nat
  GasPrice : Option Int
  deriving DecidableEq, Repr

/-- The part of `types.Receipt` the executor reads. -/
structure Receipt where
  Status : Nat
  deriving DecidableEq, Repr

/-- The ABI definitions of the handler bindings used by the modelled code. -/
inductive Abi
  | Herc20tokeninABI
  | HcetherABI
  | HctokenABI
  | FurucomboABI
  | HaaveABI
  | SwapperABI
  | HuniswapABI
  | HkyberABI
  | HcurveABI
  deriving DecidableEq, Repr

/-- Arguments handed to `abi.Pack`. -/
inductive AbiValue
  | address (a : Address)
  | uint (n : Option Int)
  | addressSlice (xs : List Address)
  | uintSlice (xs : List (Option Int))
  | bytes (b : Bytes)
  | bytesSlice (bs : List Bytes)
  deriving DecidableEq, Repr

/-- The generated bindings and the ABI encoder (the Action Encoder of the
spec): `JSON abi` is the error of `abi.JSON(strings.NewReader(abi))`, if any;
`Pack abi method args` is `parsed.Pack(method, args...)`; `NewFurucombo` and
`NewErc20` are the errors of the contract binders, if any. -/
structure Bindings where
  JSON : Abi → Option Error
  Pack : Abi → String → List AbiValue → Except Error Bytes
  NewFurucombo : Address → Option Error
  NewErc20 : Address → Option Error

/-- The chain as seen through `c.conn` (the Ledger Gateway of the spec), read
as one snapshot for the duration of a call: `BalanceOf token owner` is the
ERC20 `BalanceOf(nil, owner)` of the contract at `token`; `BatchExec proxy opts
handlers datas` is the transactor call of the bound proxy; `WaitMined` is
`bind.WaitMined`; `HeaderByNumber` gives the number of a header and
`BlockByNumber` the gas prices of the transactions of a block (`none` is the
nil block number, the latest block). -/
structure Conn where
  BalanceOf : Address → Address → Except Error Int
  BatchExec : Address → TransactOpts → List Address → List Bytes → Except Error Tx
  WaitMined : Tx → Except Error Receipt
  HeaderByNumber : Option Int → Except Error Int
  BlockByNumber : Option Int → Except Error (List Int)

/-- The struct `DefiClient`, as built by `NewClient`. -/
structure DefiClient where
  opts : TransactOpts
  conn : Conn

/-- The struct `CompoundClient`. -/
structure CompoundClient where
  client : DefiClient

/-- The struct `AaveClient` (its lending-pool binding is not used by the
modelled method). -/
structure AaveClient where
  client : DefiClient

/-- The struct `UniswapClient` (its router binding is not used by the modelled
method). -/
structure UniswapClient where
  client : DefiClient

/-- The struct `KyberswapClient`. -/
structure KyberswapClient where
  client : DefiClient

/-- The struct `SushiswapClient`. -/
structure SushiswapClient where
  client : DefiClient

/-- The struct `CurveClient`. -/
structure CurveClient where
  client : DefiClient

/-- A call made to an external collaborator. -/
inductive Event
  | balanceOf (token : Address) (owner : Address)
  | pack (abi : Abi) (method : String) (args : List AbiValue)
  | batchExec (proxy : Address) (opts : TransactOpts) (handlers : List Address) (datas : List Bytes)
  | waitMined (tx : Tx)
  deriving DecidableEq, Repr

def Event.isBalanceRead : Event → Bool
  | .balanceOf _ _ => true
  | _ => false

def Event.isPack : Event → Bool
  | .pack _ _ _ => true
  | _ => false

def Event.isSubmission : Event → Bool
  | .batchExec _ _ _ _ => true
  | _ => false

deriving instance DecidableEq for Except

/-- What a call did: the external calls it made, in order, and how it ended
(a panic, or a normal return of `α`). -/
structure Run (α : Type) where
  events : List Event
  outcome : Except Panic α
  deriving DecidableEq

/-! ## `Actions.Add` (lines 405-415) -/

/-- The slice Go builds for the variadic parameter at a call site that lists
`args`: the nil slice when no argument is given. -/
def variadic {α : Type} : List α → Option (List α)
  | [] => none
  | a :: as => some (a :: as)

/-- A `*Actions` argument of `Add`, told apart by what it points to: the
receiver of the call itself, or anything else (the nil pointer, or a batch
that is not the receiver and so is not changed by the call). -/
inductive ActionsPtr where
  | receiver
  | other (p : Option Actions)
  deriving DecidableEq, Repr

/-- The `for ... range newActionss` loop of `Add` (lines 411-413): the receiver
after the loop, and whether an iteration dereferenced a nil pointer.  Each
iteration reads `newActions.Actions` through the pointer at that moment: an
argument that is the receiver yields the receiver's list as extended so far. -/
def Actions.addLoop : Option Client.Actions → List ActionsPtr → Option Client.Actions × Except Panic Unit
  | actions, [] => (actions, .ok ())
  | none, _ :: _ => (none, .error .nilDereference)
  | some actions, .other none :: _ => (some actions, .error .nilDereference)
  | some actions, .other (some newActions) :: rest =>
    Actions.addLoop (some ⟨actions.Actions ++ newActions.Actions⟩) rest
  | some actions, .receiver :: rest =>
    Actions.addLoop (some ⟨actions.Actions ++ actions.Actions⟩) rest

/-- The method `Add`: the receiver after the call and the returned error. -/
def Actions.Add (actions : Option Client.Actions) (newActionss : Option (List ActionsPtr)) :
    Option Client.Actions × Except Panic (Option Error) :=
  match newActionss with
  | none => (actions, .ok (some "new action is nil"))
  | some args =>
    match Actions.addLoop actions args with
    | (actions1, .error p) => (actions1, .error p)
    | (actions1, .ok _) => (actions1, .ok none)

/-! ## `DefiClient.balanceOf` (lines 223-234) -/

def DefiClient.balanceOf (b : Bindings) (c : DefiClient) (addr : Address) :
    List Event × Except Error Int :=
  match b.NewErc20 addr with
  | some err => ([], .error err)
  | none => ([Event.balanceOf addr c.opts.From], c.conn.BalanceOf addr c.opts.From)

/-! ## `DefiClient.CombineActions` (lines 316-364) -/

/-- The local variables of `CombineActions` and the calls made so far. -/
structure CombineState where
  handlers : List Address
  datas : List Bytes
  totalEthers : Int
  approvalTokens : List Address
  approvalAmounts : List Int
  events : List Event

/-- How a loop of `CombineActions` ends: it runs to its end, it executes
`return nil, nil, nil, err`, or it panics. -/
inductive Flow
  | next (s : CombineState)
  | returned (s : CombineState) (err : Error)
  | panicked (s : CombineState) (p : Panic)

/-- The inner loop over `j` (lines 330-343), on the tokens and amounts from
index `j` on. -/
def approvalLoop (b : Bindings) (c : DefiClient) :
    List Address → List (Option Int) → CombineState → Flow
  | [], _, s => .next s
  | _ :: _, [], s => .panicked s .indexOutOfRange
  | tokenAddr :: tokens, tokenAmount :: amounts, s =>
    let s1 : CombineState := ⟨s.handlers, s.datas, s.totalEthers,
      s.approvalTokens ++ [tokenAddr], s.approvalAmounts, s.events⟩
    let s2 : CombineState := ⟨s1.handlers, s1.datas, s1.totalEthers,
      s1.approvalTokens, s1.approvalAmounts, s1.events ++ (c.balanceOf b tokenAddr).1⟩
    match (c.balanceOf b tokenAddr).2 with
    | .error err => .returned s2 err
    | .ok balance =>
      match tokenAmount with
      | none => .panicked s2 .nilDereference
      | some amount =>
        approvalLoop b c tokens amounts ⟨s2.handlers, s2.datas, s2.totalEthers,
          s2.approvalTokens,
          s2.approvalAmounts ++ [if balance > amount then amount else balance], s2.events⟩

/-- The outer loop over `i` (lines 325-346). -/
def actionsLoop (b : Bindings) (c : DefiClient) : List action → CombineState → Flow
  | [], s => .next s
  | a :: rest, s =>
    let s1 : CombineState := ⟨s.handlers ++ [a.handlerAddr], s.datas ++ [a.data],
      s.totalEthers, s.approvalTokens, s.approvalAmounts, s.events⟩
    match a.ethersNeeded with
    | none => .panicked s1 .nilDereference
    | some ethers =>
      match approvalLoop b c a.approvalTokens a.approvalTokenAmounts
          ⟨s1.handlers, s1.datas, s1.totalEthers + ethers, s1.approvalTokens,
            s1.approvalAmounts, s1.events⟩ with
      | .next s3 => actionsLoop b c rest s3
      | .returned s3 err => .returned s3 err
      | .panicked s3 p => .panicked s3 p

/-- The four results of `CombineActions`. -/
structure Combined where
  handlers : Option (List Address)
  datas : Option (List Bytes)
  totalEthers : Option Int
  err : Option Error
  deriving DecidableEq, Repr

/-- The arguments of the `inject` call packed at line 353. -/
def injectArgs (s : CombineState) : List AbiValue :=
  [.addressSlice s.approvalTokens, .uintSlice (s.approvalAmounts.map some)]

def DefiClient.CombineActions (b : Bindings) (c : DefiClient) (actions : Option Actions) :
    Run Combined :=
  match actions with
  | none => ⟨[], .error .nilDereference⟩
  | some acts =>
    match actionsLoop b c acts.Actions ⟨[], [], 0, [], [], []⟩ with
    | .panicked s p => ⟨s.events, .error p⟩
    | .returned s err => ⟨s.events, .ok ⟨none, none, none, some err⟩⟩
    | .next s =>
      if s.approvalTokens.length > 0 then
        match b.JSON .Herc20tokeninABI with
        | some err => ⟨s.events, .ok ⟨none, none, none, some err⟩⟩
        | none =>
          match b.Pack .Herc20tokeninABI "inject" (injectArgs s) with
          | .error err =>
            ⟨s.events ++ [.pack .Herc20tokeninABI "inject" (injectArgs s)],
              .ok ⟨none, none, none, some err⟩⟩
          | .ok injectData =>
            ⟨s.events ++ [.pack .Herc20tokeninABI "inject" (injectArgs s)],
              .ok ⟨some ([hFunds] ++ s.handlers), some ([injectData] ++ s.datas),
                some s.totalEthers, none⟩⟩
      else
        ⟨s.events, .ok ⟨some s.handlers, some s.datas, some s.totalEthers, none⟩⟩

/-! ## `DefiClient.ExecuteActionsWithGasPrice` (lines 282-314) -/

def DefiClient.ExecuteActionsWithGasPrice (b : Bindings) (c : DefiClient)
    (actions : Option Actions) (gasPrice : Option Int) : Run (Option Error) :=
  match c.CombineActions b actions with
  | ⟨events, .error p⟩ => ⟨events, .error p⟩
  | ⟨events, .ok ⟨_, _, _, some err⟩⟩ => ⟨events, .ok (some err)⟩
  | ⟨events, .ok ⟨handlers, datas, totalEthers, none⟩⟩ =>
    match b.NewFurucombo ProxyAddr with
    | some _ => ⟨events, .ok none⟩
    | none =>
      let opts : TransactOpts := ⟨totalEthers, c.opts.Signer, c.opts.From, 5000000, gasPrice⟩
      let submission := Event.batchExec ProxyAddr opts (handlers.getD []) (datas.getD [])
      match c.conn.BatchExec ProxyAddr opts (handlers.getD []) (datas.getD []) with
      | .error _ => ⟨events ++ [submission], .ok none⟩
      | .ok tx =>
        match c.conn.WaitMined tx with
        | .error err => ⟨events ++ [submission, .waitMined tx], .ok (some err)⟩
        | .ok receipt =>
          if receipt.Status ≠ 1 then
            ⟨events ++ [submission, .waitMined tx],
              .ok (some "tx receipt status is not 1, indicating a failure occurred")⟩
          else
            ⟨events ++ [submission, .waitMined tx], .ok none⟩

/-! ## Compound action builders (lines 797-897) -/

def CompoundClient.supplyActionsETH (b : Bindings) (_c : CompoundClient)
    (size : Option Int) (_coin : coinType) : Option Actions :=
  match b.JSON .HcetherABI with
  | some _ => none
  | none =>
    match b.Pack .HcetherABI "mint" [.uint size] with
    | .error _ => none
    | .ok data => some ⟨[⟨hCEtherAddr, data, size, [], []⟩]⟩

def CompoundClient.supplyActionsERC20 (b : Bindings) (_c : CompoundClient)
    (size : Option Int) (coin : coinType) : Option Actions :=
  match b.JSON .HctokenABI with
  | some _ => none
  | none =>
    match b.Pack .HctokenABI "mint" [.address (CoinToCompoundMap DAI), .uint size] with
    | .error _ => none
    | .ok mintData =>
      some ⟨[⟨hCTokenAddr, mintData, some 0, [CoinToAddressMap coin], [size]⟩]⟩

def CompoundClient.SupplyActions (b : Bindings) (c : CompoundClient)
    (size : Option Int) (coin : coinType) : Option Actions :=
  if coin = ETH then c.supplyActionsETH b size coin
  else c.supplyActionsERC20 b size coin

def CompoundClient.redeemActionsETH (b : Bindings) (_c : CompoundClient)
    (size : Option Int) (_coin : coinType) : Option Actions :=
  match b.JSON .HcetherABI with
  | some _ => none
  | none =>
    match b.Pack .HcetherABI "redeem" [.uint size] with
    | .error _ => none
    | .ok data => some ⟨[⟨hCEtherAddr, data, size, [], []⟩]⟩

def CompoundClient.redeemActionsERC20 (b : Bindings) (_c : CompoundClient)
    (size : Option Int) (coin : coinType) : Option Actions :=
  match b.JSON .HctokenABI with
  | some _ => none
  | none =>
    match b.Pack .HctokenABI "redeem" [.address (CoinToCompoundMap coin), .uint size] with
    | .error _ => none
    | .ok redeemData =>
      some ⟨[⟨hCTokenAddr, redeemData, some 0, [CoinToCompoundMap coin], [size]⟩]⟩

def CompoundClient.RedeemActions (b : Bindings) (c : CompoundClient)
    (size : Option Int) (coin : coinType) : Option Actions :=
  if coin = ETH then c.redeemActionsETH b size coin
  else c.redeemActionsERC20 b size coin

/-- The method `Compound()`. -/
def DefiClient.Compound (c : DefiClient) : CompoundClient := ⟨c⟩

/-! ## `DefiClient.SuggestGasPrice` and `DefiClient.ExecuteActions` (lines 236-280) -/

/-- The method `SuggestGasPrice`.  The method calls itself on the previous
block without a bound on the depth; `fuel` is the number of nested calls
allowed, and the result is `none` when the walk needs more. -/
def DefiClient.SuggestGasPrice (c : DefiClient) : Nat → Option Int → Option (Except Error Int)
  | 0, _ => none
  | fuel + 1, blockNum =>
    match (match blockNum with
      | none => c.conn.HeaderByNumber none
      | some n => .ok n) with
    | .error err => some (.error err)
    | .ok n =>
      match c.conn.BlockByNumber (some n) with
      | .error err => some (.error err)
      | .ok transactions =>
        if transactions.length = 0 then
          DefiClient.SuggestGasPrice c fuel (some (n - 1))
        else
          some (.ok (transactions.foldl (fun sum gasPrice => sum + gasPrice) 0 /
            (transactions.length : Int)))

/-- The method `ExecuteActions`, with the `fuel` of its call of
`SuggestGasPrice`. -/
def DefiClient.ExecuteActions (b : Bindings) (c : DefiClient) (fuel : Nat)
    (actions : Option Actions) : Option (Run (Option Error)) :=
  match c.SuggestGasPrice fuel none with
  | none => none
  | some (.error err) => some ⟨[], .ok (some err)⟩
  | some (.ok gasPrice) => some (c.ExecuteActionsWithGasPrice b actions (some gasPrice))

/-! ## Composite builders (lines 576-614 and 899-933) -/

/-- The aggregation loop that opens `FlashSwapActions` (lines 581-585) and
`FlashLoanActions` (lines 904-908), the same text in both. -/
def compositeLoop : List action → List Address → List Bytes → Int →
    Except Panic (List Address × List Bytes × Int)
  | [], handlers, datas, totalEthers => .ok (handlers, datas, totalEthers)
  | a :: rest, handlers, datas, totalEthers =>
    match a.ethersNeeded with
    | none => .error .nilDereference
    | some ethers =>
      compositeLoop rest (handlers ++ [a.handlerAddr]) (datas ++ [a.data]) (totalEthers + ethers)

/-- The method `FlashLoanActions`; the error of the outer `Pack` is not tested
(line 923), its bytes are nil when it fails. -/
def AaveClient.FlashLoanActions (b : Bindings) (_c : AaveClient) (size : Option Int)
    (coin : coinType) (actions : Option Actions) : Run (Option Actions) :=
  match actions with
  | none => ⟨[], .error .nilDereference⟩
  | some acts =>
    match compositeLoop acts.Actions [] [] 0 with
    | .error p => ⟨[], .error p⟩
    | .ok (handlers, datas, totalEthers) =>
      match b.JSON .FurucomboABI with
      | some _ => ⟨[], .ok none⟩
      | none =>
        match b.Pack .FurucomboABI "execs" [.addressSlice handlers, .bytesSlice datas] with
        | .error _ =>
          ⟨[.pack .FurucomboABI "execs" [.addressSlice handlers, .bytesSlice datas]], .ok none⟩
        | .ok payloadData =>
          match b.JSON .HaaveABI with
          | some _ =>
            ⟨[.pack .FurucomboABI "execs" [.addressSlice handlers, .bytesSlice datas]],
              .ok none⟩
          | none =>
            if payloadData.length < 4 then
              ⟨[.pack .FurucomboABI "execs" [.addressSlice handlers, .bytesSlice datas]],
                .error .sliceBoundsOutOfRange⟩
            else
              ⟨[.pack .FurucomboABI "execs" [.addressSlice handlers, .bytesSlice datas],
                  .pack .HaaveABI "flashLoan"
                    [.address (CoinToAddressMap coin), .uint size, .bytes (payloadData.drop 4)]],
                .ok (some ⟨[⟨hAaveAddr,
                  (match b.Pack .HaaveABI "flashLoan"
                      [.address (CoinToAddressMap coin), .uint size,
                        .bytes (payloadData.drop 4)] with
                    | .ok flashLoanData => flashLoanData
                    | .error _ => []),
                  some totalEthers, [], []⟩]⟩)⟩

/-- The method `FlashSwapActions`. -/
def UniswapClient.FlashSwapActions (b : Bindings) (_c : UniswapClient) (size : Option Int)
    (coinBorrow : coinType) (coinRepay : coinType) (actions : Option Actions) :
    Run (Option Actions) :=
  match actions with
  | none => ⟨[], .error .nilDereference⟩
  | some acts =>
    match compositeLoop acts.Actions [] [] 0 with
    | .error p => ⟨[], .error p⟩
    | .ok (handlers, datas, totalEthers) =>
      match b.JSON .FurucomboABI with
      | some _ => ⟨[], .ok none⟩
      | none =>
        match b.Pack .FurucomboABI "execs" [.addressSlice handlers, .bytesSlice datas] with
        | .error _ =>
          ⟨[.pack .FurucomboABI "execs" [.addressSlice handlers, .bytesSlice datas]], .ok none⟩
        | .ok payloadData =>
          match b.JSON .SwapperABI with
          | some _ =>
            ⟨[.pack .FurucomboABI "execs" [.addressSlice handlers, .bytesSlice datas]],
              .ok none⟩
          | none =>
            if payloadData.length < 4 then
              ⟨[.pack .FurucomboABI "execs" [.addressSlice handlers, .bytesSlice datas]],
                .error .sliceBoundsOutOfRange⟩
            else
              match b.Pack .SwapperABI "startSwap"
                  [.address (CoinToAddressMap coinBorrow), .uint size,
                    .address (CoinToAddressMap coinRepay), .bytes (payloadData.drop 4)] with
              | .error _ =>
                ⟨[.pack .FurucomboABI "execs" [.addressSlice handlers, .bytesSlice datas],
                    .pack .SwapperABI "startSwap"
                      [.address (CoinToAddressMap coinBorrow), .uint size,
                        .address (CoinToAddressMap coinRepay), .bytes (payloadData.drop 4)]],
                  .ok none⟩
              | .ok flashSwapData =>
                ⟨[.pack .FurucomboABI "execs" [.addressSlice handlers, .bytesSlice datas],
                    .pack .SwapperABI "startSwap"
                      [.address (CoinToAddressMap coinBorrow), .uint size,
                        .address (CoinToAddressMap coinRepay), .bytes (payloadData.drop 4)]],
                  .ok (some ⟨[⟨hSwapper, flashSwapData, some totalEthers, [], []⟩]⟩)⟩

/-! ## Swap builders (lines 510-574, 1255-1293, 1309-1343) -/

/-- The function `swapETHToTokenData`; the nil it returns on failure is `[]`. -/
def swapETHToTokenData (b : Bindings) (size : Option Int) (baseCurrency : coinType) : Bytes :=
  match b.JSON .HuniswapABI with
  | some _ => []
  | none =>
    match b.Pack .HuniswapABI "swapExactETHForTokens"
        [.uint size, .uint (some 0),
          .addressSlice [CoinToAddressMap ETH, CoinToAddressMap baseCurrency]] with
    | .error _ => []
    | .ok data => data

/-- The function `swapTokenToETHData`. -/
def swapTokenToETHData (b : Bindings) (size : Option Int) (quoteCurrency : coinType) : Bytes :=
  match b.JSON .HuniswapABI with
  | some _ => []
  | none =>
    match b.Pack .HuniswapABI "swapExactTokensForETH"
        [.uint size, .uint (some 0),
          .addressSlice [CoinToAddressMap quoteCurrency, CoinToAddressMap ETH]] with
    | .error _ => []
    | .ok data => data

/-- The function `swapTokenToTokenData`. -/
def swapTokenToTokenData (b : Bindings) (size : Option Int) (baseCurrency : coinType)
    (quoteCurrency : coinType) : Bytes :=
  match b.JSON .HuniswapABI with
  | some _ => []
  | none =>
    match b.Pack .HuniswapABI "swapExactTokensForTokens"
        [.uint size, .uint (some 0),
          .addressSlice [CoinToAddressMap quoteCurrency, CoinToAddressMap ETH,
            CoinToAddressMap baseCurrency]] with
    | .error _ => []
    | .ok data => data

/-- The method `UniswapClient.SwapActions`. -/
def UniswapClient.SwapActions (b : Bindings) (_c : UniswapClient) (size : Option Int)
    (baseCurrency : coinType) (quoteCurrency : coinType) : Option Actions :=
  if quoteCurrency = ETH then
    some ⟨[⟨hUniswapAddr, swapETHToTokenData b size baseCurrency, size, [], []⟩]⟩
  else if baseCurrency = ETH then
    some ⟨[⟨hUniswapAddr, swapTokenToETHData b size quoteCurrency, some 0, [], []⟩]⟩
  else
    some ⟨[⟨hUniswapAddr, swapTokenToTokenData b size baseCurrency quoteCurrency, some 0,
      [], []⟩]⟩

/-- The method `KyberswapClient.SwapActions`. -/
def KyberswapClient.SwapActions (b : Bindings) (_c : KyberswapClient) (size : Option Int)
    (baseCurrency : coinType) (quoteCurrency : coinType) : Option Actions :=
  match b.JSON .HkyberABI with
  | some _ => none
  | none =>
    if quoteCurrency = ETH then
      match b.Pack .HkyberABI "swapEtherToToken"
          [.uint size, .address (CoinToAddressMap baseCurrency), .uint (some 0)] with
      | .error _ => none
      | .ok data => some ⟨[⟨hKyberAddr, data, size, [], []⟩]⟩
    else if baseCurrency = ETH then
      match b.Pack .HkyberABI "swapTokenToEther"
          [.address (CoinToAddressMap baseCurrency), .uint size, .uint (some 0)] with
      | .error _ => none
      | .ok data => some ⟨[⟨hKyberAddr, data, some 0, [], []⟩]⟩
    else
      match b.Pack .HkyberABI "swapTokenToToken"
          [.address (CoinToAddressMap baseCurrency), .uint size,
            .address (CoinToAddressMap quoteCurrency), .uint (some 0)] with
      | .error _ => none
      | .ok data => some ⟨[⟨hKyberAddr, data, some 0, [], []⟩]⟩

/-- The method `SushiswapClient.SwapActions`. -/
def SushiswapClient.SwapActions (b : Bindings) (_c : SushiswapClient) (size : Option Int)
    (baseCurrency : coinType) (quoteCurrency : coinType) : Option Actions :=
  if quoteCurrency = ETH then
    some ⟨[⟨hSushiswapAddr, swapETHToTokenData b size baseCurrency, size, [], []⟩]⟩
  else if baseCurrency = ETH then
    some ⟨[⟨hSushiswapAddr, swapTokenToETHData b size quoteCurrency, some 0,
      [CoinToAddressMap quoteCurrency], [size]⟩]⟩
  else
    some ⟨[⟨hSushiswapAddr, swapTokenToTokenData b size baseCurrency quoteCurrency, some 0,
      [CoinToAddressMap quoteCurrency], [size]⟩]⟩

/-! ## `CurveClient.AddLiquidityActions` (lines 1418-1449) -/

def CurveClient.AddLiquidityActions (b : Bindings) (_c : CurveClient) (handler : Address)
    (pool : Address) (tokens : List Address) (amounts : List (Option Int))
    (minAmount : Option Int) : Option Actions :=
  match b.JSON .HcurveABI with
  | some _ => none
  | none =>
    match b.Pack .HcurveABI "addLiquidity"
        [.address handler, .address pool, .addressSlice tokens, .uintSlice amounts,
          .uint minAmount] with
    | .error _ => none
    | .ok data => some ⟨[⟨hCurveAddr, data, some 0, tokens, amounts⟩]⟩

/-! ## `byte32PutString` (lines 1704-1717) and `CoinToIlkMap`

A Go string is its sequence of bytes, here a `List Nat`; `len(s)` is the length
of the list. -/

/-- The bytes of a string literal of ASCII characters. -/
def stringBytes (s : String) : List Nat := s.data.map Char.toNat

/-- The value of a hexadecimal digit given by its byte, as in the table of the
Go library `encoding/hex`: `none` for any other byte. -/
def fromHexChar (c : Nat) : Option Nat :=
  if 48 ≤ c ∧ c ≤ 57 then some (c - 48)
  else if 97 ≤ c ∧ c ≤ 102 then some (c - 87)
  else if 65 ≤ c ∧ c ≤ 70 then some (c - 55)
  else none

/-- The Go library call `hex.DecodeString`: the decoded bytes, or `none` when
it returns an error (a byte that is no hexadecimal digit, or an odd length). -/
def hexDecodeString : List Nat → Option (List Nat)
  | [] => some []
  | [_] => none
  | p :: q :: rest =>
    match fromHexChar p, fromHexChar q, hexDecodeString rest with
    | some hi, some lo, some tail => some ((hi * 16 + lo) :: tail)
    | _, _, _ => none

/-- The Go builtin `copy(res[offset:], src)` for `offset <= len(res)`: the
array `res` after the copy. -/
def copyAt (res : List Nat) (offset : Nat) (src : List Nat) : List Nat :=
  res.take offset ++ src.take (res.length - offset) ++
    res.drop (offset + min (res.length - offset) src.length)

/-- The function `byte32PutString`; the result is the array of 32 bytes. -/
def byte32PutString (s : List Nat) : List Nat :=
  match hexDecodeString s with
  | none => List.replicate 32 0
  | some decoded =>
    if s.length > 32 then copyAt (List.replicate 32 0) 0 decoded
    else copyAt (List.replicate 32 0) (32 - s.length) decoded

/-- The map `CoinToIlkMap`; a missing key reads as 32 zero bytes. -/
def CoinToIlkMap (coin : coinType) : List Nat :=
  if coin = ETH then
    byte32PutString
      (stringBytes "4554482d41000000000000000000000000000000000000000000000000000000")
  else if coin = YFI then
    byte32PutString
      (stringBytes "5946492d41000000000000000000000000000000000000000000000000000000")
  else if coin = USDC then
    byte32PutString
      (stringBytes "555344432d420000000000000000000000000000000000000000000000000000")
  else if coin = USDT then
    byte32PutString
      (stringBytes "555344542d410000000000000000000000000000000000000000000000000000")
  else if coin = UNI then
    byte32PutString
      (stringBytes "554e4956324441494554482d4100000000000000000000000000000000000000")
  else if coin = AAVE then
    byte32PutString
      (stringBytes "414156452d410000000000000000000000000000000000000000000000000000")
  else List.replicate 32 0

/-- The Go library call `hex.EncodeToString`, as the bytes of the string it
returns (lower-case digits). -/
def hexEncodeToString (bytes : List Nat) : List Nat :=
  bytes.flatMap (fun v =>
    [(if v / 16 < 10 then 48 + v / 16 else 87 + v / 16),
      (if v % 16 < 10 then 48 + v % 16 else 87 + v % 16)])

/-- The lower-case form of an ASCII byte. -/
def toLowerByte (c : Nat) : Nat := if 65 ≤ c ∧ c ≤ 90 then c + 32 else c

/-! ## Helpers used to state properties -/

/-- The state a loop of `CombineActions` stopped in. -/
def Flow.state : Flow → CombineState
  | .next s => s
  | .returned s _ => s
  | .panicked s _ => s

/-- The pairs (token at index `j`, amount at index `j`) the inner loop visits
for one action. -/
def action.requirements (a : action) : List (Address × Option Int) :=
  a.approvalTokens.zip a.approvalTokenAmounts

/-- The approval requirements of a batch, in the order the loops visit them. -/
def Actions.requirements (batch : Client.Actions) : List (Address × Option Int) :=
  batch.Actions.flatMap action.requirements

/-- The amount lines 338-342 append for a requirement, given the balance the
connection reports for the caller: `none` when the amount is nil or the read
fails. -/
def DefiClient.clampedAmount (c : DefiClient) (req : Address × Option Int) : Option Int :=
  match req.2, c.conn.BalanceOf req.1 c.opts.From with
  | some requested, .ok balance => some (if balance > requested then requested else balance)
  | _, _ => none

/-- The sum of the `ethersNeeded` of a list of actions (a nil counts 0). -/
def sumEthers (acts : List action) : Int :=
  (acts.map (fun a => a.ethersNeeded.getD 0)).sum

/-- The action with the amounts beyond the number of its tokens removed. -/
def action.withoutSurplus (a : action) : action :=
  ⟨a.handlerAddr, a.data, a.ethersNeeded, a.approvalTokens,
    a.approvalTokenAmounts.take a.approvalTokens.length⟩

/-- Whether a byte is a hexadecimal digit: `0`-`9`, `a`-`f` or `A`-`F`. -/
def isHexDigit (c : Nat) : Bool :=
  (48 ≤ c && c ≤ 57) || (97 ≤ c && c ≤ 102) || (65 ≤ c && c ≤ 70)

/-! ## Sample environments and batches -/

/-- Bindings in which every parse and bind succeeds and every packed call is
the same four bytes. -/
def sampleBindings : Bindings :=
  ⟨fun _ => none, fun _ _ _ => .ok [0xde, 0xad, 0xbe, 0xef], fun _ => none, fun _ => none⟩

/-- Bindings as `sampleBindings`, except that binding the proxy fails. -/
def unboundProxyBindings : Bindings :=
  ⟨fun _ => none, fun _ _ _ => .ok [0xde, 0xad, 0xbe, 0xef],
    fun _ => some "no contract code at given address", fun _ => none⟩

/-- Bindings in which every `Pack` fails, so that every builder returns nil. -/
def failingPackBindings : Bindings :=
  ⟨fun _ => none, fun _ _ _ => .error "abi: cannot use nil as type ptr as argument",
    fun _ => none, fun _ => none⟩

/-- A connection in which the caller holds `balance` of every token, a
submission is accepted as transaction 1 and its receipt has status `status`. -/
def sampleConn (balance : Int) (status : Nat) : Conn :=
  ⟨fun _ _ => .ok balance, fun _ _ _ _ => .ok 1, fun _ => .ok ⟨status⟩,
    fun _ => .ok 0, fun _ => .ok []⟩

/-- A connection as `sampleConn`, except that every submission is refused. -/
def refusingConn (balance : Int) : Conn :=
  ⟨fun _ _ => .ok balance, fun _ _ _ _ => .error "insufficient funds for gas * price + value",
    fun _ => .ok ⟨1⟩, fun _ => .ok 0, fun _ => .ok []⟩

/-- The caller of the samples: account `0xabc` with signer 7. -/
def sampleOpts : TransactOpts := ⟨none, 7, 0xabc, 0, none⟩

def sampleClient (balance : Int) (status : Nat) : DefiClient :=
  ⟨sampleOpts, sampleConn balance status⟩

def refusedClient (balance : Int) : DefiClient :=
  ⟨sampleOpts, refusingConn balance⟩

/-- The batch `Compound().SupplyActions(1e18, DAI)` of the tests. -/
def supplyDAI : Option Client.Actions :=
  (sampleClient 0 1).Compound.SupplyActions sampleBindings (some 1000000000000000000) DAI

/-- The batch `Compound().RedeemActions(100000, DAI)` of the tests. -/
def redeemDAI : Option Client.Actions :=
  (sampleClient 0 1).Compound.RedeemActions sampleBindings (some 100000) DAI

/-- A token used by the samples. -/
def sampleToken : Address := 0x6b175474e89094c44da98b954eedeac495271d0f

/-- A swap-like action that needs an approval of 100 units of `sampleToken`. -/
def swapNeeding100 : Client.Actions :=
  ⟨[⟨0x58a21cfcee675d65d577b251668f7dc46ea9c3a0, [1, 2, 3, 4], some 0, [sampleToken], [some 100]⟩]⟩

/-- The batch that `Add(SupplyActions(1e18, DAI), RedeemActions(100000, DAI))`
leaves in an empty receiver under `sampleBindings`. -/
def supplyThenRedeemDAI : Client.Actions :=
  ⟨[⟨hCTokenAddr, [0xde, 0xad, 0xbe, 0xef], some 0, [CoinToAddressMap DAI],
      [some 1000000000000000000]⟩,
    ⟨hCTokenAddr, [0xde, 0xad, 0xbe, 0xef], some 0, [CoinToCompoundMap DAI], [some 100000]⟩]⟩

/-- Two plain actions without approval requirements. -/
def plainA : action := ⟨hCEtherAddr, [1, 2, 3, 4], some 5, [], []⟩
def plainB : action := ⟨hFunds, [5, 6, 7, 8], some 7, [], []⟩

/-- A connection whose latest header is block 100, in which block 30 holds
three transactions with gas prices 10, 20 and 31, no block below 0 can be read
and every other block is empty. -/
def sparseConn : Conn :=
  ⟨fun _ _ => .ok 0, fun _ _ _ _ => .ok 1, fun _ => .ok ⟨1⟩, fun _ => .ok 100,
    fun blockNum =>
      match blockNum with
      | none => .ok []
      | some n =>
        if n = 30 then .ok [10, 20, 31]
        else if n < 0 then .error "not found"
        else .ok []⟩

def sparseClient : DefiClient := ⟨sampleOpts, sparseConn⟩

/-- A connection as `sampleConn 0 1`, except that no header can be read. -/
def headerlessConn : Conn :=
  ⟨fun _ _ => .ok 0, fun _ _ _ _ => .ok 1, fun _ => .ok ⟨1⟩,
    fun _ => .error "connection refused", fun _ => .ok []⟩

def headerlessClient : DefiClient := ⟨sampleOpts, headerlessConn⟩

/-- A connection as `sampleConn 0 1`, except that no balance can be read. -/
def unreadableConn : Conn :=
  ⟨fun _ _ => .error "execution reverted", fun _ _ _ _ => .ok 1, fun _ => .ok ⟨1⟩,
    fun _ => .ok 0, fun _ => .ok []⟩

def unreadableClient : DefiClient := ⟨sampleOpts, unreadableConn⟩

/-- Bindings as `sampleBindings`, except that every packed call is a selector
of four bytes followed by the bytes 1, 2, 3. -/
def selectorBindings : Bindings :=
  ⟨fun _ => none, fun _ _ _ => .ok [0xaa, 0xbb, 0xcc, 0xdd, 1, 2, 3], fun _ => none,
    fun _ => none⟩

/-- Bindings as `selectorBindings`, except that `Pack` fails on the Aave
handler ABI. -/
def haaveFailingBindings : Bindings :=
  ⟨fun _ => none,
    fun abi _ _ =>
      match abi with
      | .HaaveABI => .error "abi: attempting to unmarshall an empty string"
      | _ => .ok [0xaa, 0xbb, 0xcc, 0xdd, 1, 2, 3],
    fun _ => none, fun _ => none⟩

/-- The batch that `Curve().AddLiquidityActions` returns under `sampleBindings`
for the two tokens DAI and USDC and the single amount 1e18. -/
def curveTwoTokensOneAmount : Client.Actions :=
  ⟨[⟨hCurveAddr, [0xde, 0xad, 0xbe, 0xef], some 0, [CoinToAddressMap DAI, CoinToAddressMap USDC],
    [some 1000000000000000000]⟩]⟩

/-- A batch with two requirements on `sampleToken`, of 50 units each. -/
def twiceSameToken : Client.Actions :=
  ⟨[⟨hCTokenAddr, [1, 2, 3, 4], some 0, [sampleToken], [some 50]⟩,
    ⟨hCurveAddr, [5, 6, 7, 8], some 0, [sampleToken], [some 50]⟩]⟩

/-! ## The loops of `CombineActions` -/

theorem balanceOf_ok {b : Bindings} {c : DefiClient} {t : Address} {balance : Int}
    (h : (c.balanceOf b t).2 = .ok balance) :
    (c.balanceOf b t).1 = [Event.balanceOf t c.opts.From] ∧
      c.conn.BalanceOf t c.opts.From = .ok balance := by
  unfold DefiClient.balanceOf at h ⊢
  cases hb : b.NewErc20 t with
  | some err => simp [hb] at h
  | none => simpa [hb] using h

theorem approvalLoop_next (b : Bindings) (c : DefiClient) :
    ∀ (ts : List Address) (as : List (Option Int)) (s s1 : CombineState),
      approvalLoop b c ts as s = .next s1 →
      ts.length ≤ as.length ∧ s1.handlers = s.handlers ∧ s1.datas = s.datas ∧
      s1.totalEthers = s.totalEthers ∧ s1.approvalTokens = s.approvalTokens ++ ts ∧
      s1.approvalAmounts.map some =
        s.approvalAmounts.map some ++ (ts.zip as).map c.clampedAmount ∧
      s1.events = s.events ++ ts.map (fun t => Event.balanceOf t c.opts.From) := by
  intro ts
  induction ts with
  | nil =>
    intro as s s1 h
    simp only [approvalLoop, Flow.next.injEq] at h
    subst h
    simp
  | cons t ts ih =>
    intro as s s1 h
    cases as with
    | nil => simp [approvalLoop] at h
    | cons a as =>
      simp only [approvalLoop] at h
      cases hbal : (c.balanceOf b t).2 with
      | error err => simp [hbal] at h
      | ok balance =>
        cases a with
        | none => simp [hbal] at h
        | some amount =>
          simp only [hbal] at h
          obtain ⟨hev, hconn⟩ := balanceOf_ok hbal
          obtain ⟨h1, h2, h3, h4, h5, h6, h7⟩ := ih as _ s1 h
          refine ⟨by simpa using h1, h2, h3, h4, by simpa using h5, ?_, ?_⟩
          · rw [h6]
            simp [DefiClient.clampedAmount, hconn]
          · rw [h7, hev]
            simp

theorem balanceOf_events_read (b : Bindings) (c : DefiClient) (t : Address) :
    ∀ e ∈ (c.balanceOf b t).1, e.isBalanceRead = true := by
  unfold DefiClient.balanceOf
  cases b.NewErc20 t <;> simp [Event.isBalanceRead]

theorem approvalLoop_events (b : Bindings) (c : DefiClient) :
    ∀ (ts : List Address) (as : List (Option Int)) (s : CombineState),
      ∃ extra, (approvalLoop b c ts as s).state.events = s.events ++ extra ∧
        ∀ e ∈ extra, e.isBalanceRead = true := by
  intro ts
  induction ts with
  | nil => intro as s; exact ⟨[], by simp [approvalLoop, Flow.state]⟩
  | cons t ts ih =>
    intro as s
    cases as with
    | nil => exact ⟨[], by simp [approvalLoop, Flow.state]⟩
    | cons a as =>
      simp only [approvalLoop]
      cases hbal : (c.balanceOf b t).2 with
      | error err =>
        exact ⟨(c.balanceOf b t).1, by simp [Flow.state], balanceOf_events_read b c t⟩
      | ok balance =>
        cases a with
        | none =>
          exact ⟨(c.balanceOf b t).1, by simp [Flow.state], balanceOf_events_read b c t⟩
        | some amount =>
          obtain ⟨extra, h1, h2⟩ := ih as
            ⟨s.handlers, s.datas, s.totalEthers, s.approvalTokens ++ [t],
              s.approvalAmounts ++ [if balance > amount then amount else balance],
              s.events ++ (c.balanceOf b t).1⟩
          refine ⟨(c.balanceOf b t).1 ++ extra, ?_, ?_⟩
          · simpa using h1
          · intro e he
            rcases List.mem_append.mp he with he | he
            · exact balanceOf_events_read b c t e he
            · exact h2 e he

theorem actionsLoop_events (b : Bindings) (c : DefiClient) :
    ∀ (acts : List action) (s : CombineState),
      ∃ extra, (actionsLoop b c acts s).state.events = s.events ++ extra ∧
        ∀ e ∈ extra, e.isBalanceRead = true := by
  intro acts
  induction acts with
  | nil => intro s; exact ⟨[], by simp [actionsLoop, Flow.state]⟩
  | cons a rest ih =>
    intro s
    cases he : a.ethersNeeded with
    | none => exact ⟨[], by simp [actionsLoop, he, Flow.state]⟩
    | some ethers =>
      obtain ⟨extra, h1, h2⟩ := approvalLoop_events b c a.approvalTokens
        a.approvalTokenAmounts ⟨s.handlers ++ [a.handlerAddr], s.datas ++ [a.data],
          s.totalEthers + ethers, s.approvalTokens, s.approvalAmounts, s.events⟩
      cases hl : approvalLoop b c a.approvalTokens a.approvalTokenAmounts
          ⟨s.handlers ++ [a.handlerAddr], s.datas ++ [a.data],
            s.totalEthers + ethers, s.approvalTokens, s.approvalAmounts, s.events⟩ with
      | next s3 =>
        rw [hl] at h1
        obtain ⟨extra2, h3, h4⟩ := ih s3
        refine ⟨extra ++ extra2, ?_, ?_⟩
        · simp only [Flow.state] at h1
          simp only [actionsLoop, he, hl]
          rw [h3, h1]
          simp
        · intro e hmem
          rcases List.mem_append.mp hmem with hmem | hmem
          · exact h2 e hmem
          · exact h4 e hmem
      | returned s3 err =>
        rw [hl] at h1
        exact ⟨extra, by simpa [actionsLoop, he, hl, Flow.state] using h1, h2⟩
      | panicked s3 p =>
        rw [hl] at h1
        exact ⟨extra, by simpa [actionsLoop, he, hl, Flow.state] using h1, h2⟩

theorem actionsLoop_next (b : Bindings) (c : DefiClient) :
    ∀ (acts : List action) (s s1 : CombineState),
      actionsLoop b c acts s = .next s1 →
      (∀ a ∈ acts, a.ethersNeeded.isSome = true) ∧
      (∀ a ∈ acts, a.approvalTokens.length ≤ a.approvalTokenAmounts.length) ∧
      s1.handlers = s.handlers ++ acts.map (fun a => a.handlerAddr) ∧
      s1.datas = s.datas ++ acts.map (fun a => a.data) ∧
      s1.totalEthers = s.totalEthers + sumEthers acts ∧
      s1.approvalTokens = s.approvalTokens ++ acts.flatMap (fun a => a.approvalTokens) ∧
      s1.approvalAmounts.map some =
        s.approvalAmounts.map some ++
          (acts.flatMap action.requirements).map c.clampedAmount ∧
      s1.events = s.events ++
        (acts.flatMap (fun a => a.approvalTokens)).map
          (fun t => Event.balanceOf t c.opts.From) := by
  intro acts
  induction acts with
  | nil =>
    intro s s1 h
    simp only [actionsLoop, Flow.next.injEq] at h
    subst h
    simp [sumEthers]
  | cons a rest ih =>
    intro s s1 h
    simp only [actionsLoop] at h
    cases he : a.ethersNeeded with
    | none => simp [he] at h
    | some ethers =>
      simp only [he] at h
      cases hl : approvalLoop b c a.approvalTokens a.approvalTokenAmounts
          ⟨s.handlers ++ [a.handlerAddr], s.datas ++ [a.data],
            s.totalEthers + ethers, s.approvalTokens, s.approvalAmounts, s.events⟩ with
      | returned s3 err => simp [hl] at h
      | panicked s3 p => simp [hl] at h
      | next s3 =>
        simp only [hl] at h
        obtain ⟨a1, a2, a3, a4, a5, a6, a7⟩ := approvalLoop_next b c _ _ _ _ hl
        obtain ⟨h1, h0, h2, h3, h4, h5, h6, h7⟩ := ih s3 s1 h
        refine ⟨?_, ?_, ?_, ?_, ?_, ?_, ?_, ?_⟩
        · intro x hx
          rcases List.mem_cons.mp hx with hx | hx
          · subst hx; simp [he]
          · exact h1 x hx
        · intro x hx
          rcases List.mem_cons.mp hx with hx | hx
          · subst hx; exact a1
          · exact h0 x hx
        · rw [h2, a2]; simp
        · rw [h3, a3]; simp
        · rw [h4, a4]; simp [sumEthers, he]; ring
        · rw [h5, a5]; simp
        · rw [h6, a6]; simp [action.requirements]
        · rw [h7, a7]; simp

theorem actionsLoop_noApprovals (b : Bindings) (c : DefiClient) :
    ∀ (acts : List action) (s : CombineState),
      (∀ a ∈ acts, a.approvalTokens = []) →
      (∀ a ∈ acts, a.ethersNeeded.isSome = true) →
      actionsLoop b c acts s =
        .next ⟨s.handlers ++ acts.map (fun a => a.handlerAddr),
          s.datas ++ acts.map (fun a => a.data), s.totalEthers + sumEthers acts,
          s.approvalTokens, s.approvalAmounts, s.events⟩ := by
  intro acts
  induction acts with
  | nil => intro s _ _; simp [actionsLoop, sumEthers]
  | cons a rest ih =>
    intro s hA hE
    have hA0 : a.approvalTokens = [] := hA a (List.mem_cons_self _ _)
    have hE0 : a.ethersNeeded.isSome = true := hE a (List.mem_cons_self _ _)
    obtain ⟨ethers, he⟩ := Option.isSome_iff_exists.mp hE0
    simp only [actionsLoop, he, hA0, approvalLoop]
    rw [ih _ (fun x hx => hA x (List.mem_cons_of_mem _ hx))
      (fun x hx => hE x (List.mem_cons_of_mem _ hx))]
    simp [sumEthers, he]
    ring

theorem approvalLoop_complete (b : Bindings) (c : DefiClient) :
    ∀ (ts : List Address) (as : List (Option Int)) (s : CombineState),
      ts.length ≤ as.length →
      (∀ req ∈ ts.zip as, (c.clampedAmount req).isSome = true) →
      (∀ t ∈ ts, b.NewErc20 t = none) →
      ∃ s1, approvalLoop b c ts as s = .next s1 := by
  intro ts
  induction ts with
  | nil => intro as s _ _ _; exact ⟨s, by simp [approvalLoop]⟩
  | cons t ts ih =>
    intro as s hlen hreq hnew
    cases as with
    | nil => simp at hlen
    | cons a as =>
      have h0 := hreq (t, a) (by simp)
      have hn := hnew t (List.mem_cons_self _ _)
      cases a with
      | none => simp [DefiClient.clampedAmount] at h0
      | some amount =>
        cases hb : c.conn.BalanceOf t c.opts.From with
        | error err => simp [DefiClient.clampedAmount, hb] at h0
        | ok balance =>
          have hbal : (c.balanceOf b t).2 = .ok balance := by
            simp [DefiClient.balanceOf, hn, hb]
          simp only [approvalLoop, hbal]
          exact ih as _ (by simpa using hlen)
            (fun req hmem => hreq req (by simp [hmem]))
            (fun x hx => hnew x (List.mem_cons_of_mem _ hx))

theorem actionsLoop_complete (b : Bindings) (c : DefiClient) :
    ∀ (acts : List action) (s : CombineState),
      (∀ a ∈ acts, a.ethersNeeded.isSome = true) →
      (∀ a ∈ acts, a.approvalTokens.length ≤ a.approvalTokenAmounts.length) →
      (∀ req ∈ acts.flatMap action.requirements, (c.clampedAmount req).isSome = true) →
      (∀ t ∈ acts.flatMap (fun a => a.approvalTokens), b.NewErc20 t = none) →
      ∃ s1, actionsLoop b c acts s = .next s1 := by
  intro acts
  induction acts with
  | nil => intro s _ _ _ _; exact ⟨s, by simp [actionsLoop]⟩
  | cons a rest ih =>
    intro s hE hL hR hN
    obtain ⟨ethers, he⟩ := Option.isSome_iff_exists.mp (hE a (List.mem_cons_self _ _))
    obtain ⟨s3, h3⟩ := approvalLoop_complete b c a.approvalTokens a.approvalTokenAmounts
      ⟨s.handlers ++ [a.handlerAddr], s.datas ++ [a.data], s.totalEthers + ethers,
        s.approvalTokens, s.approvalAmounts, s.events⟩
      (hL a (List.mem_cons_self _ _))
      (fun req hmem => hR req (by
        simp only [List.flatMap_cons, List.mem_append]
        exact Or.inl hmem))
      (fun t ht => hN t (by
        simp only [List.flatMap_cons, List.mem_append]
        exact Or.inl ht))
    simp only [actionsLoop, he, h3]
    exact ih s3 (fun x hx => hE x (List.mem_cons_of_mem _ hx))
      (fun x hx => hL x (List.mem_cons_of_mem _ hx))
      (fun req hmem => hR req (by
        simp only [List.flatMap_cons, List.mem_append]
        exact Or.inr hmem))
      (fun t ht => hN t (by
        simp only [List.flatMap_cons, List.mem_append]
        exact Or.inr ht))

/-! ## `CombineActions` as a whole -/

/-- When every action has an amount for each of its tokens, the tokens of the
requirements are the approval tokens, in order. -/
theorem requirements_tokens :
    ∀ (acts : List action),
      (∀ a ∈ acts, a.approvalTokens.length ≤ a.approvalTokenAmounts.length) →
      (acts.flatMap action.requirements).map Prod.fst =
        acts.flatMap (fun a => a.approvalTokens) := by
  intro acts
  induction acts with
  | nil => intro _; rfl
  | cons a rest ih =>
    intro h
    have h0 := h a (List.mem_cons_self _ _)
    simp only [List.flatMap_cons, List.map_append]
    rw [ih (fun x hx => h x (List.mem_cons_of_mem _ hx))]
    simp [action.requirements, List.map_fst_zip _ _ h0]

/-- A successful `CombineActions` ran its loop to the end and returned the
loop's lists, with the injection in front when a token was collected. -/
theorem CombineActions_ok {b : Bindings} {c : DefiClient} {batch : Client.Actions}
    {r : Combined} (h : (c.CombineActions b (some batch)).outcome = .ok r)
    (hr : r.err = none) :
    ∃ s, actionsLoop b c batch.Actions ⟨[], [], 0, [], [], []⟩ = .next s ∧
      ((s.approvalTokens = [] ∧
          r = ⟨some s.handlers, some s.datas, some s.totalEthers, none⟩ ∧
          (c.CombineActions b (some batch)).events = s.events) ∨
        (s.approvalTokens ≠ [] ∧ ∃ injectData,
          b.Pack .Herc20tokeninABI "inject" (injectArgs s) = .ok injectData ∧
          r = ⟨some ([hFunds] ++ s.handlers), some ([injectData] ++ s.datas),
            some s.totalEthers, none⟩ ∧
          (c.CombineActions b (some batch)).events =
            s.events ++ [.pack .Herc20tokeninABI "inject" (injectArgs s)])) := by
  unfold DefiClient.CombineActions at h ⊢
  cases hl : actionsLoop b c batch.Actions ⟨[], [], 0, [], [], []⟩ with
  | panicked s p => simp [hl] at h
  | returned s err =>
    simp only [hl, Except.ok.injEq] at h
    subst h
    simp at hr
  | next s =>
    refine ⟨s, rfl, ?_⟩
    simp only [hl] at h ⊢
    by_cases hlen : s.approvalTokens.length > 0
    · have hne : s.approvalTokens ≠ [] := by
        intro h0; simp [h0] at hlen
      simp only [hlen, if_true] at h ⊢
      cases hj : b.JSON .Herc20tokeninABI with
      | some err =>
        simp only [hj, Except.ok.injEq] at h
        subst h
        simp at hr
      | none =>
        simp only [hj] at h ⊢
        cases hp : b.Pack .Herc20tokeninABI "inject" (injectArgs s) with
        | error err =>
          simp only [hp, Except.ok.injEq] at h
          subst h
          simp at hr
        | ok injectData =>
          simp only [hp, Except.ok.injEq] at h
          exact Or.inr ⟨hne, injectData, rfl, h.symm, rfl⟩
    · have hnil : s.approvalTokens = [] := by
        cases hs : s.approvalTokens with
        | nil => rfl
        | cons x xs => simp [hs] at hlen
      simp only [hlen, if_false, Except.ok.injEq] at h ⊢
      exact Or.inl ⟨hnil, h.symm, trivial⟩

/-- The only `pack` call `CombineActions` records is the `inject` call of line
353, made after the loop ran to its end. -/
theorem CombineActions_pack {b : Bindings} {c : DefiClient} {batch : Client.Actions}
    {abi : Abi} {method : String} {args : List AbiValue}
    (h : Event.pack abi method args ∈ (c.CombineActions b (some batch)).events) :
    ∃ s, actionsLoop b c batch.Actions ⟨[], [], 0, [], [], []⟩ = .next s ∧
      s.approvalTokens ≠ [] ∧
      abi = .Herc20tokeninABI ∧ method = "inject" ∧ args = injectArgs s := by
  obtain ⟨extra, hev, hread⟩ := actionsLoop_events b c batch.Actions ⟨[], [], 0, [], [], []⟩
  have hnot : Event.pack abi method args ∉ extra := by
    intro hmem
    have := hread _ hmem
    simp [Event.isBalanceRead] at this
  unfold DefiClient.CombineActions at h
  cases hl : actionsLoop b c batch.Actions ⟨[], [], 0, [], [], []⟩ with
  | panicked s p =>
    rw [hl] at hev
    simp only [hl, Flow.state] at h hev
    rw [hev] at h
    simp at h
    exact absurd h hnot
  | returned s err =>
    rw [hl] at hev
    simp only [hl, Flow.state] at h hev
    rw [hev] at h
    simp at h
    exact absurd h hnot
  | next s =>
    rw [hl] at hev
    simp only [hl, Flow.state] at h hev
    by_cases hlen : s.approvalTokens.length > 0
    · have hne : s.approvalTokens ≠ [] := by
        intro h0; simp [h0] at hlen
      simp only [hlen, if_true] at h
      cases hj : b.JSON .Herc20tokeninABI with
      | some err =>
        simp only [hj, hev] at h
        simp at h
        exact absurd h hnot
      | none =>
        simp only [hj] at h
        cases hp : b.Pack .Herc20tokeninABI "inject" (injectArgs s) with
        | error err =>
          simp only [hp, hev] at h
          simp at h
          rcases h with h | h
          · exact absurd h hnot
          · exact ⟨s, rfl, hne, h.1, h.2.1, h.2.2⟩
        | ok injectData =>
          simp only [hp, hev] at h
          simp at h
          rcases h with h | h
          · exact absurd h hnot
          · exact ⟨s, rfl, hne, h.1, h.2.1, h.2.2⟩
    · simp only [hlen, if_false, hev] at h
      simp at h
      exact absurd h hnot

/-- On a batch with a requirement in which every action has an amount of
ether and an amount for each token, when every token binds and reports a
balance and the injection ABI parses, `CombineActions` reads the balance of each
token in order and then packs the `inject` call on the collected tokens and the
clamped amounts. -/
theorem CombineActions_injects (b : Bindings) (c : DefiClient) (batch : Client.Actions)
    (hE : ∀ a ∈ batch.Actions, a.ethersNeeded.isSome = true)
    (hL : ∀ a ∈ batch.Actions, a.approvalTokens.length ≤ a.approvalTokenAmounts.length)
    (hR : ∀ req ∈ batch.requirements, (c.clampedAmount req).isSome = true)
    (hN : ∀ t ∈ batch.Actions.flatMap (fun a => a.approvalTokens), b.NewErc20 t = none)
    (hJ : b.JSON .Herc20tokeninABI = none)
    (hT : batch.Actions.flatMap (fun a => a.approvalTokens) ≠ []) :
    (c.CombineActions b (some batch)).events =
      (batch.Actions.flatMap (fun a => a.approvalTokens)).map
          (fun t => Event.balanceOf t c.opts.From) ++
        [.pack .Herc20tokeninABI "inject"
          [.addressSlice (batch.Actions.flatMap (fun a => a.approvalTokens)),
            .uintSlice (batch.requirements.map c.clampedAmount)]] := by
  obtain ⟨s, hl⟩ := actionsLoop_complete b c batch.Actions ⟨[], [], 0, [], [], []⟩ hE hL hR hN
  obtain ⟨_, _, _, _, _, h4, h5, h6⟩ := actionsLoop_next b c _ _ _ hl
  simp only [List.nil_append, List.map_nil] at h4 h5 h6
  have hlen : s.approvalTokens.length > 0 := by
    rw [h4]
    exact List.length_pos.mpr hT
  unfold DefiClient.CombineActions
  simp only [hl, hlen, if_true, hJ]
  cases hp : b.Pack .Herc20tokeninABI "inject" (injectArgs s) <;>
    simp only [injectArgs, h4, h5, h6, Actions.requirements]

/-! ## `Add` followed by `CombineActions` -/

theorem addLoop_some :
    ∀ (bs : List Client.Actions) (A : Client.Actions),
      Actions.addLoop (some A) (bs.map (fun x => ActionsPtr.other (some x))) =
        (some ⟨A.Actions ++ bs.flatMap (fun x => x.Actions)⟩, .ok ()) := by
  intro bs
  induction bs with
  | nil => intro A; simp [Actions.addLoop]
  | cons x rest ih =>
    intro A
    simp only [List.map_cons, Actions.addLoop, ih, List.flatMap_cons, List.append_assoc]

theorem addLoop_append :
    ∀ (xs ys : List ActionsPtr) (A R : Client.Actions),
      Actions.addLoop (some A) xs = (some R, .ok ()) →
      Actions.addLoop (some A) (xs ++ ys) = Actions.addLoop (some R) ys := by
  intro xs
  induction xs with
  | nil =>
    intro ys A R h
    simp only [Actions.addLoop, Prod.mk.injEq, Option.some.injEq, and_true] at h
    rw [List.nil_append, h]
  | cons x rest ih =>
    intro ys A R h
    cases x with
    | receiver =>
      simp only [Actions.addLoop] at h
      simp only [List.cons_append, Actions.addLoop]
      exact ih ys _ R h
    | other p =>
      cases p with
      | none => simp [Actions.addLoop] at h
      | some b =>
        simp only [Actions.addLoop] at h
        simp only [List.cons_append, Actions.addLoop]
        exact ih ys _ R h

theorem addLoop_nonnil :
    ∀ (args : List ActionsPtr) (A : Client.Actions), ActionsPtr.other none ∉ args →
      ∃ extra, Actions.addLoop (some A) args = (some ⟨A.Actions ++ extra⟩, .ok ()) := by
  intro args
  induction args with
  | nil => intro A _; exact ⟨[], by simp [Actions.addLoop]⟩
  | cons x rest ih =>
    intro A hnil
    have hrest : ActionsPtr.other none ∉ rest := fun h => hnil (List.mem_cons_of_mem _ h)
    cases x with
    | receiver =>
      obtain ⟨extra, h⟩ := ih ⟨A.Actions ++ A.Actions⟩ hrest
      refine ⟨A.Actions ++ extra, ?_⟩
      simp only [Actions.addLoop, h, List.append_assoc]
    | other p =>
      cases p with
      | none => exact absurd (List.mem_cons_self _ _) hnil
      | some b =>
        obtain ⟨extra, h⟩ := ih ⟨A.Actions ++ b.Actions⟩ hrest
        refine ⟨b.Actions ++ extra, ?_⟩
        simp only [Actions.addLoop, h, List.append_assoc]

theorem Add_of_addLoop (A R : Client.Actions) (args : List ActionsPtr) (hne : args ≠ [])
    (h : Actions.addLoop (some A) args = (some R, .ok ())) :
    Actions.Add (some A) (variadic args) = (some R, .ok none) := by
  cases args with
  | nil => exact absurd rfl hne
  | cons x rest => simp only [variadic, Actions.Add, h]

theorem flatMap_tokens_nil (acts : List action) :
    acts.flatMap (fun a => a.approvalTokens) = [] ↔ ∀ a ∈ acts, a.approvalTokens = [] := by
  induction acts with
  | nil => simp
  | cons a rest ih => simp [List.flatMap_cons, ih]

/-- C1, refuted as stated: for the batches of the supply-then-redeem test
(`SupplyActions(1e18, DAI)` and `RedeemActions(100000, DAI)`), each of which
carries one approval requirement, the combined targets of `Add(B1, B2)` are
`[hFunds, hCToken, hCToken]`: neither the targets of B1's actions followed by
B2's (`[hCToken, hCToken]`) nor the combined targets of B1 followed by the
combined targets of B2 (`[hFunds, hCToken, hFunds, hCToken]`). -/
theorem C1_counterexample :
    ((sampleClient 0 1).CombineActions sampleBindings supplyDAI).outcome =
        .ok ⟨some [hFunds, hCTokenAddr], some [[0xde, 0xad, 0xbe, 0xef], [0xde, 0xad, 0xbe, 0xef]],
          some 0, none⟩ ∧
      ((sampleClient 0 1).CombineActions sampleBindings redeemDAI).outcome =
        .ok ⟨some [hFunds, hCTokenAddr], some [[0xde, 0xad, 0xbe, 0xef], [0xde, 0xad, 0xbe, 0xef]],
          some 0, none⟩ ∧
      ((sampleClient 0 1).CombineActions sampleBindings
          (Actions.Add (some ⟨[]⟩) (variadic [.other supplyDAI, .other redeemDAI])).1).outcome =
        .ok ⟨some [hFunds, hCTokenAddr, hCTokenAddr],
          some [[0xde, 0xad, 0xbe, 0xef], [0xde, 0xad, 0xbe, 0xef], [0xde, 0xad, 0xbe, 0xef]],
          some 0, none⟩ ∧
      [hFunds, hCTokenAddr, hCTokenAddr] ≠ [hCTokenAddr] ++ [hCTokenAddr] ∧
      [hFunds, hCTokenAddr, hCTokenAddr] ≠ [hFunds, hCTokenAddr] ++ [hFunds, hCTokenAddr] := by
  refine ⟨by decide, by decide, by decide, by decide, by decide⟩

/-- C1 (amended): for all batches B1 and B2 and any balances, whenever
`CombineActions` succeeds on B1, on B2 and on the batch that `Add(B1, B2)`
leaves in an empty receiver, the total of the latter is the sum of the totals
of B1 and B2, and its target and payload sequences are those of B1's actions
followed by those of B2's actions, preceded by one approval-injection entry
(target `hFunds`) exactly when B1 or B2 carries an approval requirement; when
neither does, they are the concatenation of the sequences combined from B1
and from B2. -/
theorem C1_combine_add (b : Bindings) (c : DefiClient) (B1 B2 : Client.Actions)
    (r1 r2 r : Combined)
    (h1 : (c.CombineActions b (some B1)).outcome = .ok r1) (e1 : r1.err = none)
    (h2 : (c.CombineActions b (some B2)).outcome = .ok r2) (e2 : r2.err = none)
    (h : (c.CombineActions b
      (Actions.Add (some ⟨[]⟩) (variadic [.other (some B1), .other (some B2)])).1).outcome = .ok r)
    (e : r.err = none) :
    r1.totalEthers = some (sumEthers B1.Actions) ∧
    r2.totalEthers = some (sumEthers B2.Actions) ∧
    r.totalEthers = some (sumEthers B1.Actions + sumEthers B2.Actions) ∧
    r.handlers = some
      (List.replicate
          (if (B1.Actions ++ B2.Actions).flatMap (fun a => a.approvalTokens) = [] then 0 else 1)
          hFunds ++
        (B1.Actions.map (fun a => a.handlerAddr) ++ B2.Actions.map (fun a => a.handlerAddr))) ∧
    r.datas.map (fun d => d.length) = some
      ((if (B1.Actions ++ B2.Actions).flatMap (fun a => a.approvalTokens) = [] then 0 else 1) +
        (B1.Actions.length + B2.Actions.length)) ∧
    r.datas.map (List.drop
        (if (B1.Actions ++ B2.Actions).flatMap (fun a => a.approvalTokens) = [] then 0 else 1)) =
      some (B1.Actions.map (fun a => a.data) ++ B2.Actions.map (fun a => a.data)) ∧
    ((B1.Actions ++ B2.Actions).flatMap (fun a => a.approvalTokens) = [] →
      r1.handlers = some (B1.Actions.map (fun a => a.handlerAddr)) ∧
      r2.handlers = some (B2.Actions.map (fun a => a.handlerAddr)) ∧
      r1.datas = some (B1.Actions.map (fun a => a.data)) ∧
      r2.datas = some (B2.Actions.map (fun a => a.data)) ∧
      r.handlers = some
        (B1.Actions.map (fun a => a.handlerAddr) ++ B2.Actions.map (fun a => a.handlerAddr)) ∧
      r.datas = some (B1.Actions.map (fun a => a.data) ++ B2.Actions.map (fun a => a.data))) := by
  have hadd : (Actions.Add (some ⟨[]⟩) (variadic [.other (some B1), .other (some B2)])).1 =
      some ⟨B1.Actions ++ B2.Actions⟩ := by
    simp [Actions.Add, variadic, Actions.addLoop]
  rw [hadd] at h
  obtain ⟨s1, l1, c1⟩ := CombineActions_ok h1 e1
  obtain ⟨s2, l2, c2⟩ := CombineActions_ok h2 e2
  obtain ⟨s, l, c0⟩ := CombineActions_ok h e
  have l0 : actionsLoop b c (B1.Actions ++ B2.Actions) ⟨[], [], 0, [], [], []⟩ = .next s := l
  obtain ⟨_, _, p1, p2, p3, p4, _, _⟩ := actionsLoop_next b c _ _ _ l1
  obtain ⟨_, _, q1, q2, q3, q4, _, _⟩ := actionsLoop_next b c _ _ _ l2
  obtain ⟨_, _, t1, t2, t3, t4, _, _⟩ := actionsLoop_next b c _ _ _ l0
  simp only [List.nil_append, zero_add] at p1 p2 p3 p4 q1 q2 q3 q4 t1 t2 t3 t4
  have hsum : sumEthers (B1.Actions ++ B2.Actions) =
      sumEthers B1.Actions + sumEthers B2.Actions := by
    simp [sumEthers]
  have hr1 : r1.totalEthers = some (sumEthers B1.Actions) := by
    rcases c1 with ⟨_, hr, _⟩ | ⟨_, d, _, hr, _⟩ <;> simp [hr, p3]
  have hr2 : r2.totalEthers = some (sumEthers B2.Actions) := by
    rcases c2 with ⟨_, hr, _⟩ | ⟨_, d, _, hr, _⟩ <;> simp [hr, q3]
  refine ⟨hr1, hr2, ?_, ?_, ?_, ?_, ?_⟩
  · rcases c0 with ⟨_, hr, _⟩ | ⟨_, d, _, hr, _⟩ <;> simp [hr, t3, hsum]
  · rcases c0 with ⟨hn, hr, _⟩ | ⟨hn, d, _, hr, _⟩
    · rw [t4] at hn
      rw [if_pos hn, hr, t1]
      simp
    · rw [t4] at hn
      rw [if_neg hn, hr, t1]
      simp
  · rcases c0 with ⟨hn, hr, _⟩ | ⟨hn, d, _, hr, _⟩
    · rw [t4] at hn
      rw [if_pos hn, hr, t2]
      simp
    · rw [t4] at hn
      rw [if_neg hn, hr, t2]
      simp
      omega
  · rcases c0 with ⟨hn, hr, _⟩ | ⟨hn, d, _, hr, _⟩
    · rw [t4] at hn
      rw [if_pos hn, hr, t2]
      simp
    · rw [t4] at hn
      rw [if_neg hn, hr, t2]
      simp
  · intro hnil
    have hnil1 : B1.Actions.flatMap (fun a => a.approvalTokens) = [] := by
      rw [List.flatMap_append] at hnil
      exact (List.append_eq_nil.mp hnil).1
    have hnil2 : B2.Actions.flatMap (fun a => a.approvalTokens) = [] := by
      rw [List.flatMap_append] at hnil
      exact (List.append_eq_nil.mp hnil).2
    refine ⟨?_, ?_, ?_, ?_, ?_, ?_⟩
    · rcases c1 with ⟨_, hr, _⟩ | ⟨hn, _⟩
      · simp [hr, p1]
      · exact absurd (p4.trans hnil1) hn
    · rcases c2 with ⟨_, hr, _⟩ | ⟨hn, _⟩
      · simp [hr, q1]
      · exact absurd (q4.trans hnil2) hn
    · rcases c1 with ⟨_, hr, _⟩ | ⟨hn, _⟩
      · simp [hr, p2]
      · exact absurd (p4.trans hnil1) hn
    · rcases c2 with ⟨_, hr, _⟩ | ⟨hn, _⟩
      · simp [hr, q2]
      · exact absurd (q4.trans hnil2) hn
    · rcases c0 with ⟨_, hr, _⟩ | ⟨hn, _⟩
      · simp [hr, t1]
      · exact absurd (t4.trans hnil) hn
    · rcases c0 with ⟨_, hr, _⟩ | ⟨hn, _⟩
      · simp [hr, t2]
      · exact absurd (t4.trans hnil) hn

/-- C1 (amended), at the batches `[plainA]` and `swapNeeding100` with a balance
of 50: the total is 5 + 0 and one injection entry precedes the two targets. -/
theorem C1_combine_add_witness :
    (some (5 : Int)) = some (sumEthers [plainA] + sumEthers swapNeeding100.Actions) ∧
    some [hFunds, hCEtherAddr, 0x58a21cfcee675d65d577b251668f7dc46ea9c3a0] = some
      (List.replicate
          (if ([plainA] ++ swapNeeding100.Actions).flatMap (fun a => a.approvalTokens) = []
            then 0 else 1)
          hFunds ++
        ([plainA].map (fun a => a.handlerAddr) ++
          swapNeeding100.Actions.map (fun a => a.handlerAddr))) :=
  have key := C1_combine_add sampleBindings (sampleClient 50 1) ⟨[plainA]⟩ swapNeeding100
    ⟨some [hCEtherAddr], some [[1, 2, 3, 4]], some 5, none⟩
    ⟨some [hFunds, 0x58a21cfcee675d65d577b251668f7dc46ea9c3a0],
      some [[0xde, 0xad, 0xbe, 0xef], [1, 2, 3, 4]], some 0, none⟩
    ⟨some [hFunds, hCEtherAddr, 0x58a21cfcee675d65d577b251668f7dc46ea9c3a0],
      some [[0xde, 0xad, 0xbe, 0xef], [1, 2, 3, 4], [1, 2, 3, 4]], some 5, none⟩
    (by decide) rfl (by decide) rfl (by decide) rfl
  ⟨key.2.2.1, key.2.2.2.1⟩

/-! ## `Add` -/

/-- C2, refuted as stated: with the receiver itself as second argument,
`a.Add(b, a)` for a = `[plainA]` and b = `[plainB]` returns no error and leaves
`[plainA, plainB, plainA, plainB]` in the receiver: the second argument is
read when the loop reaches it, after b was appended.  That is not the old list
of a followed by the actions of b and the actions a had,
`[plainA, plainB, plainA]`. -/
theorem C2_counterexample :
    Actions.Add (some ⟨[plainA]⟩) (variadic [.other (some ⟨[plainB]⟩), .receiver]) =
        (some ⟨[plainA, plainB, plainA, plainB]⟩, .ok none) ∧
      [plainA, plainB, plainA, plainB] ≠ [plainA] ++ ([plainB] ++ [plainA]) := by
  refine ⟨by decide, by decide⟩

/-- C2 (amended): for every receiver batch A, `Add` of a non-empty list of
non-nil arguments returns no error and only appends: the old actions of A are
an unchanged leading segment of the new list.  When no argument is the receiver
itself (batches b1..bn), the receiver ends as the old actions of A followed by
the actions of b1, then b2, ..., then bn, each in its own order.  An argument
that is the receiver itself appends the list the receiver holds when the loop
reaches it: after b1..bn, the receiver, then c1..cm, the receiver holds
A ++ b1 ++ ... ++ bn twice, followed by c1 ++ ... ++ cm.  In general, with R
the list left by the arguments `args`, one more argument that is the receiver
leaves R ++ R and one more argument that is another batch b leaves
R ++ b. -/
theorem C2_add_appends (A : Client.Actions) (bs cs : List Client.Actions)
    (args : List ActionsPtr) (hne : bs ≠ []) (hargs : args ≠ [])
    (hnil : ActionsPtr.other none ∉ args) :
    Actions.Add (some A) (variadic (bs.map (fun x => ActionsPtr.other (some x)))) =
        (some ⟨A.Actions ++ bs.flatMap (fun x => x.Actions)⟩, .ok none) ∧
      (A.Actions ++ bs.flatMap (fun x => x.Actions)).take A.Actions.length = A.Actions ∧
      Actions.Add (some A)
          (variadic (bs.map (fun x => ActionsPtr.other (some x)) ++
            ActionsPtr.receiver :: cs.map (fun x => ActionsPtr.other (some x)))) =
        (some ⟨(A.Actions ++ bs.flatMap (fun x => x.Actions)) ++
            (A.Actions ++ bs.flatMap (fun x => x.Actions)) ++
            cs.flatMap (fun x => x.Actions)⟩, .ok none) ∧
      ∃ R : Client.Actions,
        Actions.Add (some A) (variadic args) = (some R, .ok none) ∧
        R.Actions.take A.Actions.length = A.Actions ∧
        Actions.Add (some A) (variadic (args ++ [ActionsPtr.receiver])) =
          (some ⟨R.Actions ++ R.Actions⟩, .ok none) ∧
        ∀ b : Client.Actions,
          Actions.Add (some A) (variadic (args ++ [ActionsPtr.other (some b)])) =
            (some ⟨R.Actions ++ b.Actions⟩, .ok none) := by
  have hbs := addLoop_some bs A
  refine ⟨?_, ?_, ?_, ?_⟩
  · exact Add_of_addLoop A _ _ (by simpa using hne) hbs
  · simp
  · refine Add_of_addLoop A _ _ (by simp) ?_
    rw [addLoop_append _ _ A _ hbs]
    simp only [Actions.addLoop]
    rw [addLoop_some cs]
  · obtain ⟨extra, h⟩ := addLoop_nonnil args A hnil
    refine ⟨⟨A.Actions ++ extra⟩, Add_of_addLoop A _ _ hargs h, by simp, ?_, ?_⟩
    · refine Add_of_addLoop A _ _ (by simp) ?_
      rw [addLoop_append _ _ A _ h]
      simp only [Actions.addLoop]
    · intro b
      refine Add_of_addLoop A _ _ (by simp) ?_
      rw [addLoop_append _ _ A _ h]
      simp only [Actions.addLoop]

/-- C2 (amended) at the receiver `[plainA]`: the batches `[plainB]`, `[]` and
`[plainA, plainB]` are appended in order; with the receiver itself after
`[plainB]` and `[plainA]` after that, the receiver holds
`[plainA, plainB]` twice, then `plainA`. -/
theorem C2_add_appends_witness :
    Actions.Add (some ⟨[plainA]⟩)
        (variadic (([⟨[plainB]⟩, ⟨[]⟩, ⟨[plainA, plainB]⟩] : List Client.Actions).map
          (fun x => ActionsPtr.other (some x)))) =
        (some ⟨[plainA, plainB, plainA, plainB]⟩, .ok none) ∧
      ([plainA, plainB, plainA, plainB] : List action).take 1 = [plainA] ∧
      Actions.Add (some ⟨[plainA]⟩)
          (variadic (([⟨[plainB]⟩, ⟨[]⟩, ⟨[plainA, plainB]⟩] : List Client.Actions).map
              (fun x => ActionsPtr.other (some x)) ++
            ActionsPtr.receiver ::
              ([⟨[plainA]⟩] : List Client.Actions).map (fun x => ActionsPtr.other (some x)))) =
        (some ⟨[plainA, plainB, plainA, plainB, plainA, plainB, plainA, plainB, plainA]⟩,
          .ok none) :=
  have key := C2_add_appends ⟨[plainA]⟩ [⟨[plainB]⟩, ⟨[]⟩, ⟨[plainA, plainB]⟩] [⟨[plainA]⟩]
    [.other (some ⟨[plainB]⟩), .receiver] (by simp) (by simp) (by decide)
  ⟨key.1, key.2.1, key.2.2.1⟩

/-- C3, the code at a nil argument: when the builder fails and returns nil
(here `SupplyActions` with a failing `Pack`), `Add` of that nil does not return
an error but panics with a nil dereference; with a nil in second place the
panic comes after the first batch was appended. -/
theorem C3_add_nil_argument_panics :
    (sampleClient 0 1).Compound.SupplyActions failingPackBindings (some 1) ETH = none ∧
      Actions.Add (some ⟨[plainA]⟩)
          (variadic
            [.other ((sampleClient 0 1).Compound.SupplyActions failingPackBindings (some 1) ETH)]) =
        (some ⟨[plainA]⟩, .error .nilDereference) ∧
      Actions.Add (some ⟨[plainA]⟩) (variadic [.other (some ⟨[plainB]⟩), .other none]) =
        (some ⟨[plainA, plainB]⟩, .error .nilDereference) := by
  refine ⟨by decide, by decide, by decide⟩

/-! ## `CombineActions` without approval requirements -/

theorem CombineActions_noApprovals (b : Bindings) (c : DefiClient) (batch : Client.Actions)
    (hA : ∀ a ∈ batch.Actions, a.approvalTokens = [])
    (hE : ∀ a ∈ batch.Actions, a.ethersNeeded.isSome = true) :
    c.CombineActions b (some batch) =
      ⟨[], .ok ⟨some (batch.Actions.map (fun a => a.handlerAddr)),
        some (batch.Actions.map (fun a => a.data)),
        some (sumEthers batch.Actions), none⟩⟩ := by
  unfold DefiClient.CombineActions
  simp only [actionsLoop_noApprovals b c batch.Actions _ hA hE]
  simp

/-- C4: for every batch none of whose actions has an approval requirement
(each action carrying an amount of ether, as every builder sets one),
`CombineActions` succeeds without calling a collaborator and returns the
handler addresses in batch order, the payloads in batch order (position i of
both lists comes from action i, so the lengths agree) and the sum of the
actions' `ethersNeeded`. -/
theorem C4_combine_aligned (b : Bindings) (c : DefiClient) (batch : Client.Actions)
    (hA : ∀ a ∈ batch.Actions, a.approvalTokens = [])
    (hE : ∀ a ∈ batch.Actions, a.ethersNeeded.isSome = true) :
    c.CombineActions b (some batch) =
      ⟨[], .ok ⟨some (batch.Actions.map (fun a => a.handlerAddr)),
        some (batch.Actions.map (fun a => a.data)),
        some ((batch.Actions.map (fun a => a.ethersNeeded.getD 0)).sum), none⟩⟩ ∧
    (batch.Actions.map (fun a => a.handlerAddr)).length =
      (batch.Actions.map (fun a => a.data)).length := by
  constructor
  · rw [CombineActions_noApprovals b c batch hA hE]
    rfl
  · simp

theorem C4_combine_aligned_witness :
    (sampleClient 0 1).CombineActions sampleBindings (some ⟨[plainA, plainB]⟩) =
      ⟨[], .ok ⟨some [hCEtherAddr, hFunds], some [[1, 2, 3, 4], [5, 6, 7, 8]], some 12, none⟩⟩ ∧
    ([plainA, plainB].map (fun a => a.handlerAddr)).length =
      ([plainA, plainB].map (fun a => a.data)).length :=
  C4_combine_aligned sampleBindings (sampleClient 0 1) ⟨[plainA, plainB]⟩
    (by decide) (by decide)

/-! ## Approval injection -/

/-- The lists packed by the `inject` call are the collected tokens and the
clamped amounts of the requirements, in batch order. -/
theorem inject_lists {b : Bindings} {c : DefiClient} {batch : Client.Actions}
    {tokens : List Address} {amounts : List (Option Int)}
    (hcall : Event.pack .Herc20tokeninABI "inject" [.addressSlice tokens, .uintSlice amounts] ∈
      (c.CombineActions b (some batch)).events) :
    tokens = batch.Actions.flatMap (fun a => a.approvalTokens) ∧
      amounts = batch.requirements.map c.clampedAmount ∧
      batch.requirements.map Prod.fst = tokens := by
  obtain ⟨s, hl, _, _, _, hargs⟩ := CombineActions_pack hcall
  obtain ⟨_, hlen, _, _, _, h4, h5, _⟩ := actionsLoop_next b c _ _ _ hl
  simp only [List.nil_append, List.map_nil] at h4 h5
  simp only [injectArgs, List.cons.injEq, AbiValue.addressSlice.injEq,
    AbiValue.uintSlice.injEq, and_true] at hargs
  obtain ⟨ht, ha⟩ := hargs
  refine ⟨ht.trans h4, ha.trans h5, ?_⟩
  rw [ht, h4]
  exact requirements_tokens batch.Actions hlen

/-- C5: for every approval requirement (token, requested) of a batch, at
position k of the requirements in batch order, and every balance of that token
the connection reports for the caller, the amount at position k of the list
`CombineActions` hands to the `inject` encoder is `min requested balance`:
`requested` when `requested <= balance`, the balance otherwise (and the token at
position k is that token). -/
theorem C5_injected_amount_is_min (b : Bindings) (c : DefiClient) (batch : Client.Actions)
    (tokens : List Address) (amounts : List (Option Int))
    (hcall : Event.pack .Herc20tokeninABI "inject" [.addressSlice tokens, .uintSlice amounts] ∈
      (c.CombineActions b (some batch)).events)
    (k : Nat) (token : Address) (requested balance : Int)
    (hreq : batch.requirements[k]? = some (token, some requested))
    (hbal : c.conn.BalanceOf token c.opts.From = .ok balance) :
    tokens[k]? = some token ∧
      amounts[k]? = some (some (min requested balance)) ∧
      (requested ≤ balance → amounts[k]? = some (some requested)) ∧
      (balance < requested → amounts[k]? = some (some balance)) := by
  obtain ⟨_, ha, ht⟩ := inject_lists hcall
  have hamt : amounts[k]? = some (some (if balance > requested then requested else balance)) := by
    rw [ha, List.getElem?_map, hreq]
    simp [DefiClient.clampedAmount, hbal]
  have htok : tokens[k]? = some token := by
    rw [← ht, List.getElem?_map, hreq]
    rfl
  refine ⟨htok, ?_, ?_, ?_⟩
  · rw [hamt]
    by_cases hgt : balance > requested
    · rw [if_pos hgt, min_eq_left (le_of_lt hgt)]
    · rw [if_neg hgt, min_eq_right (not_lt.mp hgt)]
  · intro hle
    rw [hamt]
    by_cases hgt : balance > requested
    · rw [if_pos hgt]
    · rw [if_neg hgt]
      have : balance = requested := le_antisymm (not_lt.mp hgt) hle
      rw [this]
  · intro hlt
    rw [hamt, if_neg (not_lt.mpr (le_of_lt hlt))]

/-- C5 at scenario B: a swap that requests an approval of 100 units while the
caller holds 50 has 50 injected. -/
theorem C5_injected_amount_is_min_witness :
    ([sampleToken] : List Address)[0]? = some sampleToken ∧
      ([some 50] : List (Option Int))[0]? = some (some (min 100 50)) ∧
      ((100 : Int) ≤ 50 → ([some 50] : List (Option Int))[0]? = some (some 100)) ∧
      ((50 : Int) < 100 → ([some 50] : List (Option Int))[0]? = some (some 50)) :=
  C5_injected_amount_is_min sampleBindings (sampleClient 50 1) swapNeeding100
    [sampleToken] [some 50] (by decide) 0 sampleToken 100 50 (by decide) (by decide)

/-- C6: for every batch of n actions on which `CombineActions` succeeds, the
total is the sum of the actions' `ethersNeeded` whether or not an injection is
made; if some action has an approval requirement, the target and payload lists
have length n+1, start with the injection (target `hFunds`, payload the packed
`inject` call on the collected tokens and clamped amounts) and continue with the
batch's actions in their order; if no action has one, the lists are exactly the
n targets and payloads of the batch and no call to a collaborator is made. -/
theorem C6_injection_first (b : Bindings) (c : DefiClient) (batch : Client.Actions)
    (r : Combined) (h : (c.CombineActions b (some batch)).outcome = .ok r)
    (hr : r.err = none) :
    r.totalEthers = some (sumEthers batch.Actions) ∧
    ((∃ a ∈ batch.Actions, a.approvalTokens ≠ []) →
      ∃ injectData,
        b.Pack .Herc20tokeninABI "inject"
            [.addressSlice (batch.Actions.flatMap (fun a => a.approvalTokens)),
              .uintSlice (batch.requirements.map c.clampedAmount)] = .ok injectData ∧
          r.handlers = some (hFunds :: batch.Actions.map (fun a => a.handlerAddr)) ∧
          r.datas = some (injectData :: batch.Actions.map (fun a => a.data)) ∧
          r.handlers.map List.length = some (batch.Actions.length + 1) ∧
          r.datas.map List.length = some (batch.Actions.length + 1)) ∧
    ((∀ a ∈ batch.Actions, a.approvalTokens = []) →
      r.handlers = some (batch.Actions.map (fun a => a.handlerAddr)) ∧
        r.datas = some (batch.Actions.map (fun a => a.data)) ∧
        r.handlers.map List.length = some batch.Actions.length ∧
        r.datas.map List.length = some batch.Actions.length ∧
        (c.CombineActions b (some batch)).events = []) := by
  obtain ⟨s, hl, hcase⟩ := CombineActions_ok h hr
  obtain ⟨_, hlen, h1, h2, h3, h4, h5, h6⟩ := actionsLoop_next b c _ _ _ hl
  simp only [List.nil_append, zero_add, List.map_nil] at h1 h2 h3 h4 h5 h6
  refine ⟨?_, ?_, ?_⟩
  · rcases hcase with ⟨_, hr0, _⟩ | ⟨_, d, _, hr0, _⟩ <;> simp [hr0, h3]
  · rintro ⟨a, ha, hne⟩
    rcases hcase with ⟨hnil, _, _⟩ | ⟨_, d, hp, hr0, _⟩
    · rw [h4] at hnil
      exact absurd ((flatMap_tokens_nil _).mp hnil a ha) hne
    · refine ⟨d, ?_, ?_, ?_, ?_, ?_⟩
      · rw [← hp]
        simp only [injectArgs, h4, h5, Actions.requirements]
      · simp [hr0, h1]
      · simp [hr0, h2]
      · simp [hr0, h1]
      · simp [hr0, h2]
  · intro hall
    have hnil := (flatMap_tokens_nil _).mpr hall
    rcases hcase with ⟨_, hr0, hev⟩ | ⟨hne, _⟩
    · refine ⟨?_, ?_, ?_, ?_, ?_⟩
      · simp [hr0, h1]
      · simp [hr0, h2]
      · simp [hr0, h1]
      · simp [hr0, h2]
      · rw [hev, h6, hnil]
        rfl
    · exact absurd (h4.trans hnil) hne

theorem C6_injection_first_witness :
    (some (0 : Int)) = some (sumEthers swapNeeding100.Actions) ∧
    ((∃ a ∈ swapNeeding100.Actions, a.approvalTokens ≠ []) →
      ∃ injectData,
        sampleBindings.Pack .Herc20tokeninABI "inject"
            [.addressSlice (swapNeeding100.Actions.flatMap (fun a => a.approvalTokens)),
              .uintSlice (swapNeeding100.requirements.map (sampleClient 50 1).clampedAmount)] =
            .ok injectData ∧
          some [hFunds, 0x58a21cfcee675d65d577b251668f7dc46ea9c3a0] =
            some (hFunds :: swapNeeding100.Actions.map (fun a => a.handlerAddr)) ∧
          some [[0xde, 0xad, 0xbe, 0xef], [1, 2, 3, 4]] =
            some (injectData :: swapNeeding100.Actions.map (fun a => a.data)) ∧
          some 2 = some (swapNeeding100.Actions.length + 1) ∧
          some 2 = some (swapNeeding100.Actions.length + 1)) ∧
    ((∀ a ∈ swapNeeding100.Actions, a.approvalTokens = []) →
      some [hFunds, 0x58a21cfcee675d65d577b251668f7dc46ea9c3a0] =
          some (swapNeeding100.Actions.map (fun a => a.handlerAddr)) ∧
        some [[0xde, 0xad, 0xbe, 0xef], [1, 2, 3, 4]] =
          some (swapNeeding100.Actions.map (fun a => a.data)) ∧
        some 2 = some swapNeeding100.Actions.length ∧
        some 2 = some swapNeeding100.Actions.length ∧
        ((sampleClient 50 1).CombineActions sampleBindings (some swapNeeding100)).events = []) :=
  C6_injection_first sampleBindings (sampleClient 50 1) swapNeeding100
    ⟨some [hFunds, 0x58a21cfcee675d65d577b251668f7dc46ea9c3a0],
      some [[0xde, 0xad, 0xbe, 0xef], [1, 2, 3, 4]], some 0, none⟩ (by decide) rfl

/-- C7: for every batch, the token list handed to the `inject` encoder by
`CombineActions` is the concatenation, in batch order, of each action's
`approvalTokens` in the action's own order, and the amount list has the same
length, its entry k being the clamped amount of requirement k.  The call is
made whenever the batch has a requirement, every action has an amount of ether
and an amount for each token, every token binds and reports a balance, and the
injection ABI parses. -/
theorem C7_inject_order (b : Bindings) (c : DefiClient) (batch : Client.Actions) :
    (∀ (tokens : List Address) (amounts : List (Option Int)),
      Event.pack .Herc20tokeninABI "inject" [.addressSlice tokens, .uintSlice amounts] ∈
        (c.CombineActions b (some batch)).events →
      tokens = batch.Actions.flatMap (fun a => a.approvalTokens) ∧
        amounts.length = tokens.length ∧
        batch.requirements.map Prod.fst = tokens ∧
        amounts = batch.requirements.map c.clampedAmount) ∧
    ((∀ a ∈ batch.Actions, a.ethersNeeded.isSome = true) →
      (∀ a ∈ batch.Actions, a.approvalTokens.length ≤ a.approvalTokenAmounts.length) →
      (∀ req ∈ batch.requirements, (c.clampedAmount req).isSome = true) →
      (∀ t ∈ batch.Actions.flatMap (fun a => a.approvalTokens), b.NewErc20 t = none) →
      b.JSON .Herc20tokeninABI = none →
      batch.Actions.flatMap (fun a => a.approvalTokens) ≠ [] →
      Event.pack .Herc20tokeninABI "inject"
          [.addressSlice (batch.Actions.flatMap (fun a => a.approvalTokens)),
            .uintSlice (batch.requirements.map c.clampedAmount)] ∈
        (c.CombineActions b (some batch)).events) := by
  constructor
  · intro tokens amounts hcall
    obtain ⟨h1, h2, h3⟩ := inject_lists hcall
    refine ⟨h1, ?_, h3, h2⟩
    rw [h2, ← h3]
    simp
  · intro hE hL hR hN hJ hT
    rw [CombineActions_injects b c batch hE hL hR hN hJ hT]
    simp

/-- C7 at the batch [Compound supply DAI, Compound redeem DAI] with a balance
of 5e17 of each token: the token list is [DAI token, cDAI token] and the
amounts are [5e17, 100000]. -/
theorem C7_inject_order_witness :
    (Actions.Add (some ⟨[]⟩) (variadic [.other supplyDAI, .other redeemDAI])).1 = some supplyThenRedeemDAI ∧
      Event.pack .Herc20tokeninABI "inject"
          [.addressSlice (supplyThenRedeemDAI.Actions.flatMap (fun a => a.approvalTokens)),
            .uintSlice (supplyThenRedeemDAI.requirements.map
              (sampleClient 500000000000000000 1).clampedAmount)] ∈
        ((sampleClient 500000000000000000 1).CombineActions sampleBindings
          (some supplyThenRedeemDAI)).events ∧
      [CoinToAddressMap DAI, CoinToAddressMap cDAI] =
        supplyThenRedeemDAI.Actions.flatMap (fun a => a.approvalTokens) ∧
      ([some 500000000000000000, some 100000] : List (Option Int)).length =
        [CoinToAddressMap DAI, CoinToAddressMap cDAI].length ∧
      supplyThenRedeemDAI.requirements.map Prod.fst =
        [CoinToAddressMap DAI, CoinToAddressMap cDAI] ∧
      [some 500000000000000000, some 100000] =
        supplyThenRedeemDAI.requirements.map
          (sampleClient 500000000000000000 1).clampedAmount :=
  ⟨by decide,
    (C7_inject_order sampleBindings (sampleClient 500000000000000000 1)
      supplyThenRedeemDAI).2 (by decide) (by decide) (by decide) (by decide) rfl (by decide),
    (C7_inject_order sampleBindings (sampleClient 500000000000000000 1)
      supplyThenRedeemDAI).1
      [CoinToAddressMap DAI, CoinToAddressMap cDAI] [some 500000000000000000, some 100000]
      (by decide)⟩

/-! ## `ExecuteActionsWithGasPrice` -/

/-- After a successful combination and with the proxy bound, the executor
makes one submission to the proxy and at most one wait for its receipt. -/
theorem Execute_events {b : Bindings} {c : DefiClient} {actions : Option Client.Actions}
    {events : List Event} {handlers : Option (List Address)} {datas : Option (List Bytes)}
    {totalEthers : Option Int} (gasPrice : Option Int)
    (hc : c.CombineActions b actions = ⟨events, .ok ⟨handlers, datas, totalEthers, none⟩⟩)
    (hbind : b.NewFurucombo ProxyAddr = none) :
    (c.ExecuteActionsWithGasPrice b actions gasPrice).events =
        events ++ [Event.batchExec ProxyAddr
          ⟨totalEthers, c.opts.Signer, c.opts.From, 5000000, gasPrice⟩
          (handlers.getD []) (datas.getD [])] ∨
      ∃ tx, (c.ExecuteActionsWithGasPrice b actions gasPrice).events =
        events ++ [Event.batchExec ProxyAddr
          ⟨totalEthers, c.opts.Signer, c.opts.From, 5000000, gasPrice⟩
          (handlers.getD []) (datas.getD []), .waitMined tx] := by
  unfold DefiClient.ExecuteActionsWithGasPrice
  rw [hc]
  simp only [hbind]
  cases hs : c.conn.BatchExec ProxyAddr
      ⟨totalEthers, c.opts.Signer, c.opts.From, 5000000, gasPrice⟩
      (handlers.getD []) (datas.getD []) with
  | error err => exact Or.inl rfl
  | ok tx =>
    refine Or.inr ⟨tx, ?_⟩
    cases hw : c.conn.WaitMined tx with
    | error err => simp only [hw]
    | ok receipt =>
      by_cases hst : receipt.Status = 1
      · simp [hw, hst]
      · simp [hw, hst]

/-- C8: for every size for which the builder returns a batch, and with the
proxy bound, executing the batch `[Compound().SupplyActions(size, ETH)]` makes
exactly one submission, to the proxy, with value `size`, the fixed gas limit,
the caller's signer and account, and the single Compound-ether handler as
target list; no balance is read and no `inject` call is packed. -/
theorem C8_supply_eth_submission (b : Bindings) (c : DefiClient) (size : Int)
    (gasPrice : Option Int) (batch : Client.Actions)
    (hB : c.Compound.SupplyActions b (some size) ETH = some batch)
    (hbind : b.NewFurucombo ProxyAddr = none) :
    Actions.Add (some ⟨[]⟩) (variadic [.other (c.Compound.SupplyActions b (some size) ETH)]) =
        (some batch, .ok none) ∧
      batch.Actions.map (fun a => a.handlerAddr) = [hCEtherAddr] ∧
      (c.ExecuteActionsWithGasPrice b (some batch) gasPrice).events.filter Event.isSubmission =
        [Event.batchExec ProxyAddr ⟨some size, c.opts.Signer, c.opts.From, 5000000, gasPrice⟩
          [hCEtherAddr] (batch.Actions.map (fun a => a.data))] ∧
      (c.ExecuteActionsWithGasPrice b (some batch) gasPrice).events.filter
        Event.isBalanceRead = [] ∧
      (c.ExecuteActionsWithGasPrice b (some batch) gasPrice).events.filter Event.isPack = [] := by
  have hshape : ∃ data, batch = ⟨[⟨hCEtherAddr, data, some size, [], []⟩]⟩ := by
    simp only [CompoundClient.SupplyActions, if_true, CompoundClient.supplyActionsETH] at hB
    cases hj : b.JSON .HcetherABI with
    | some err => simp [hj] at hB
    | none =>
      simp only [hj] at hB
      cases hp : b.Pack .HcetherABI "mint" [.uint (some size)] with
      | error err => simp [hp] at hB
      | ok data =>
        simp only [hp, Option.some.injEq] at hB
        exact ⟨data, hB.symm⟩
  obtain ⟨data, rfl⟩ := hshape
  have hcomb : c.CombineActions b (some ⟨[⟨hCEtherAddr, data, some size, [], []⟩]⟩) =
      ⟨[], .ok ⟨some [hCEtherAddr], some [data], some size, none⟩⟩ := by
    rw [CombineActions_noApprovals b c ⟨[⟨hCEtherAddr, data, some size, [], []⟩]⟩
      (by simp) (by simp)]
    simp [sumEthers]
  refine ⟨?_, ?_, ?_, ?_, ?_⟩
  · rw [hB]
    simp [Actions.Add, variadic, Actions.addLoop]
  · simp
  · rcases Execute_events gasPrice hcomb hbind with h | ⟨tx, h⟩ <;>
      rw [h] <;> simp [Event.isSubmission]
  · rcases Execute_events gasPrice hcomb hbind with h | ⟨tx, h⟩ <;>
      rw [h] <;> simp [Event.isBalanceRead]
  · rcases Execute_events gasPrice hcomb hbind with h | ⟨tx, h⟩ <;>
      rw [h] <;> simp [Event.isPack]

/-- C8 at scenario A: supplying 1 ETH (1e18 wei) submits one transaction of
value 1e18 to the proxy, with the Compound-ether handler as only target. -/
theorem C8_supply_eth_submission_witness :
    Actions.Add (some ⟨[]⟩)
        (variadic [.other ((sampleClient 0 1).Compound.SupplyActions sampleBindings
          (some 1000000000000000000) ETH)]) =
        (some ⟨[⟨hCEtherAddr, [0xde, 0xad, 0xbe, 0xef], some 1000000000000000000, [], []⟩]⟩,
          .ok none) ∧
      [hCEtherAddr] = [hCEtherAddr] ∧
      ((sampleClient 0 1).ExecuteActionsWithGasPrice sampleBindings
          (some ⟨[⟨hCEtherAddr, [0xde, 0xad, 0xbe, 0xef], some 1000000000000000000, [], []⟩]⟩)
          (some 20000000000)).events.filter Event.isSubmission =
        [Event.batchExec ProxyAddr
          ⟨some 1000000000000000000, 7, 0xabc, 5000000, some 20000000000⟩
          [hCEtherAddr] [[0xde, 0xad, 0xbe, 0xef]]] ∧
      ((sampleClient 0 1).ExecuteActionsWithGasPrice sampleBindings
          (some ⟨[⟨hCEtherAddr, [0xde, 0xad, 0xbe, 0xef], some 1000000000000000000, [], []⟩]⟩)
          (some 20000000000)).events.filter Event.isBalanceRead = [] ∧
      ((sampleClient 0 1).ExecuteActionsWithGasPrice sampleBindings
          (some ⟨[⟨hCEtherAddr, [0xde, 0xad, 0xbe, 0xef], some 1000000000000000000, [], []⟩]⟩)
          (some 20000000000)).events.filter Event.isPack = [] :=
  C8_supply_eth_submission sampleBindings (sampleClient 0 1) 1000000000000000000
    (some 20000000000)
    ⟨[⟨hCEtherAddr, [0xde, 0xad, 0xbe, 0xef], some 1000000000000000000, [], []⟩]⟩
    (by decide) rfl

/-- C9, the code at a failed submission: when `BatchExec` returns an error the
executor returns nil (line 304), and when binding the proxy fails it returns
nil without submitting (line 292); in both cases the caller sees no error. -/
theorem C9_submission_error_swallowed :
    (refusedClient 0).conn.BatchExec ProxyAddr ⟨some 5, 7, 0xabc, 5000000, some 1⟩
        [hCEtherAddr] [[1, 2, 3, 4]] =
        .error "insufficient funds for gas * price + value" ∧
      (refusedClient 0).ExecuteActionsWithGasPrice sampleBindings (some ⟨[plainA]⟩) (some 1) =
        ⟨[Event.batchExec ProxyAddr ⟨some 5, 7, 0xabc, 5000000, some 1⟩
            [hCEtherAddr] [[1, 2, 3, 4]]], .ok none⟩ ∧
      unboundProxyBindings.NewFurucombo ProxyAddr = some "no contract code at given address" ∧
      (sampleClient 0 1).ExecuteActionsWithGasPrice unboundProxyBindings (some ⟨[plainA]⟩)
          (some 1) = ⟨[], .ok none⟩ := by
  refine ⟨by decide, by decide, by decide, by decide⟩

/-- C10: for every batch and gas price for which combining succeeds, the proxy
binds, the submission is accepted and a receipt is obtained, the executor
returns an error if and only if the status of the receipt is not 1. -/
theorem C10_error_iff_status (b : Bindings) (c : DefiClient) (actions : Option Client.Actions)
    (gasPrice : Option Int) (r : Combined) (tx : Tx) (receipt : Receipt)
    (hc : (c.CombineActions b actions).outcome = .ok r) (hr : r.err = none)
    (hbind : b.NewFurucombo ProxyAddr = none)
    (hsub : c.conn.BatchExec ProxyAddr
      ⟨r.totalEthers, c.opts.Signer, c.opts.From, 5000000, gasPrice⟩
      (r.handlers.getD []) (r.datas.getD []) = .ok tx)
    (hw : c.conn.WaitMined tx = .ok receipt) :
    (c.ExecuteActionsWithGasPrice b actions gasPrice).outcome =
        .ok (if receipt.Status ≠ 1 then
          some "tx receipt status is not 1, indicating a failure occurred" else none) ∧
      ((∃ err, (c.ExecuteActionsWithGasPrice b actions gasPrice).outcome = .ok (some err)) ↔
        receipt.Status ≠ 1) := by
  have hout : (c.ExecuteActionsWithGasPrice b actions gasPrice).outcome =
      .ok (if receipt.Status ≠ 1 then
        some "tx receipt status is not 1, indicating a failure occurred" else none) := by
    unfold DefiClient.ExecuteActionsWithGasPrice
    cases hrun : c.CombineActions b actions with
    | mk events outcome =>
      rw [hrun] at hc
      simp only at hc
      subst hc
      cases r with
      | mk handlers datas totalEthers err =>
        simp only at hr
        subst hr
        simp only [hbind, hsub, hw]
        by_cases hst : receipt.Status = 1 <;> simp [hst]
  refine ⟨hout, ?_⟩
  rw [hout]
  by_cases hst : receipt.Status = 1 <;> simp [hst]

theorem C10_error_iff_status_witness :
    ((sampleClient 0 0).ExecuteActionsWithGasPrice sampleBindings (some ⟨[plainA]⟩)
        (some 1)).outcome =
        .ok (if (⟨0⟩ : Receipt).Status ≠ 1 then
          some "tx receipt status is not 1, indicating a failure occurred" else none) ∧
      ((∃ err, ((sampleClient 0 0).ExecuteActionsWithGasPrice sampleBindings (some ⟨[plainA]⟩)
        (some 1)).outcome = .ok (some err)) ↔ (⟨0⟩ : Receipt).Status ≠ 1) :=
  C10_error_iff_status sampleBindings (sampleClient 0 0) (some ⟨[plainA]⟩) (some 1)
    ⟨some [hCEtherAddr], some [[1, 2, 3, 4]], some 5, none⟩ 1 ⟨0⟩
    (by decide) rfl rfl rfl rfl

/-! ## `SuggestGasPrice` -/

theorem SuggestGasPrice_block (c : DefiClient) (fuel : Nat) (n : Int) :
    c.SuggestGasPrice (fuel + 1) (some n) =
      match c.conn.BlockByNumber (some n) with
      | .error err => some (.error err)
      | .ok transactions =>
        if transactions.length = 0 then c.SuggestGasPrice fuel (some (n - 1))
        else some (.ok (transactions.sum / (transactions.length : Int))) := by
  simp only [DefiClient.SuggestGasPrice, List.sum_eq_foldl]

theorem SuggestGasPrice_nil (c : DefiClient) (fuel : Nat) :
    c.SuggestGasPrice fuel none =
      match c.conn.HeaderByNumber none with
      | .error err => if fuel = 0 then none else some (.error err)
      | .ok n => c.SuggestGasPrice fuel (some n) := by
  cases fuel with
  | zero => cases c.conn.HeaderByNumber none <;> simp [DefiClient.SuggestGasPrice]
  | succ fuel =>
    cases hh : c.conn.HeaderByNumber none <;> simp [DefiClient.SuggestGasPrice, hh]

/-- The walk from block `m + d` down to the non-empty block `m` over `d` empty
blocks needs exactly `d + 1` nested calls. -/
theorem SuggestGasPrice_walk (c : DefiClient) (m : Int) (prices : List Int)
    (hm : c.conn.BlockByNumber (some m) = .ok prices) (hne : prices ≠ []) :
    ∀ (d : Nat), (∀ k : Int, m < k → k ≤ m + d → c.conn.BlockByNumber (some k) = .ok []) →
      ∀ fuel : Nat,
        (d < fuel → c.SuggestGasPrice fuel (some (m + d)) =
          some (.ok (prices.sum / (prices.length : Int)))) ∧
        (fuel ≤ d → c.SuggestGasPrice fuel (some (m + d)) = none) := by
  intro d
  induction d with
  | zero =>
    intro _ fuel
    cases fuel with
    | zero => simp [DefiClient.SuggestGasPrice]
    | succ fuel =>
      have hlen : prices.length ≠ 0 := by
        intro h0; exact hne (List.length_eq_zero.mp h0)
      simp [SuggestGasPrice_block, hm, hlen]
  | succ d ih =>
    intro hempty fuel
    have hblock : c.conn.BlockByNumber (some (m + ((d + 1 : Nat) : Int))) = .ok [] :=
      hempty _ (by push_cast; omega) (le_refl _)
    have hprev : (m + ((d + 1 : Nat) : Int)) - 1 = m + (d : Int) := by push_cast; ring
    have ih0 := ih (fun k h1 h2 => hempty k h1 (by push_cast; omega))
    cases fuel with
    | zero => simp [DefiClient.SuggestGasPrice]
    | succ fuel =>
      rw [SuggestGasPrice_block, hblock]
      simp only [List.length_nil, if_true, hprev]
      constructor
      · intro h; exact (ih0 fuel).1 (by omega)
      · intro h; exact (ih0 fuel).2 (by omega)

/-- C13: for every block that holds n >= 1 transactions with gas prices
p1..pn, `SuggestGasPrice` on that block number returns, at any depth allowance
of at least one call, the quotient of p1 + ... + pn by n in exact integer
arithmetic, which is the floor of the rational mean (for gas prices of any
sign, in particular non-negative ones). -/
theorem C13_mean_of_block (c : DefiClient) (n : Int) (prices : List Int)
    (hblock : c.conn.BlockByNumber (some n) = .ok prices) (hne : prices ≠ []) (fuel : Nat) :
    c.SuggestGasPrice (fuel + 1) (some n) =
        some (.ok (prices.sum / (prices.length : Int))) ∧
      prices.sum / (prices.length : Int) =
        ⌊((prices.sum : Int) : ℚ) / ((prices.length : Nat) : ℚ)⌋ := by
  constructor
  · have hlen : prices.length ≠ 0 := by
      intro h0; exact hne (List.length_eq_zero.mp h0)
    simp [SuggestGasPrice_block, hblock, hlen]
  · exact (Rat.floor_intCast_div_natCast prices.sum prices.length).symm

/-- C13 at block 30 of the sample chain: prices 10, 20 and 31 give 61 / 3. -/
theorem C13_mean_of_block_witness :
    sparseClient.SuggestGasPrice (0 + 1) (some 30) =
        some (.ok (([10, 20, 31] : List Int).sum / (([10, 20, 31] : List Int).length : Int))) ∧
      ([10, 20, 31] : List Int).sum / (([10, 20, 31] : List Int).length : Int) =
        ⌊((([10, 20, 31] : List Int).sum : Int) : ℚ) /
          ((([10, 20, 31] : List Int).length : Nat) : ℚ)⌋ :=
  C13_mean_of_block sparseClient 30 [10, 20, 31] (by decide) (by decide) 0

/-- C14: for every block number n whose block is readable and holds no
transaction, a call of `SuggestGasPrice` on n is the call on n - 1 one level
deeper, so it returns a result (a value or an error) exactly when the call on
n - 1 returns it. -/
theorem C14_empty_block_recurses (c : DefiClient) (n : Int)
    (hblock : c.conn.BlockByNumber (some n) = .ok []) :
    (∀ fuel : Nat, c.SuggestGasPrice (fuel + 1) (some n) = c.SuggestGasPrice fuel (some (n - 1))) ∧
      (∀ r : Except Error Int,
        (∃ fuel, c.SuggestGasPrice fuel (some n) = some r) ↔
          (∃ fuel, c.SuggestGasPrice fuel (some (n - 1)) = some r)) := by
  have hstep : ∀ fuel : Nat,
      c.SuggestGasPrice (fuel + 1) (some n) = c.SuggestGasPrice fuel (some (n - 1)) := by
    intro fuel
    rw [SuggestGasPrice_block, hblock]
    simp
  refine ⟨hstep, ?_⟩
  intro r
  constructor
  · rintro ⟨fuel, h⟩
    cases fuel with
    | zero => simp [DefiClient.SuggestGasPrice] at h
    | succ fuel => exact ⟨fuel, by rw [← hstep]; exact h⟩
  · rintro ⟨fuel, h⟩
    exact ⟨fuel + 1, by rw [hstep]; exact h⟩

/-- C14 at the empty block 31 of the sample chain, whose predecessor is the
non-empty block 30. -/
theorem C14_empty_block_recurses_witness :
    (∀ fuel : Nat, sparseClient.SuggestGasPrice (fuel + 1) (some 31) =
        sparseClient.SuggestGasPrice fuel (some (31 - 1))) ∧
      (∀ r : Except Error Int,
        (∃ fuel, sparseClient.SuggestGasPrice fuel (some 31) = some r) ↔
          (∃ fuel, sparseClient.SuggestGasPrice fuel (some (31 - 1)) = some r)) :=
  C14_empty_block_recurses sparseClient 31 (by decide)

/-- C15: for every chain and start block n such that m <= n is the greatest
non-empty block number up to n and the blocks from m to n are readable (those
above m being empty), `SuggestGasPrice` on n returns the floor mean of block m
after exactly n - m recursive steps, whatever their number: a depth allowance
of more than n - m calls gives the result, one of at most n - m calls does
not. -/
theorem C15_walk_terminates (c : DefiClient) (n m : Int) (prices : List Int)
    (hmn : m ≤ n) (hm : c.conn.BlockByNumber (some m) = .ok prices) (hne : prices ≠ [])
    (hempty : ∀ k : Int, m < k → k ≤ n → c.conn.BlockByNumber (some k) = .ok []) :
    (∀ fuel : Nat, (n - m).toNat < fuel →
        c.SuggestGasPrice fuel (some n) = some (.ok (prices.sum / (prices.length : Int)))) ∧
      (∀ fuel : Nat, fuel ≤ (n - m).toNat → c.SuggestGasPrice fuel (some n) = none) ∧
      prices.sum / (prices.length : Int) =
        ⌊((prices.sum : Int) : ℚ) / ((prices.length : Nat) : ℚ)⌋ := by
  have hd : m + (((n - m).toNat : Nat) : Int) = n := by
    rw [Int.toNat_of_nonneg (by omega)]
    ring
  have hwalk := SuggestGasPrice_walk c m prices hm hne (n - m).toNat
    (fun k h1 h2 => hempty k h1 (by rw [hd] at h2; exact h2))
  rw [hd] at hwalk
  exact ⟨fun fuel h => (hwalk fuel).1 h, fun fuel h => (hwalk fuel).2 h,
    (Rat.floor_intCast_div_natCast prices.sum prices.length).symm⟩

/-- C15 on the sample chain: from block 100 the walk crosses 70 empty blocks
(more than 64) down to block 30. -/
theorem C15_walk_terminates_witness :
    (∀ fuel : Nat, ((100 : Int) - 30).toNat < fuel →
        sparseClient.SuggestGasPrice fuel (some 100) =
          some (.ok (([10, 20, 31] : List Int).sum / (([10, 20, 31] : List Int).length : Int)))) ∧
      (∀ fuel : Nat, fuel ≤ ((100 : Int) - 30).toNat →
        sparseClient.SuggestGasPrice fuel (some 100) = none) ∧
      ([10, 20, 31] : List Int).sum / (([10, 20, 31] : List Int).length : Int) =
        ⌊((([10, 20, 31] : List Int).sum : Int) : ℚ) /
          ((([10, 20, 31] : List Int).length : Nat) : ℚ)⌋ :=
  C15_walk_terminates sparseClient 100 30 [10, 20, 31] (by decide) (by decide) (by decide)
    (by
      intro k h1 h2
      have h30 : ¬ k = 30 := by omega
      have h0 : ¬ k < 0 := by omega
      simp [sparseClient, sparseConn, h30, h0])

/-! ## `ExecuteActions` -/

/-- C12: `ExecuteActions` on a batch is `ExecuteActionsWithGasPrice` on the
batch and the price p that `SuggestGasPrice(nil)` returns; that price is the
estimate for the block whose number is in the latest header; when the estimator
returns an error (in particular when the header cannot be read),
`ExecuteActions` returns that error and makes no call at all. -/
theorem C12_execute_uses_estimator (b : Bindings) (c : DefiClient) (fuel : Nat)
    (actions : Option Client.Actions) :
    (∀ p : Int, c.SuggestGasPrice fuel none = some (.ok p) →
        c.ExecuteActions b fuel actions =
          some (c.ExecuteActionsWithGasPrice b actions (some p))) ∧
      (∀ err : Error, c.SuggestGasPrice fuel none = some (.error err) →
        c.ExecuteActions b fuel actions = some ⟨[], .ok (some err)⟩) ∧
      (∀ n : Int, c.conn.HeaderByNumber none = .ok n →
        c.SuggestGasPrice fuel none = c.SuggestGasPrice fuel (some n)) ∧
      (∀ err : Error, c.conn.HeaderByNumber none = .error err →
        c.SuggestGasPrice (fuel + 1) none = some (.error err)) := by
  refine ⟨?_, ?_, ?_, ?_⟩
  · intro p h
    simp [DefiClient.ExecuteActions, h]
  · intro err h
    simp [DefiClient.ExecuteActions, h]
  · intro n h
    rw [SuggestGasPrice_nil, h]
  · intro err h
    rw [SuggestGasPrice_nil, h]
    simp

set_option maxRecDepth 8000 in
/-- C12 on the sample chain (latest header 100, estimate 20 from block 30) and
on a chain whose header cannot be read. -/
theorem C12_execute_uses_estimator_witness :
    sparseClient.ExecuteActions sampleBindings 71 (some ⟨[plainA]⟩) =
        some (sparseClient.ExecuteActionsWithGasPrice sampleBindings (some ⟨[plainA]⟩)
          (some 20)) ∧
      headerlessClient.ExecuteActions sampleBindings 1 (some ⟨[plainA]⟩) =
        some ⟨[], .ok (some "connection refused")⟩ ∧
      sparseClient.SuggestGasPrice 71 none = sparseClient.SuggestGasPrice 71 (some 100) ∧
      headerlessClient.SuggestGasPrice (0 + 1) none = some (.error "connection refused") :=
  ⟨(C12_execute_uses_estimator sampleBindings sparseClient 71 (some ⟨[plainA]⟩)).1 20
      (by decide),
    (C12_execute_uses_estimator sampleBindings headerlessClient 1 (some ⟨[plainA]⟩)).2.1
      "connection refused" (by decide),
    (C12_execute_uses_estimator sampleBindings sparseClient 71 (some ⟨[plainA]⟩)).2.2.1 100
      rfl,
    (C12_execute_uses_estimator sampleBindings headerlessClient 0 (some ⟨[plainA]⟩)).2.2.2
      "connection refused" rfl⟩

/-! ## The submission made by `ExecuteActionsWithGasPrice` -/

theorem filter_submission_of_reads (events : List Event)
    (h : ∀ e ∈ events, e.isBalanceRead = true) :
    events.filter Event.isSubmission = [] := by
  rw [List.filter_eq_nil_iff]
  intro e he
  have := h e he
  cases e <;> simp [Event.isBalanceRead, Event.isSubmission] at this ⊢

/-- `CombineActions` makes no submission. -/
theorem CombineActions_no_submission (b : Bindings) (c : DefiClient)
    (actions : Option Client.Actions) :
    (c.CombineActions b actions).events.filter Event.isSubmission = [] := by
  cases actions with
  | none => simp [DefiClient.CombineActions]
  | some batch =>
    obtain ⟨extra, hev, hread⟩ :=
      actionsLoop_events b c batch.Actions ⟨[], [], 0, [], [], []⟩
    have hx := filter_submission_of_reads extra hread
    unfold DefiClient.CombineActions
    cases hl : actionsLoop b c batch.Actions ⟨[], [], 0, [], [], []⟩ with
    | panicked s p =>
      rw [hl] at hev
      simp only [Flow.state, List.nil_append] at hev
      simp only [hl, hev, hx]
    | returned s err =>
      rw [hl] at hev
      simp only [Flow.state, List.nil_append] at hev
      simp only [hl, hev, hx]
    | next s =>
      rw [hl] at hev
      simp only [Flow.state, List.nil_append] at hev
      simp only [hl]
      split
      · split
        · simp only [hev, hx]
        · split <;> simp [hev, hx, Event.isSubmission]
      · simp only [hev, hx]

/-- C11: for every batch on which `CombineActions` succeeds with (targets,
payloads, total) and every gas price g, with the proxy bound,
`ExecuteActionsWithGasPrice` makes exactly one submission: to the proxy
address, with arguments targets and payloads, value total, gas price g, gas
limit 5,000,000 and the caller's account and signer.  When `CombineActions`
returns an error, it makes no submission and returns that error, having made
only the calls of `CombineActions`. -/
theorem C11_one_submission (b : Bindings) (c : DefiClient) (actions : Option Client.Actions)
    (gasPrice : Option Int) :
    (∀ (targets : List Address) (payloads : List Bytes) (total : Int),
      (c.CombineActions b actions).outcome =
          .ok ⟨some targets, some payloads, some total, none⟩ →
        b.NewFurucombo ProxyAddr = none →
        (c.ExecuteActionsWithGasPrice b actions gasPrice).events.filter Event.isSubmission =
          [Event.batchExec ProxyAddr ⟨some total, c.opts.Signer, c.opts.From, 5000000, gasPrice⟩
            targets payloads]) ∧
      (∀ (r : Combined) (err : Error),
        (c.CombineActions b actions).outcome = .ok r → r.err = some err →
        c.ExecuteActionsWithGasPrice b actions gasPrice =
            ⟨(c.CombineActions b actions).events, .ok (some err)⟩ ∧
          (c.ExecuteActionsWithGasPrice b actions gasPrice).events.filter
            Event.isSubmission = []) := by
  have hno := CombineActions_no_submission b c actions
  constructor
  · intro targets payloads total hc hbind
    have hrun : c.CombineActions b actions =
        ⟨(c.CombineActions b actions).events,
          .ok ⟨some targets, some payloads, some total, none⟩⟩ := by
      rw [← hc]
    rcases Execute_events gasPrice hrun hbind with h | ⟨tx, h⟩
    · rw [h]
      simp [hno, Event.isSubmission]
    · rw [h]
      simp [hno, Event.isSubmission]
  · intro r err hc herr
    have hexec : c.ExecuteActionsWithGasPrice b actions gasPrice =
        ⟨(c.CombineActions b actions).events, .ok (some err)⟩ := by
      unfold DefiClient.ExecuteActionsWithGasPrice
      cases hrun : c.CombineActions b actions with
      | mk events outcome =>
        rw [hrun] at hc
        simp only at hc
        subst hc
        cases r with
        | mk handlers datas totalEthers e =>
          simp only at herr
          subst herr
          rfl
    refine ⟨hexec, ?_⟩
    rw [hexec]
    exact hno

/-- C11 at a one-action batch (one submission of value 5 at gas price 9) and at
a batch whose balance read fails (no submission, the error is returned). -/
theorem C11_one_submission_witness :
    ((sampleClient 0 1).ExecuteActionsWithGasPrice sampleBindings (some ⟨[plainA]⟩)
        (some 9)).events.filter Event.isSubmission =
        [Event.batchExec ProxyAddr
          ⟨some 5, (sampleClient 0 1).opts.Signer, (sampleClient 0 1).opts.From, 5000000, some 9⟩
          [hCEtherAddr] [[1, 2, 3, 4]]] ∧
      (unreadableClient.ExecuteActionsWithGasPrice sampleBindings (some swapNeeding100)
          (some 9) =
          ⟨(unreadableClient.CombineActions sampleBindings (some swapNeeding100)).events,
            .ok (some "execution reverted")⟩ ∧
        (unreadableClient.ExecuteActionsWithGasPrice sampleBindings (some swapNeeding100)
          (some 9)).events.filter Event.isSubmission = []) :=
  ⟨(C11_one_submission sampleBindings (sampleClient 0 1) (some ⟨[plainA]⟩) (some 9)).1
      [hCEtherAddr] [[1, 2, 3, 4]] 5 (by decide) rfl,
    (C11_one_submission sampleBindings unreadableClient (some swapNeeding100) (some 9)).2
      ⟨none, none, none, some "execution reverted"⟩ "execution reverted" (by decide) rfl⟩

/-! ## The empty batch and the error paths of `CombineActions` -/

/-- C19: on the batch with zero actions `CombineActions` succeeds and returns
an empty target list, an empty payload list and the total 0; it makes no call:
no balance is read and no injection is packed or added. -/
theorem C19_empty_batch (b : Bindings) (c : DefiClient) :
    c.CombineActions b (some ⟨[]⟩) = ⟨[], .ok ⟨some [], some [], some 0, none⟩⟩ := by
  simp [DefiClient.CombineActions, actionsLoop]

theorem approvalLoop_reads_ok (b : Bindings) (c : DefiClient) :
    ∀ (ts : List Address) (as : List (Option Int)) (s s1 : CombineState),
      approvalLoop b c ts as s = .next s1 →
      ∀ x ∈ ts, ∃ balance, (c.balanceOf b x).2 = .ok balance := by
  intro ts
  induction ts with
  | nil => intro as s s1 _ x hx; simp at hx
  | cons t ts ih =>
    intro as s s1 h x hx
    cases as with
    | nil => simp [approvalLoop] at h
    | cons a as =>
      simp only [approvalLoop] at h
      cases hbal : (c.balanceOf b t).2 with
      | error err => simp [hbal] at h
      | ok balance =>
        cases a with
        | none => simp [hbal] at h
        | some amount =>
          simp only [hbal] at h
          rcases List.mem_cons.mp hx with hx | hx
          · subst hx; exact ⟨balance, hbal⟩
          · exact ih as _ s1 h x hx

theorem approvalLoop_returned (b : Bindings) (c : DefiClient) :
    ∀ (ts : List Address) (as : List (Option Int)) (s s1 : CombineState) (err : Error),
      approvalLoop b c ts as s = .returned s1 err →
      ∃ pre t post, ts = pre ++ t :: post ∧
        (∀ x ∈ pre, ∃ balance, (c.balanceOf b x).2 = .ok balance) ∧
        (c.balanceOf b t).2 = .error err := by
  intro ts
  induction ts with
  | nil => intro as s s1 err h; simp [approvalLoop] at h
  | cons t ts ih =>
    intro as s s1 err h
    cases as with
    | nil => simp [approvalLoop] at h
    | cons a as =>
      simp only [approvalLoop] at h
      cases hbal : (c.balanceOf b t).2 with
      | error e =>
        simp only [hbal, Flow.returned.injEq] at h
        exact ⟨[], t, ts, rfl, by simp, by rw [← h.2]; exact hbal⟩
      | ok balance =>
        cases a with
        | none => simp [hbal] at h
        | some amount =>
          simp only [hbal] at h
          obtain ⟨pre, t1, post, h1, h2, h3⟩ := ih as _ s1 err h
          refine ⟨t :: pre, t1, post, by simp [h1], ?_, h3⟩
          intro x hx
          rcases List.mem_cons.mp hx with hx | hx
          · subst hx; exact ⟨balance, hbal⟩
          · exact h2 x hx

theorem actionsLoop_reads_ok (b : Bindings) (c : DefiClient) :
    ∀ (acts : List action) (s s1 : CombineState),
      actionsLoop b c acts s = .next s1 →
      ∀ x ∈ acts.flatMap (fun a => a.approvalTokens),
        ∃ balance, (c.balanceOf b x).2 = .ok balance := by
  intro acts
  induction acts with
  | nil => intro s s1 _ x hx; simp at hx
  | cons a rest ih =>
    intro s s1 h x hx
    simp only [actionsLoop] at h
    cases he : a.ethersNeeded with
    | none => simp [he] at h
    | some ethers =>
      simp only [he] at h
      cases hl : approvalLoop b c a.approvalTokens a.approvalTokenAmounts
          ⟨s.handlers ++ [a.handlerAddr], s.datas ++ [a.data],
            s.totalEthers + ethers, s.approvalTokens, s.approvalAmounts, s.events⟩ with
      | returned s3 err => simp [hl] at h
      | panicked s3 p => simp [hl] at h
      | next s3 =>
        simp only [hl] at h
        simp only [List.flatMap_cons, List.mem_append] at hx
        rcases hx with hx | hx
        · exact approvalLoop_reads_ok b c _ _ _ _ hl x hx
        · exact ih s3 s1 h x hx

theorem actionsLoop_returned (b : Bindings) (c : DefiClient) :
    ∀ (acts : List action) (s s1 : CombineState) (err : Error),
      actionsLoop b c acts s = .returned s1 err →
      ∃ pre t post, acts.flatMap (fun a => a.approvalTokens) = pre ++ t :: post ∧
        (∀ x ∈ pre, ∃ balance, (c.balanceOf b x).2 = .ok balance) ∧
        (c.balanceOf b t).2 = .error err := by
  intro acts
  induction acts with
  | nil => intro s s1 err h; simp [actionsLoop] at h
  | cons a rest ih =>
    intro s s1 err h
    simp only [actionsLoop] at h
    cases he : a.ethersNeeded with
    | none => simp [he] at h
    | some ethers =>
      simp only [he] at h
      cases hl : approvalLoop b c a.approvalTokens a.approvalTokenAmounts
          ⟨s.handlers ++ [a.handlerAddr], s.datas ++ [a.data],
            s.totalEthers + ethers, s.approvalTokens, s.approvalAmounts, s.events⟩ with
      | panicked s3 p => simp [hl] at h
      | returned s3 e =>
        simp only [hl, Flow.returned.injEq] at h
        obtain ⟨pre, t, post, h1, h2, h3⟩ := approvalLoop_returned b c _ _ _ _ _ hl
        refine ⟨pre, t, post ++ rest.flatMap (fun a => a.approvalTokens), ?_, h2, ?_⟩
        · simp [List.flatMap_cons, h1]
        · rw [← h.2]; exact h3
      | next s3 =>
        simp only [hl] at h
        obtain ⟨pre, t, post, h1, h2, h3⟩ := ih s3 s1 err h
        refine ⟨a.approvalTokens ++ pre, t, post, ?_, ?_, h3⟩
        · simp [List.flatMap_cons, h1]
        · intro x hx
          rcases List.mem_append.mp hx with hx | hx
          · exact approvalLoop_reads_ok b c _ _ _ _ hl x hx
          · exact h2 x hx

/-- C20: for every batch on which `CombineActions` returns, (1) an error is
never accompanied by a partial batch: targets, payloads and total are all nil;
(2) if the balance read of some approval requirement fails, the result is the
error of the first read that fails, with the three nils; (3, 4) if every read
succeeds and the `inject` call cannot be encoded (the ABI does not parse, or
`Pack` fails on the collected tokens and clamped amounts), the result is that
error, with the three nils. -/
theorem C20_error_without_batch (b : Bindings) (c : DefiClient) (batch : Client.Actions)
    (r : Combined) (h : (c.CombineActions b (some batch)).outcome = .ok r) :
    (r.err ≠ none → r.handlers = none ∧ r.datas = none ∧ r.totalEthers = none) ∧
    ((∃ t ∈ batch.Actions.flatMap (fun a => a.approvalTokens),
        ∃ e, (c.balanceOf b t).2 = .error e) →
      ∃ pre t post e,
        batch.Actions.flatMap (fun a => a.approvalTokens) = pre ++ t :: post ∧
        (∀ x ∈ pre, ∃ balance, (c.balanceOf b x).2 = .ok balance) ∧
        (c.balanceOf b t).2 = .error e ∧
        r = ⟨none, none, none, some e⟩) ∧
    ((∀ t ∈ batch.Actions.flatMap (fun a => a.approvalTokens),
        ∃ balance, (c.balanceOf b t).2 = .ok balance) →
      batch.Actions.flatMap (fun a => a.approvalTokens) ≠ [] →
      ∀ e, b.JSON .Herc20tokeninABI = some e → r = ⟨none, none, none, some e⟩) ∧
    ((∀ t ∈ batch.Actions.flatMap (fun a => a.approvalTokens),
        ∃ balance, (c.balanceOf b t).2 = .ok balance) →
      batch.Actions.flatMap (fun a => a.approvalTokens) ≠ [] →
      b.JSON .Herc20tokeninABI = none →
      ∀ e, b.Pack .Herc20tokeninABI "inject"
          [.addressSlice (batch.Actions.flatMap (fun a => a.approvalTokens)),
            .uintSlice (batch.requirements.map c.clampedAmount)] = .error e →
        r = ⟨none, none, none, some e⟩) := by
  unfold DefiClient.CombineActions at h
  cases hl : actionsLoop b c batch.Actions ⟨[], [], 0, [], [], []⟩ with
  | panicked s p => simp [hl] at h
  | returned s err =>
    simp only [hl, Except.ok.injEq] at h
    obtain ⟨pre, t, post, h1, h2, h3⟩ := actionsLoop_returned b c _ _ _ _ hl
    have hfail : ¬ ∀ x ∈ batch.Actions.flatMap (fun a => a.approvalTokens),
        ∃ balance, (c.balanceOf b x).2 = .ok balance := by
      intro hall
      obtain ⟨balance, hb⟩ := hall t (by rw [h1]; simp)
      rw [h3] at hb
      cases hb
    refine ⟨?_, ?_, ?_, ?_⟩
    · intro _; subst h; exact ⟨rfl, rfl, rfl⟩
    · intro _; exact ⟨pre, t, post, err, h1, h2, h3, h.symm⟩
    · intro hall; exact absurd hall hfail
    · intro hall; exact absurd hall hfail
  | next s =>
    have hok := actionsLoop_reads_ok b c _ _ _ hl
    obtain ⟨_, _, _, _, _, h4, h5, _⟩ := actionsLoop_next b c _ _ _ hl
    simp only [List.nil_append, List.map_nil] at h4 h5
    have hargs : injectArgs s =
        [.addressSlice (batch.Actions.flatMap (fun a => a.approvalTokens)),
          .uintSlice (batch.requirements.map c.clampedAmount)] := by
      simp only [injectArgs, h4, h5, Actions.requirements]
    simp only [hl] at h
    refine ⟨?_, ?_, ?_, ?_⟩
    · intro hne
      by_cases hlen : s.approvalTokens.length > 0
      · simp only [hlen, if_true] at h
        cases hj : b.JSON .Herc20tokeninABI with
        | some e =>
          simp only [hj, Except.ok.injEq] at h
          subst h; exact ⟨rfl, rfl, rfl⟩
        | none =>
          simp only [hj] at h
          cases hp : b.Pack .Herc20tokeninABI "inject" (injectArgs s) with
          | error e =>
            simp only [hp, Except.ok.injEq] at h
            subst h; exact ⟨rfl, rfl, rfl⟩
          | ok d =>
            simp only [hp, Except.ok.injEq] at h
            subst h; simp at hne
      · simp only [hlen, if_false, Except.ok.injEq] at h
        subst h; simp at hne
    · rintro ⟨t, ht, e, hte⟩
      obtain ⟨balance, hb⟩ := hok t ht
      rw [hte] at hb
      cases hb
    · intro _ hne e hj
      have hlen : s.approvalTokens.length > 0 := by
        rw [h4]; exact List.length_pos.mpr hne
      simp only [hlen, if_true, hj, Except.ok.injEq] at h
      exact h.symm
    · intro _ hne hj e hp
      have hlen : s.approvalTokens.length > 0 := by
        rw [h4]; exact List.length_pos.mpr hne
      rw [← hargs] at hp
      simp only [hlen, if_true, hj, hp, Except.ok.injEq] at h
      exact h.symm

/-- C20 at a batch whose balance read fails, and at the same batch when the
read succeeds and `Pack` fails. -/
theorem C20_error_without_batch_witness :
    ((⟨none, none, none, some "execution reverted"⟩ : Combined).err ≠ none →
        (⟨none, none, none, some "execution reverted"⟩ : Combined).handlers = none ∧
        (⟨none, none, none, some "execution reverted"⟩ : Combined).datas = none ∧
        (⟨none, none, none, some "execution reverted"⟩ : Combined).totalEthers = none) ∧
      (∃ pre t post e,
        swapNeeding100.Actions.flatMap (fun a => a.approvalTokens) = pre ++ t :: post ∧
        (∀ x ∈ pre, ∃ balance, (unreadableClient.balanceOf sampleBindings x).2 = .ok balance) ∧
        (unreadableClient.balanceOf sampleBindings t).2 = .error e ∧
        (⟨none, none, none, some "execution reverted"⟩ : Combined) =
          ⟨none, none, none, some e⟩) ∧
      (⟨none, none, none, some "abi: cannot use nil as type ptr as argument"⟩ : Combined) =
        ⟨none, none, none, some "abi: cannot use nil as type ptr as argument"⟩ :=
  ⟨(C20_error_without_batch sampleBindings unreadableClient swapNeeding100
      ⟨none, none, none, some "execution reverted"⟩ (by decide)).1,
    (C20_error_without_batch sampleBindings unreadableClient swapNeeding100
      ⟨none, none, none, some "execution reverted"⟩ (by decide)).2.1
      ⟨sampleToken, by decide, "execution reverted", by decide⟩,
    (C20_error_without_batch failingPackBindings (sampleClient 50 1) swapNeeding100
      ⟨none, none, none, some "abi: cannot use nil as type ptr as argument"⟩
      (by decide)).2.2.2
      (fun _ _ => ⟨50, rfl⟩) (by decide) rfl "abi: cannot use nil as type ptr as argument"
      (by decide)⟩

/-! ## The composite builders -/

theorem compositeLoop_spec :
    ∀ (acts : List action) (hs : List Address) (ds : List Bytes) (t : Int)
      (hs1 : List Address) (ds1 : List Bytes) (t1 : Int),
      compositeLoop acts hs ds t = .ok (hs1, ds1, t1) →
      (∀ a ∈ acts, a.ethersNeeded.isSome = true) ∧
        hs1 = hs ++ acts.map (fun a => a.handlerAddr) ∧
        ds1 = ds ++ acts.map (fun a => a.data) ∧
        t1 = t + sumEthers acts := by
  intro acts
  induction acts with
  | nil =>
    intro hs ds t hs1 ds1 t1 h
    simp only [compositeLoop, Except.ok.injEq, Prod.mk.injEq] at h
    obtain ⟨h1, h2, h3⟩ := h
    subst h1 h2 h3
    simp [sumEthers]
  | cons a rest ih =>
    intro hs ds t hs1 ds1 t1 h
    simp only [compositeLoop] at h
    cases he : a.ethersNeeded with
    | none => simp [he] at h
    | some ethers =>
      simp only [he] at h
      obtain ⟨h1, h2, h3, h4⟩ := ih _ _ _ _ _ _ h
      refine ⟨?_, ?_, ?_, ?_⟩
      · intro x hx
        rcases List.mem_cons.mp hx with hx | hx
        · subst hx; simp [he]
        · exact h1 x hx
      · rw [h2]; simp
      · rw [h3]; simp
      · rw [h4]; simp [sumEthers, he]; ring

theorem compositeLoop_ok :
    ∀ (acts : List action) (hs : List Address) (ds : List Bytes) (t : Int),
      (∀ a ∈ acts, a.ethersNeeded.isSome = true) →
      compositeLoop acts hs ds t =
        .ok (hs ++ acts.map (fun a => a.handlerAddr), ds ++ acts.map (fun a => a.data),
          t + sumEthers acts) := by
  intro acts
  induction acts with
  | nil => intro hs ds t _; simp [compositeLoop, sumEthers]
  | cons a rest ih =>
    intro hs ds t hE
    obtain ⟨ethers, he⟩ := Option.isSome_iff_exists.mp (hE a (List.mem_cons_self _ _))
    simp only [compositeLoop, he]
    rw [ih _ _ _ (fun x hx => hE x (List.mem_cons_of_mem _ hx))]
    simp [sumEthers, he]
    ring

/-- When the inner batch aggregates, the sub-batch payload encodes with at
least four bytes and both ABIs parse, `FlashLoanActions` packs the two calls and
returns one action. -/
theorem FlashLoanActions_run (b : Bindings) (ac : AaveClient) (size : Option Int)
    (coin : coinType) (inner : Client.Actions) (payload : Bytes)
    (hE : ∀ a ∈ inner.Actions, a.ethersNeeded.isSome = true)
    (hJ : b.JSON .FurucomboABI = none)
    (hP : b.Pack .FurucomboABI "execs"
      [.addressSlice (inner.Actions.map (fun a => a.handlerAddr)),
        .bytesSlice (inner.Actions.map (fun a => a.data))] = .ok payload)
    (hL : 4 ≤ payload.length) (hJA : b.JSON .HaaveABI = none) :
    ac.FlashLoanActions b size coin (some inner) =
      ⟨[.pack .FurucomboABI "execs"
          [.addressSlice (inner.Actions.map (fun a => a.handlerAddr)),
            .bytesSlice (inner.Actions.map (fun a => a.data))],
        .pack .HaaveABI "flashLoan"
          [.address (CoinToAddressMap coin), .uint size, .bytes (payload.drop 4)]],
        .ok (some ⟨[⟨hAaveAddr,
          (match b.Pack .HaaveABI "flashLoan"
              [.address (CoinToAddressMap coin), .uint size, .bytes (payload.drop 4)] with
            | .ok flashLoanData => flashLoanData
            | .error _ => []),
          some (sumEthers inner.Actions), [], []⟩]⟩)⟩ := by
  have hloop := compositeLoop_ok inner.Actions [] [] 0 hE
  simp only [List.nil_append, zero_add] at hloop
  have hlt : ¬ payload.length < 4 := by omega
  simp only [AaveClient.FlashLoanActions, hloop, hJ, hP, hJA, hlt, if_false]

/-- The same for `FlashSwapActions`, whose result is nil when the outer `Pack`
fails. -/
theorem FlashSwapActions_run (b : Bindings) (uc : UniswapClient) (size : Option Int)
    (coinBorrow coinRepay : coinType) (inner : Client.Actions) (payload : Bytes)
    (hE : ∀ a ∈ inner.Actions, a.ethersNeeded.isSome = true)
    (hJ : b.JSON .FurucomboABI = none)
    (hP : b.Pack .FurucomboABI "execs"
      [.addressSlice (inner.Actions.map (fun a => a.handlerAddr)),
        .bytesSlice (inner.Actions.map (fun a => a.data))] = .ok payload)
    (hL : 4 ≤ payload.length) (hJS : b.JSON .SwapperABI = none) :
    uc.FlashSwapActions b size coinBorrow coinRepay (some inner) =
      ⟨[.pack .FurucomboABI "execs"
          [.addressSlice (inner.Actions.map (fun a => a.handlerAddr)),
            .bytesSlice (inner.Actions.map (fun a => a.data))],
        .pack .SwapperABI "startSwap"
          [.address (CoinToAddressMap coinBorrow), .uint size,
            .address (CoinToAddressMap coinRepay), .bytes (payload.drop 4)]],
        .ok (match b.Pack .SwapperABI "startSwap"
            [.address (CoinToAddressMap coinBorrow), .uint size,
              .address (CoinToAddressMap coinRepay), .bytes (payload.drop 4)] with
          | .ok flashSwapData =>
            some ⟨[⟨hSwapper, flashSwapData, some (sumEthers inner.Actions), [], []⟩]⟩
          | .error _ => none)⟩ := by
  have hloop := compositeLoop_ok inner.Actions [] [] 0 hE
  simp only [List.nil_append, zero_add] at hloop
  have hlt : ¬ payload.length < 4 := by omega
  simp only [UniswapClient.FlashSwapActions, hloop, hJ, hP, hJS, hlt, if_false]
  cases b.Pack .SwapperABI "startSwap"
      [.address (CoinToAddressMap coinBorrow), .uint size,
        .address (CoinToAddressMap coinRepay), .bytes (payload.drop 4)] <;> rfl

/-- C16: for every inner batch and loan parameters, when the sub-batch
(`execs`) payload encodes to L >= 4 bytes, the callback-data argument that
`FlashLoanActions` hands to the `flashLoan` encoder, and `FlashSwapActions` to
the `startSwap` encoder, is that payload without its first 4 bytes: it has
length L - 4, its byte i is byte 4 + i of the payload, and the builders do not
panic (the slice stays in range). -/
theorem C16_callback_data (b : Bindings) (ac : AaveClient) (uc : UniswapClient)
    (size : Option Int) (coin coinRepay : coinType) (inner : Client.Actions) (payload : Bytes)
    (hE : ∀ a ∈ inner.Actions, a.ethersNeeded.isSome = true)
    (hJ : b.JSON .FurucomboABI = none)
    (hP : b.Pack .FurucomboABI "execs"
      [.addressSlice (inner.Actions.map (fun a => a.handlerAddr)),
        .bytesSlice (inner.Actions.map (fun a => a.data))] = .ok payload)
    (hL : 4 ≤ payload.length) :
    (b.JSON .HaaveABI = none →
      (ac.FlashLoanActions b size coin (some inner)).events =
          [.pack .FurucomboABI "execs"
            [.addressSlice (inner.Actions.map (fun a => a.handlerAddr)),
              .bytesSlice (inner.Actions.map (fun a => a.data))],
            .pack .HaaveABI "flashLoan"
              [.address (CoinToAddressMap coin), .uint size, .bytes (payload.drop 4)]] ∧
        ∀ p, (ac.FlashLoanActions b size coin (some inner)).outcome ≠ .error p) ∧
    (b.JSON .SwapperABI = none →
      (uc.FlashSwapActions b size coin coinRepay (some inner)).events =
          [.pack .FurucomboABI "execs"
            [.addressSlice (inner.Actions.map (fun a => a.handlerAddr)),
              .bytesSlice (inner.Actions.map (fun a => a.data))],
            .pack .SwapperABI "startSwap"
              [.address (CoinToAddressMap coin), .uint size,
                .address (CoinToAddressMap coinRepay), .bytes (payload.drop 4)]] ∧
        ∀ p, (uc.FlashSwapActions b size coin coinRepay (some inner)).outcome ≠ .error p) ∧
    (payload.drop 4).length = payload.length - 4 ∧
    (∀ i, i < payload.length - 4 → (payload.drop 4)[i]? = payload[4 + i]?) := by
  refine ⟨?_, ?_, ?_, ?_⟩
  · intro hJA
    rw [FlashLoanActions_run b ac size coin inner payload hE hJ hP hL hJA]
    exact ⟨rfl, fun p h => by cases h⟩
  · intro hJS
    rw [FlashSwapActions_run b uc size coin coinRepay inner payload hE hJ hP hL hJS]
    exact ⟨rfl, fun p h => by cases h⟩
  · simp
  · intro i _
    exact List.getElem?_drop payload 4 i

/-- C16 at the inner batch `[plainA, plainB]` with a payload of 7 bytes: the
embedded bytes are the last 3. -/
theorem C16_callback_data_witness :
    ((⟨sampleClient 0 1⟩ : AaveClient).FlashLoanActions selectorBindings (some 5) DAI
        (some ⟨[plainA, plainB]⟩)).events =
        [.pack .FurucomboABI "execs"
          [.addressSlice [hCEtherAddr, hFunds], .bytesSlice [[1, 2, 3, 4], [5, 6, 7, 8]]],
          .pack .HaaveABI "flashLoan"
            [.address (CoinToAddressMap DAI), .uint (some 5), .bytes [1, 2, 3]]] ∧
      ((⟨sampleClient 0 1⟩ : UniswapClient).FlashSwapActions selectorBindings (some 5) DAI USDC
        (some ⟨[plainA, plainB]⟩)).events =
        [.pack .FurucomboABI "execs"
          [.addressSlice [hCEtherAddr, hFunds], .bytesSlice [[1, 2, 3, 4], [5, 6, 7, 8]]],
          .pack .SwapperABI "startSwap"
            [.address (CoinToAddressMap DAI), .uint (some 5), .address (CoinToAddressMap USDC),
              .bytes [1, 2, 3]]] ∧
      (([0xaa, 0xbb, 0xcc, 0xdd, 1, 2, 3] : Bytes).drop 4).length =
        ([0xaa, 0xbb, 0xcc, 0xdd, 1, 2, 3] : Bytes).length - 4 :=
  have key := C16_callback_data selectorBindings ⟨sampleClient 0 1⟩ ⟨sampleClient 0 1⟩ (some 5)
    DAI USDC ⟨[plainA, plainB]⟩ [0xaa, 0xbb, 0xcc, 0xdd, 1, 2, 3]
    (by decide) rfl rfl (by decide)
  ⟨(key.1 rfl).1, (key.2.1 rfl).1, key.2.2.1⟩

/-- C17: for every inner batch (the empty one included), asset and amount for
which the encodings succeed (the ABIs parse, the sub-batch payload encodes with
its 4-byte selector, the outer call encodes), `FlashLoanActions` returns a
batch of exactly one action, whose `ethersNeeded` is the sum of the inner
actions' `ethersNeeded` and whose target is `hAaveAddr`; `FlashSwapActions`
returns exactly one action with that value and target `hSwapper`; both targets
differ from the proxy address. -/
theorem C17_composite_action (b : Bindings) (ac : AaveClient) (uc : UniswapClient)
    (size : Option Int) (coin coinRepay : coinType) (inner : Client.Actions) (payload : Bytes)
    (hE : ∀ a ∈ inner.Actions, a.ethersNeeded.isSome = true)
    (hJ : b.JSON .FurucomboABI = none)
    (hP : b.Pack .FurucomboABI "execs"
      [.addressSlice (inner.Actions.map (fun a => a.handlerAddr)),
        .bytesSlice (inner.Actions.map (fun a => a.data))] = .ok payload)
    (hL : 4 ≤ payload.length) :
    (∀ data, b.JSON .HaaveABI = none →
      b.Pack .HaaveABI "flashLoan"
          [.address (CoinToAddressMap coin), .uint size, .bytes (payload.drop 4)] = .ok data →
      (ac.FlashLoanActions b size coin (some inner)).outcome =
        .ok (some ⟨[⟨hAaveAddr, data,
          some ((inner.Actions.map (fun a => a.ethersNeeded.getD 0)).sum), [], []⟩]⟩)) ∧
    (∀ data, b.JSON .SwapperABI = none →
      b.Pack .SwapperABI "startSwap"
          [.address (CoinToAddressMap coin), .uint size, .address (CoinToAddressMap coinRepay),
            .bytes (payload.drop 4)] = .ok data →
      (uc.FlashSwapActions b size coin coinRepay (some inner)).outcome =
        .ok (some ⟨[⟨hSwapper, data,
          some ((inner.Actions.map (fun a => a.ethersNeeded.getD 0)).sum), [], []⟩]⟩)) ∧
    hAaveAddr ≠ ProxyAddr ∧ hSwapper ≠ ProxyAddr := by
  refine ⟨?_, ?_, by decide, by decide⟩
  · intro data hJA hPA
    rw [FlashLoanActions_run b ac size coin inner payload hE hJ hP hL hJA, hPA]
    rfl
  · intro data hJS hPS
    rw [FlashSwapActions_run b uc size coin coinRepay inner payload hE hJ hP hL hJS, hPS]
    rfl

/-- C17 at scenario C (inner batch supply then redeem, of total 0) and at the
empty inner batch. -/
theorem C17_composite_action_witness :
    ((⟨sampleClient 0 1⟩ : AaveClient).FlashLoanActions selectorBindings
        (some 1000000000000000000) DAI (some supplyThenRedeemDAI)).outcome =
        .ok (some ⟨[⟨hAaveAddr, [0xaa, 0xbb, 0xcc, 0xdd, 1, 2, 3],
          some ((supplyThenRedeemDAI.Actions.map (fun a => a.ethersNeeded.getD 0)).sum),
          [], []⟩]⟩) ∧
      ((⟨sampleClient 0 1⟩ : UniswapClient).FlashSwapActions selectorBindings (some 7) DAI USDC
        (some ⟨[]⟩)).outcome =
        .ok (some ⟨[⟨hSwapper, [0xaa, 0xbb, 0xcc, 0xdd, 1, 2, 3],
          some ((([] : List action).map (fun a => a.ethersNeeded.getD 0)).sum), [], []⟩]⟩) :=
  ⟨(C17_composite_action selectorBindings ⟨sampleClient 0 1⟩ ⟨sampleClient 0 1⟩
      (some 1000000000000000000) DAI USDC supplyThenRedeemDAI [0xaa, 0xbb, 0xcc, 0xdd, 1, 2, 3]
      (by decide) rfl rfl (by decide)).1 [0xaa, 0xbb, 0xcc, 0xdd, 1, 2, 3] rfl rfl,
    (C17_composite_action selectorBindings ⟨sampleClient 0 1⟩ ⟨sampleClient 0 1⟩
      (some 7) DAI USDC ⟨[]⟩ [0xaa, 0xbb, 0xcc, 0xdd, 1, 2, 3]
      (by decide) rfl rfl (by decide)).2.1 [0xaa, 0xbb, 0xcc, 0xdd, 1, 2, 3] rfl rfl⟩

/-- What `FlashLoanActions` aggregates from an inner batch whose actions all
carry an amount: the `execs` call, when packed, is on the inner targets and
payloads, and a returned action carries the inner total. -/
theorem FlashLoanActions_aggregate (b : Bindings) (ac : AaveClient) (size : Option Int)
    (coin : coinType) (inner : Client.Actions)
    (hE : ∀ a ∈ inner.Actions, a.ethersNeeded.isSome = true) :
    (∀ hs ds, Event.pack .FurucomboABI "execs" [.addressSlice hs, .bytesSlice ds] ∈
        (ac.FlashLoanActions b size coin (some inner)).events →
      hs = inner.Actions.map (fun a => a.handlerAddr) ∧
        ds = inner.Actions.map (fun a => a.data)) ∧
    (∀ B, (ac.FlashLoanActions b size coin (some inner)).outcome = .ok (some B) →
      B.Actions.map (fun a => a.ethersNeeded) = [some (sumEthers inner.Actions)]) ∧
    (b.JSON .FurucomboABI = none →
      Event.pack .FurucomboABI "execs"
          [.addressSlice (inner.Actions.map (fun a => a.handlerAddr)),
            .bytesSlice (inner.Actions.map (fun a => a.data))] ∈
        (ac.FlashLoanActions b size coin (some inner)).events) := by
  have hloop := compositeLoop_ok inner.Actions [] [] 0 hE
  simp only [List.nil_append, zero_add] at hloop
  simp only [AaveClient.FlashLoanActions, hloop]
  cases hj : b.JSON .FurucomboABI with
  | some e => simp
  | none =>
    cases hp : b.Pack .FurucomboABI "execs"
        [.addressSlice (inner.Actions.map (fun a => a.handlerAddr)),
          .bytesSlice (inner.Actions.map (fun a => a.data))] with
    | error e =>
      simp only [List.mem_singleton, Event.pack.injEq, List.cons.injEq,
        AbiValue.addressSlice.injEq, AbiValue.bytesSlice.injEq, and_true, true_and]
      simp
    | ok payload =>
      cases hja : b.JSON .HaaveABI with
      | some e => simp
      | none =>
        by_cases hlt : payload.length < 4
        · simp [hlt]
        · simp only [hlt, if_false]
          refine ⟨?_, ?_, ?_⟩
          · intro hs ds hmem
            simp at hmem
            exact hmem
          · intro B hB
            simp only [Except.ok.injEq, Option.some.injEq] at hB
            subst hB
            rfl
          · intro _
            simp

/-- The same for `FlashSwapActions`. -/
theorem FlashSwapActions_aggregate (b : Bindings) (uc : UniswapClient) (size : Option Int)
    (coinBorrow coinRepay : coinType) (inner : Client.Actions)
    (hE : ∀ a ∈ inner.Actions, a.ethersNeeded.isSome = true) :
    (∀ hs ds, Event.pack .FurucomboABI "execs" [.addressSlice hs, .bytesSlice ds] ∈
        (uc.FlashSwapActions b size coinBorrow coinRepay (some inner)).events →
      hs = inner.Actions.map (fun a => a.handlerAddr) ∧
        ds = inner.Actions.map (fun a => a.data)) ∧
    (∀ B, (uc.FlashSwapActions b size coinBorrow coinRepay (some inner)).outcome =
        .ok (some B) →
      B.Actions.map (fun a => a.ethersNeeded) = [some (sumEthers inner.Actions)]) ∧
    (b.JSON .FurucomboABI = none →
      Event.pack .FurucomboABI "execs"
          [.addressSlice (inner.Actions.map (fun a => a.handlerAddr)),
            .bytesSlice (inner.Actions.map (fun a => a.data))] ∈
        (uc.FlashSwapActions b size coinBorrow coinRepay (some inner)).events) := by
  have hloop := compositeLoop_ok inner.Actions [] [] 0 hE
  simp only [List.nil_append, zero_add] at hloop
  simp only [UniswapClient.FlashSwapActions, hloop]
  cases hj : b.JSON .FurucomboABI with
  | some e => simp
  | none =>
    cases hp : b.Pack .FurucomboABI "execs"
        [.addressSlice (inner.Actions.map (fun a => a.handlerAddr)),
          .bytesSlice (inner.Actions.map (fun a => a.data))] with
    | error e => simp
    | ok payload =>
      cases hjs : b.JSON .SwapperABI with
      | some e => simp
      | none =>
        by_cases hlt : payload.length < 4
        · simp [hlt]
        · simp only [hlt, if_false]
          cases hps : b.Pack .SwapperABI "startSwap"
              [.address (CoinToAddressMap coinBorrow), .uint size,
                .address (CoinToAddressMap coinRepay), .bytes (payload.drop 4)] with
          | error e => simp
          | ok data =>
            refine ⟨?_, ?_, ?_⟩
            · intro hs ds hmem
              simp at hmem
              exact hmem
            · intro B hB
              simp only [Except.ok.injEq, Option.some.injEq] at hB
              subst hB
              rfl
            · intro _
              simp

/-- The results of a successful `CombineActions` in terms of the batch: every
action carries an amount, the total is their sum, and the sequences are those
of the actions after one leading injection entry when the batch has an
approval requirement. -/
theorem CombineActions_shape {b : Bindings} {c : DefiClient} {batch : Client.Actions}
    {r : Combined} (h : (c.CombineActions b (some batch)).outcome = .ok r)
    (hr : r.err = none) :
    (∀ a ∈ batch.Actions, a.ethersNeeded.isSome = true) ∧
    r.totalEthers = some (sumEthers batch.Actions) ∧
    r.handlers = some
      (List.replicate
          (if batch.Actions.flatMap (fun a => a.approvalTokens) = [] then 0 else 1) hFunds ++
        batch.Actions.map (fun a => a.handlerAddr)) ∧
    r.datas.map (List.drop
        (if batch.Actions.flatMap (fun a => a.approvalTokens) = [] then 0 else 1)) =
      some (batch.Actions.map (fun a => a.data)) ∧
    r.datas.map List.length = some
      ((if batch.Actions.flatMap (fun a => a.approvalTokens) = [] then 0 else 1) +
        batch.Actions.length) := by
  obtain ⟨s, hl, hcase⟩ := CombineActions_ok h hr
  obtain ⟨hE, _, h1, h2, h3, h4, _, _⟩ := actionsLoop_next b c _ _ _ hl
  simp only [List.nil_append, zero_add] at h1 h2 h3 h4
  rcases hcase with ⟨hn, hr0, _⟩ | ⟨hn, d, _, hr0, _⟩
  · rw [h4] at hn
    rw [if_pos hn, hr0]
    exact ⟨hE, by simp [h3], by simp [h1], by simp [h2], by simp [h2]⟩
  · rw [h4] at hn
    rw [if_neg hn, hr0]
    refine ⟨hE, by simp [h3], by simp [h1], by simp [h2], ?_⟩
    simp [h2]
    omega

/-- C18, refuted as stated: for the inner batch [Compound supply DAI, Compound
redeem DAI], which carries approval requirements, `CombineActions` returns the
targets `[hFunds, hCToken, hCToken]` and three payloads, while
`FlashLoanActions` and `FlashSwapActions` encode the targets
`[hCToken, hCToken]` and two payloads into the sub-batch payload. -/
theorem C18_counterexample :
    ((sampleClient 500000000000000000 1).CombineActions selectorBindings
        (some supplyThenRedeemDAI)).outcome =
        .ok ⟨some [hFunds, hCTokenAddr, hCTokenAddr],
          some [[0xaa, 0xbb, 0xcc, 0xdd, 1, 2, 3], [0xde, 0xad, 0xbe, 0xef],
            [0xde, 0xad, 0xbe, 0xef]], some 0, none⟩ ∧
      Event.pack .FurucomboABI "execs"
          [.addressSlice [hCTokenAddr, hCTokenAddr],
            .bytesSlice [[0xde, 0xad, 0xbe, 0xef], [0xde, 0xad, 0xbe, 0xef]]] ∈
        ((⟨sampleClient 500000000000000000 1⟩ : AaveClient).FlashLoanActions selectorBindings
          (some 1000000000000000000) DAI (some supplyThenRedeemDAI)).events ∧
      Event.pack .FurucomboABI "execs"
          [.addressSlice [hCTokenAddr, hCTokenAddr],
            .bytesSlice [[0xde, 0xad, 0xbe, 0xef], [0xde, 0xad, 0xbe, 0xef]]] ∈
        ((⟨sampleClient 500000000000000000 1⟩ : UniswapClient).FlashSwapActions
          selectorBindings (some 1000000000000000000) DAI USDC
          (some supplyThenRedeemDAI)).events ∧
      [hCTokenAddr, hCTokenAddr] ≠ [hFunds, hCTokenAddr, hCTokenAddr] ∧
      ([[0xde, 0xad, 0xbe, 0xef], [0xde, 0xad, 0xbe, 0xef]] : List Bytes) ≠
        [[0xaa, 0xbb, 0xcc, 0xdd, 1, 2, 3], [0xde, 0xad, 0xbe, 0xef],
          [0xde, 0xad, 0xbe, 0xef]] := by
  refine ⟨by decide, by decide, by decide, by decide, by decide⟩

/-- C18 (amended): for every inner batch on which `CombineActions` succeeds,
the total that `FlashLoanActions` and `FlashSwapActions` put in their action is
the total of `CombineActions`, and the target and payload sequences they encode
into the sub-batch payload are those of `CombineActions` without its leading
approval-injection entry, which is present exactly when the inner batch carries
an approval requirement; for an inner batch without approval requirement they
are the three results of `CombineActions`.  The builders encode the sub-batch
whenever the proxy ABI parses. -/
theorem C18_composite_matches_combiner (b : Bindings) (c : DefiClient) (ac : AaveClient)
    (uc : UniswapClient) (size : Option Int) (coin coinRepay : coinType)
    (inner : Client.Actions) (r : Combined)
    (h : (c.CombineActions b (some inner)).outcome = .ok r) (hr : r.err = none) :
    (∀ hs ds,
      (Event.pack .FurucomboABI "execs" [.addressSlice hs, .bytesSlice ds] ∈
          (ac.FlashLoanActions b size coin (some inner)).events ∨
        Event.pack .FurucomboABI "execs" [.addressSlice hs, .bytesSlice ds] ∈
          (uc.FlashSwapActions b size coin coinRepay (some inner)).events) →
      r.handlers = some
          (List.replicate
              (if inner.Actions.flatMap (fun a => a.approvalTokens) = [] then 0 else 1)
              hFunds ++ hs) ∧
        r.datas.map (List.drop
            (if inner.Actions.flatMap (fun a => a.approvalTokens) = [] then 0 else 1)) =
          some ds ∧
        r.datas.map List.length = some
          ((if inner.Actions.flatMap (fun a => a.approvalTokens) = [] then 0 else 1) +
            ds.length) ∧
        (inner.Actions.flatMap (fun a => a.approvalTokens) = [] →
          r.handlers = some hs ∧ r.datas = some ds)) ∧
    (∀ B,
      ((ac.FlashLoanActions b size coin (some inner)).outcome = .ok (some B) ∨
        (uc.FlashSwapActions b size coin coinRepay (some inner)).outcome = .ok (some B)) →
      B.Actions.map (fun a => a.ethersNeeded) = [r.totalEthers]) ∧
    (b.JSON .FurucomboABI = none →
      Event.pack .FurucomboABI "execs"
          [.addressSlice (inner.Actions.map (fun a => a.handlerAddr)),
            .bytesSlice (inner.Actions.map (fun a => a.data))] ∈
          (ac.FlashLoanActions b size coin (some inner)).events ∧
        Event.pack .FurucomboABI "execs"
          [.addressSlice (inner.Actions.map (fun a => a.handlerAddr)),
            .bytesSlice (inner.Actions.map (fun a => a.data))] ∈
          (uc.FlashSwapActions b size coin coinRepay (some inner)).events) := by
  obtain ⟨hE, ht, hh, hd, hn⟩ := CombineActions_shape h hr
  obtain ⟨l1, l2, l3⟩ := FlashLoanActions_aggregate b ac size coin inner hE
  obtain ⟨s1, s2, s3⟩ := FlashSwapActions_aggregate b uc size coin coinRepay inner hE
  refine ⟨?_, ?_, ?_⟩
  · intro hs ds hmem
    have hargs : hs = inner.Actions.map (fun a => a.handlerAddr) ∧
        ds = inner.Actions.map (fun a => a.data) := by
      rcases hmem with hmem | hmem
      · exact l1 hs ds hmem
      · exact s1 hs ds hmem
    obtain ⟨rfl, rfl⟩ := hargs
    refine ⟨hh, hd, by simpa using hn, ?_⟩
    intro hnil
    rw [if_pos hnil] at hh hd
    constructor
    · simpa using hh
    · cases hdat : r.datas with
      | none => simp [hdat] at hd
      | some x => simpa [hdat] using hd
  · intro B hB
    rw [ht]
    rcases hB with hB | hB
    · exact l2 B hB
    · exact s2 B hB
  · intro hJ
    exact ⟨l3 hJ, s3 hJ⟩

/-- C18 (amended) at the inner batch `[plainA, plainB]`, which has no approval
requirement: the encoded sequences and the total are the results of
`CombineActions`. -/
theorem C18_composite_matches_combiner_witness :
    (some [hCEtherAddr, hFunds] : Option (List Address)) = some [hCEtherAddr, hFunds] ∧
      (some [[1, 2, 3, 4], [5, 6, 7, 8]] : Option (List Bytes)) =
        some [[1, 2, 3, 4], [5, 6, 7, 8]] ∧
      ([⟨hAaveAddr, [0xaa, 0xbb, 0xcc, 0xdd, 1, 2, 3], some 12, [], []⟩] : List action).map
        (fun a => a.ethersNeeded) = [some 12] :=
  have key := C18_composite_matches_combiner selectorBindings (sampleClient 0 1)
    ⟨sampleClient 0 1⟩ ⟨sampleClient 0 1⟩ (some 5) DAI USDC ⟨[plainA, plainB]⟩
    ⟨some [hCEtherAddr, hFunds], some [[1, 2, 3, 4], [5, 6, 7, 8]], some 12, none⟩
    (by decide) rfl
  ⟨((key.1 [hCEtherAddr, hFunds] [[1, 2, 3, 4], [5, 6, 7, 8]]
      (Or.inl (by decide))).2.2.2 (by decide)).1,
    ((key.1 [hCEtherAddr, hFunds] [[1, 2, 3, 4], [5, 6, 7, 8]]
      (Or.inr (by decide))).2.2.2 (by decide)).2,
    key.2.1 ⟨[⟨hAaveAddr, [0xaa, 0xbb, 0xcc, 0xdd, 1, 2, 3], some 12, [], []⟩]⟩
      (Or.inl (by decide))⟩

/-! ## Builders that fail to encode -/

/-- C21, the code at failing encodings: when the outer `flashLoan` call does
not encode, `FlashLoanActions` still returns a batch, whose action has a nil
payload (line 923 does not test the error); when the Uniswap handler call does
not encode, `UniswapClient.SwapActions` and `SushiswapClient.SwapActions`
return a batch whose action has the nil payload of the data helper. -/
theorem C21_builders_return_missing_payload :
    haaveFailingBindings.Pack .HaaveABI "flashLoan"
        [.address (CoinToAddressMap DAI), .uint (some 5), .bytes [1, 2, 3]] =
        .error "abi: attempting to unmarshall an empty string" ∧
      ((⟨sampleClient 0 1⟩ : AaveClient).FlashLoanActions haaveFailingBindings (some 5) DAI
        (some ⟨[plainA]⟩)).outcome = .ok (some ⟨[⟨hAaveAddr, [], some 5, [], []⟩]⟩) ∧
      (⟨sampleClient 0 1⟩ : UniswapClient).SwapActions failingPackBindings
        (some 1000000000000000000) DAI ETH =
        some ⟨[⟨hUniswapAddr, [], some 1000000000000000000, [], []⟩]⟩ ∧
      (⟨sampleClient 0 1⟩ : SushiswapClient).SwapActions failingPackBindings
        (some 1000000000000000000) ETH DAI =
        some ⟨[⟨hSushiswapAddr, [], some 0, [CoinToAddressMap DAI],
          [some 1000000000000000000]⟩]⟩ := by
  refine ⟨by decide, by decide, by decide, by decide⟩

/-- C22, refuted as stated: with two tokens and one amount, for which the
`addLiquidity` call encodes, `CurveClient.AddLiquidityActions` returns a batch
whose action has two approval tokens and one approval amount. -/
theorem C22_counterexample :
    (⟨sampleClient 0 1⟩ : CurveClient).AddLiquidityActions sampleBindings
        0xbebc44782c7db0a1a60cb6fe97d0b483032ff1c7 0x6c3F90f043a72FA612cbac8115EE7e52BDe6E490
        [CoinToAddressMap DAI, CoinToAddressMap USDC] [some 1000000000000000000] (some 0) =
        some curveTwoTokensOneAmount ∧
      curveTwoTokensOneAmount.Actions.map (fun a => a.approvalTokens.length) = [2] ∧
      curveTwoTokensOneAmount.Actions.map (fun a => a.approvalTokenAmounts.length) = [1] := by
  refine ⟨by decide, by decide, by decide⟩

/-- C22 (amended): `CurveClient.AddLiquidityActions` does not compare the
lengths of tokens and amounts: it returns no batch exactly when the Curve
handler ABI does not parse or the `addLiquidity` call does not encode, and
otherwise returns one action that carries the tokens and the amounts as they
were supplied, whatever their lengths. -/
theorem C22_curve_stores_lists (b : Bindings) (c : CurveClient) (handler pool : Address)
    (tokens : List Address) (amounts : List (Option Int)) (minAmount : Option Int) :
    (c.AddLiquidityActions b handler pool tokens amounts minAmount = none ↔
      (b.JSON .HcurveABI ≠ none ∨
        ∃ err, b.Pack .HcurveABI "addLiquidity"
          [.address handler, .address pool, .addressSlice tokens, .uintSlice amounts,
            .uint minAmount] = .error err)) ∧
    (∀ data, b.JSON .HcurveABI = none →
      b.Pack .HcurveABI "addLiquidity"
          [.address handler, .address pool, .addressSlice tokens, .uintSlice amounts,
            .uint minAmount] = .ok data →
      c.AddLiquidityActions b handler pool tokens amounts minAmount =
        some ⟨[⟨hCurveAddr, data, some 0, tokens, amounts⟩]⟩) := by
  constructor
  · unfold CurveClient.AddLiquidityActions
    cases hj : b.JSON .HcurveABI with
    | some e => simp
    | none =>
      cases hp : b.Pack .HcurveABI "addLiquidity"
          [.address handler, .address pool, .addressSlice tokens, .uintSlice amounts,
            .uint minAmount] with
      | error e => simp
      | ok data => simp
  · intro data hj hp
    simp [CurveClient.AddLiquidityActions, hj, hp]

/-- C22 (amended) at the call of the Curve test (three tokens, three amounts)
and at two tokens with one amount. -/
theorem C22_curve_stores_lists_witness :
    (⟨sampleClient 0 1⟩ : CurveClient).AddLiquidityActions sampleBindings
        0xbebc44782c7db0a1a60cb6fe97d0b483032ff1c7 0x6c3F90f043a72FA612cbac8115EE7e52BDe6E490
        [CoinToAddressMap DAI, CoinToAddressMap USDC, CoinToAddressMap USDT]
        [some 1000000000000000000, some 0, some 0] (some 0) =
        some ⟨[⟨hCurveAddr, [0xde, 0xad, 0xbe, 0xef], some 0,
          [CoinToAddressMap DAI, CoinToAddressMap USDC, CoinToAddressMap USDT],
          [some 1000000000000000000, some 0, some 0]⟩]⟩ ∧
      (⟨sampleClient 0 1⟩ : CurveClient).AddLiquidityActions sampleBindings
        0xbebc44782c7db0a1a60cb6fe97d0b483032ff1c7 0x6c3F90f043a72FA612cbac8115EE7e52BDe6E490
        [CoinToAddressMap DAI, CoinToAddressMap USDC] [some 1000000000000000000] (some 0) =
        some ⟨[⟨hCurveAddr, [0xde, 0xad, 0xbe, 0xef], some 0,
          [CoinToAddressMap DAI, CoinToAddressMap USDC], [some 1000000000000000000]⟩]⟩ :=
  ⟨(C22_curve_stores_lists sampleBindings ⟨sampleClient 0 1⟩
      0xbebc44782c7db0a1a60cb6fe97d0b483032ff1c7 0x6c3F90f043a72FA612cbac8115EE7e52BDe6E490
      [CoinToAddressMap DAI, CoinToAddressMap USDC, CoinToAddressMap USDT]
      [some 1000000000000000000, some 0, some 0] (some 0)).2 [0xde, 0xad, 0xbe, 0xef] rfl rfl,
    (C22_curve_stores_lists sampleBindings ⟨sampleClient 0 1⟩
      0xbebc44782c7db0a1a60cb6fe97d0b483032ff1c7 0x6c3F90f043a72FA612cbac8115EE7e52BDe6E490
      [CoinToAddressMap DAI, CoinToAddressMap USDC] [some 1000000000000000000]
      (some 0)).2 [0xde, 0xad, 0xbe, 0xef] rfl rfl⟩

/-! ## The swap builders -/

/-- C23: for every size and currencies, `UniswapClient.SwapActions` and
`SushiswapClient.SwapActions` return exactly one action, and so does
`KyberswapClient.SwapActions` whenever it returns a batch (which it does when
the Kyber ABI parses and its call encodes); the `ethersNeeded` of that action
is `size` when `quoteCurrency` is ETH and 0 otherwise. -/
theorem C23_swap_ethers (b : Bindings) (uc : UniswapClient) (kc : KyberswapClient)
    (sc : SushiswapClient) (size : Option Int) (baseCurrency quoteCurrency : coinType) :
    (uc.SwapActions b size baseCurrency quoteCurrency).map
        (fun batch => batch.Actions.map (fun a => a.ethersNeeded)) =
      some [if quoteCurrency = ETH then size else some 0] ∧
    (sc.SwapActions b size baseCurrency quoteCurrency).map
        (fun batch => batch.Actions.map (fun a => a.ethersNeeded)) =
      some [if quoteCurrency = ETH then size else some 0] ∧
    (∀ batch, kc.SwapActions b size baseCurrency quoteCurrency = some batch →
      batch.Actions.map (fun a => a.ethersNeeded) =
        [if quoteCurrency = ETH then size else some 0]) ∧
    (b.JSON .HkyberABI = none →
      (∀ method args, ∃ data, b.Pack .HkyberABI method args = .ok data) →
      kc.SwapActions b size baseCurrency quoteCurrency ≠ none) := by
  refine ⟨?_, ?_, ?_, ?_⟩
  · unfold UniswapClient.SwapActions
    by_cases hq : quoteCurrency = ETH
    · simp [hq]
    · by_cases hb : baseCurrency = ETH <;> simp [hq, hb]
  · unfold SushiswapClient.SwapActions
    by_cases hq : quoteCurrency = ETH
    · simp [hq]
    · by_cases hb : baseCurrency = ETH <;> simp [hq, hb]
  · intro batch h
    unfold KyberswapClient.SwapActions at h
    cases hj : b.JSON .HkyberABI with
    | some e => simp [hj] at h
    | none =>
      simp only [hj] at h
      by_cases hq : quoteCurrency = ETH
      · simp only [hq, if_true] at h ⊢
        split at h
        · cases h
        · simp only [Option.some.injEq] at h
          subst h; rfl
      · by_cases hb : baseCurrency = ETH
        · simp only [hq, hb, if_true, if_false] at h ⊢
          split at h
          · cases h
          · simp only [Option.some.injEq] at h
            subst h; rfl
        · simp only [hq, hb, if_false] at h ⊢
          split at h
          · cases h
          · simp only [Option.some.injEq] at h
            subst h; rfl
  · intro hj hp
    unfold KyberswapClient.SwapActions
    simp only [hj]
    by_cases hq : quoteCurrency = ETH
    · obtain ⟨data, hd⟩ := hp "swapEtherToToken"
        [.uint size, .address (CoinToAddressMap baseCurrency), .uint (some 0)]
      simp [hq, hd]
    · by_cases hb : baseCurrency = ETH
      · obtain ⟨data, hd⟩ := hp "swapTokenToEther"
          [.address (CoinToAddressMap baseCurrency), .uint size, .uint (some 0)]
        simp only [hq, hb, if_true, if_false]
        rw [hb] at hd
        simp [hd]
      · obtain ⟨data, hd⟩ := hp "swapTokenToToken"
          [.address (CoinToAddressMap baseCurrency), .uint size,
            .address (CoinToAddressMap quoteCurrency), .uint (some 0)]
        simp [hq, hb, hd]

/-- C23 at `SwapActions(1e18, DAI, ETH)`, which requires 1e18 of ether, for the
three builders. -/
theorem C23_swap_ethers_witness :
    ((⟨sampleClient 0 1⟩ : UniswapClient).SwapActions sampleBindings
        (some 1000000000000000000) DAI ETH).map
        (fun batch => batch.Actions.map (fun a => a.ethersNeeded)) =
      some [if ETH = ETH then some 1000000000000000000 else some 0] ∧
    ((⟨sampleClient 0 1⟩ : SushiswapClient).SwapActions sampleBindings
        (some 1000000000000000000) DAI ETH).map
        (fun batch => batch.Actions.map (fun a => a.ethersNeeded)) =
      some [if ETH = ETH then some 1000000000000000000 else some 0] ∧
    ([⟨hKyberAddr, [0xde, 0xad, 0xbe, 0xef], some 1000000000000000000, [], []⟩] :
        List action).map (fun a => a.ethersNeeded) =
      [if ETH = ETH then some 1000000000000000000 else some 0] ∧
    (⟨sampleClient 0 1⟩ : KyberswapClient).SwapActions sampleBindings
      (some 1000000000000000000) DAI ETH ≠ none :=
  have key := C23_swap_ethers sampleBindings ⟨sampleClient 0 1⟩ ⟨sampleClient 0 1⟩
    ⟨sampleClient 0 1⟩ (some 1000000000000000000) DAI ETH
  ⟨key.1, key.2.1,
    key.2.2.1 ⟨[⟨hKyberAddr, [0xde, 0xad, 0xbe, 0xef], some 1000000000000000000, [], []⟩]⟩
      (by decide),
    key.2.2.2 rfl (fun _ _ => ⟨[0xde, 0xad, 0xbe, 0xef], rfl⟩)⟩

/-! ## The Compound builders -/

/-- C24, the code at a coin other than DAI: `SupplyActions(size, USDC)` packs
the `mint` call on `CoinToCompoundMap[DAI]` (line 831), which is not the
Compound market of USDC, while the approval requirement is on the USDC
token. -/
theorem C24_supply_mints_on_dai_market (b : Bindings) (c : CompoundClient)
    (size : Option Int) :
    c.SupplyActions b size USDC =
        (match b.JSON .HctokenABI with
          | some _ => none
          | none =>
            match b.Pack .HctokenABI "mint"
                [.address 0x5d3a536e4d6dbd6114cc1ead35777bab948e3643, .uint size] with
            | .error _ => none
            | .ok mintData =>
              some ⟨[⟨hCTokenAddr, mintData, some 0, [CoinToAddressMap USDC], [size]⟩]⟩) ∧
      CoinToCompoundMap DAI = 0x5d3a536e4d6dbd6114cc1ead35777bab948e3643 ∧
      CoinToCompoundMap USDC = 0x39aa39c021dfbae8fac545936693ac917d5e7563 ∧
      CoinToCompoundMap USDC ≠ CoinToCompoundMap DAI := by
  refine ⟨?_, by decide, by decide, by decide⟩
  have h : ¬ USDC = ETH := by decide
  simp only [CompoundClient.SupplyActions, h, if_false, CompoundClient.supplyActionsERC20]
  rfl

/-! ## Composite actions and approval requirements -/

theorem compositeLoop_congr :
    ∀ (acts1 acts2 : List action) (hs : List Address) (ds : List Bytes) (t : Int),
      acts1.map (fun a => (a.handlerAddr, a.data, a.ethersNeeded)) =
        acts2.map (fun a => (a.handlerAddr, a.data, a.ethersNeeded)) →
      compositeLoop acts1 hs ds t = compositeLoop acts2 hs ds t := by
  intro acts1
  induction acts1 with
  | nil =>
    intro acts2 hs ds t h
    cases acts2 with
    | nil => rfl
    | cons x xs => simp at h
  | cons a rest ih =>
    intro acts2 hs ds t h
    cases acts2 with
    | nil => simp at h
    | cons x xs =>
      simp only [List.map_cons, List.cons.injEq, Prod.mk.injEq] at h
      obtain ⟨⟨h1, h2, h3⟩, h4⟩ := h
      simp only [compositeLoop, h1, h2, h3]
      cases x.ethersNeeded with
      | none => rfl
      | some ethers => exact ih xs _ _ _ h4

/-- A batch returned by `FlashLoanActions` is one action on `hAaveAddr` with an
amount of ether and no approval requirement. -/
theorem FlashLoanActions_some (b : Bindings) (ac : AaveClient) (size : Option Int)
    (coin : coinType) (inner : Option Client.Actions) (batch : Client.Actions)
    (h : (ac.FlashLoanActions b size coin inner).outcome = .ok (some batch)) :
    ∃ data total, batch = ⟨[⟨hAaveAddr, data, some total, [], []⟩]⟩ := by
  unfold AaveClient.FlashLoanActions at h
  cases inner with
  | none => simp at h
  | some acts =>
    simp only at h
    split at h
    · simp at h
    · split at h
      · simp at h
      · split at h
        · simp at h
        · split at h
          · simp at h
          · split at h
            · simp at h
            · simp only [Except.ok.injEq, Option.some.injEq] at h
              exact ⟨_, _, h.symm⟩

/-- A batch returned by `FlashSwapActions` is one action on `hSwapper` with an
amount of ether and no approval requirement. -/
theorem FlashSwapActions_some (b : Bindings) (uc : UniswapClient) (size : Option Int)
    (coinBorrow coinRepay : coinType) (inner : Option Client.Actions) (batch : Client.Actions)
    (h : (uc.FlashSwapActions b size coinBorrow coinRepay inner).outcome = .ok (some batch)) :
    ∃ data total, batch = ⟨[⟨hSwapper, data, some total, [], []⟩]⟩ := by
  unfold UniswapClient.FlashSwapActions at h
  cases inner with
  | none => simp at h
  | some acts =>
    simp only at h
    split at h
    · simp at h
    · split at h
      · simp at h
      · split at h
        · simp at h
        · split at h
          · simp at h
          · split at h
            · simp at h
            · split at h
              · simp at h
              · simp only [Except.ok.injEq, Option.some.injEq] at h
                exact ⟨_, _, h.symm⟩

/-- C25: for any two inner batches that agree on the target, payload and
`ethersNeeded` of every action (and so differ at most in approval tokens and
amounts), `FlashLoanActions` returns the same result on both, and so does
`FlashSwapActions`; every action they return has empty approval lists; hence on
a batch made of composite actions only `CombineActions` succeeds without a
call (no balance read, no `inject` packed) and returns the actions' targets
and payloads with no injection in front. -/
theorem C25_composite_ignores_approvals (b : Bindings) (c : DefiClient) (ac : AaveClient)
    (uc : UniswapClient) (size : Option Int) (coin coinRepay : coinType)
    (inner1 inner2 : Client.Actions)
    (hagree : inner1.Actions.map (fun a => (a.handlerAddr, a.data, a.ethersNeeded)) =
      inner2.Actions.map (fun a => (a.handlerAddr, a.data, a.ethersNeeded))) :
    ac.FlashLoanActions b size coin (some inner1) =
        ac.FlashLoanActions b size coin (some inner2) ∧
      uc.FlashSwapActions b size coin coinRepay (some inner1) =
        uc.FlashSwapActions b size coin coinRepay (some inner2) ∧
      (∀ batch,
        ((ac.FlashLoanActions b size coin (some inner1)).outcome = .ok (some batch) ∨
          (uc.FlashSwapActions b size coin coinRepay (some inner1)).outcome =
            .ok (some batch)) →
        ∀ a ∈ batch.Actions, a.approvalTokens = [] ∧ a.approvalTokenAmounts = []) ∧
      (∀ batches : List Client.Actions,
        (∀ batch ∈ batches, ∃ sz cn cr inner,
          (ac.FlashLoanActions b sz cn inner).outcome = .ok (some batch) ∨
            (uc.FlashSwapActions b sz cn cr inner).outcome = .ok (some batch)) →
        c.CombineActions b (some ⟨batches.flatMap (fun x => x.Actions)⟩) =
          ⟨[], .ok ⟨some ((batches.flatMap (fun x => x.Actions)).map (fun a => a.handlerAddr)),
            some ((batches.flatMap (fun x => x.Actions)).map (fun a => a.data)),
            some (sumEthers (batches.flatMap (fun x => x.Actions))), none⟩⟩) := by
  have hloop := compositeLoop_congr inner1.Actions inner2.Actions [] [] 0 hagree
  refine ⟨?_, ?_, ?_, ?_⟩
  · simp only [AaveClient.FlashLoanActions, hloop]
  · simp only [UniswapClient.FlashSwapActions, hloop]
  · intro batch hB a ha
    rcases hB with hB | hB
    · obtain ⟨data, total, rfl⟩ := FlashLoanActions_some b ac size coin _ batch hB
      simp only [List.mem_singleton] at ha
      subst ha
      exact ⟨rfl, rfl⟩
    · obtain ⟨data, total, rfl⟩ := FlashSwapActions_some b uc size coin coinRepay _ batch hB
      simp only [List.mem_singleton] at ha
      subst ha
      exact ⟨rfl, rfl⟩
  · intro batches hall
    have hshape : ∀ a ∈ batches.flatMap (fun x => x.Actions),
        a.approvalTokens = [] ∧ a.ethersNeeded.isSome = true := by
      intro a ha
      obtain ⟨batch, hb, hmem⟩ := List.mem_flatMap.mp ha
      obtain ⟨sz, cn, cr, inner, hB⟩ := hall batch hb
      rcases hB with hB | hB
      · obtain ⟨data, total, rfl⟩ := FlashLoanActions_some b ac sz cn inner batch hB
        simp only [List.mem_singleton] at hmem
        subst hmem
        exact ⟨rfl, rfl⟩
      · obtain ⟨data, total, rfl⟩ := FlashSwapActions_some b uc sz cn cr inner batch hB
        simp only [List.mem_singleton] at hmem
        subst hmem
        exact ⟨rfl, rfl⟩
    exact CombineActions_noApprovals b c ⟨batches.flatMap (fun x => x.Actions)⟩
      (fun a ha => (hshape a ha).1) (fun a ha => (hshape a ha).2)

/-- C25 at the inner batch [supply DAI, redeem DAI] and the same actions with
their approval lists emptied. -/
theorem C25_composite_ignores_approvals_witness :
    (⟨sampleClient 0 1⟩ : AaveClient).FlashLoanActions selectorBindings (some 5) DAI
        (some supplyThenRedeemDAI) =
      (⟨sampleClient 0 1⟩ : AaveClient).FlashLoanActions selectorBindings (some 5) DAI
        (some ⟨[⟨hCTokenAddr, [0xde, 0xad, 0xbe, 0xef], some 0, [], []⟩,
          ⟨hCTokenAddr, [0xde, 0xad, 0xbe, 0xef], some 0, [], []⟩]⟩) ∧
    (⟨sampleClient 0 1⟩ : UniswapClient).FlashSwapActions selectorBindings (some 5) DAI USDC
        (some supplyThenRedeemDAI) =
      (⟨sampleClient 0 1⟩ : UniswapClient).FlashSwapActions selectorBindings (some 5) DAI USDC
        (some ⟨[⟨hCTokenAddr, [0xde, 0xad, 0xbe, 0xef], some 0, [], []⟩,
          ⟨hCTokenAddr, [0xde, 0xad, 0xbe, 0xef], some 0, [], []⟩]⟩) :=
  have key := C25_composite_ignores_approvals selectorBindings (sampleClient 0 1)
    ⟨sampleClient 0 1⟩ ⟨sampleClient 0 1⟩ (some 5) DAI USDC supplyThenRedeemDAI
    ⟨[⟨hCTokenAddr, [0xde, 0xad, 0xbe, 0xef], some 0, [], []⟩,
      ⟨hCTokenAddr, [0xde, 0xad, 0xbe, 0xef], some 0, [], []⟩]⟩ (by decide)
  ⟨key.1, key.2.1⟩

/-! ## Requirements on the same token -/

theorem requirements_of_token (t : Address) :
    ∀ (l : List (Address × Option Int)) (requested : List Int),
      (∀ x ∈ l, x.1 = t) → l.map Prod.snd = requested.map some →
      l = requested.map (fun a => (t, some a)) := by
  intro l
  induction l with
  | nil =>
    intro requested _ h
    cases requested with
    | nil => rfl
    | cons a as => simp at h
  | cons x xs ih =>
    intro requested hall h
    cases requested with
    | nil => simp at h
    | cons a as =>
      simp only [List.map_cons, List.cons.injEq] at h ⊢
      have hx := hall x (List.mem_cons_self _ _)
      refine ⟨?_, ih as (fun y hy => hall y (List.mem_cons_of_mem _ hy)) h.2⟩
      obtain ⟨x1, x2⟩ := x
      simp only at hx h
      rw [hx, h.1]

/-- C26: approval requirements are not merged.  When the token t appears in k
requirements of a batch, with requested amounts a1..ak in batch order, and the
caller's balance of t is b, the lists handed to the `inject` encoder hold k
separate entries for t, with amounts min(a1, b), ..., min(ak, b) in that order,
and the amount list has one entry per requirement of the batch. -/
theorem C26_requirements_not_merged (b : Bindings) (c : DefiClient) (batch : Client.Actions)
    (tokens : List Address) (amounts : List (Option Int))
    (hcall : Event.pack .Herc20tokeninABI "inject" [.addressSlice tokens, .uintSlice amounts] ∈
      (c.CombineActions b (some batch)).events)
    (t : Address) (balance : Int) (requested : List Int)
    (hbal : c.conn.BalanceOf t c.opts.From = .ok balance)
    (hreq : (batch.requirements.filter (fun req => decide (req.1 = t))).map Prod.snd =
      requested.map some) :
    (tokens.zip amounts).filter (fun entry => decide (entry.1 = t)) =
        requested.map (fun a => (t, some (min a balance))) ∧
      amounts.length = batch.requirements.length ∧
      tokens.length = batch.requirements.length := by
  obtain ⟨_, ha, ht⟩ := inject_lists hcall
  refine ⟨?_, by rw [ha]; simp, by rw [← ht]; simp⟩
  have hzip : tokens.zip amounts =
      batch.requirements.map (fun req => (req.1, c.clampedAmount req)) := by
    rw [← ht, ha, List.zip_map']
  have hfil := requirements_of_token t
    (batch.requirements.filter (fun req => decide (req.1 = t))) requested
    (fun x hx => by simpa using (List.mem_filter.mp hx).2) hreq
  rw [hzip, List.filter_map]
  have hcomp : ((fun entry : Address × Option Int => decide (entry.1 = t)) ∘
      fun req : Address × Option Int => (req.1, c.clampedAmount req)) =
      fun req => decide (req.1 = t) := rfl
  rw [hcomp, hfil, List.map_map]
  apply List.map_congr_left
  intro a _
  simp only [Function.comp, DefiClient.clampedAmount, hbal, Prod.mk.injEq, true_and,
    Option.some.injEq]
  by_cases hgt : balance > a
  · rw [if_pos hgt, min_eq_left (le_of_lt hgt)]
  · rw [if_neg hgt, min_eq_right (not_lt.mp hgt)]

/-- C26 at two requirements of 50 units on the same token with a balance of 50:
two entries of 50, whose sum 100 is twice the balance. -/
theorem C26_requirements_not_merged_witness :
    ([sampleToken, sampleToken].zip ([some 50, some 50] : List (Option Int))).filter
        (fun entry => decide (entry.1 = sampleToken)) =
        ([50, 50] : List Int).map (fun a => (sampleToken, some (min a 50))) ∧
      ([some 50, some 50] : List (Option Int)).length = twiceSameToken.requirements.length ∧
      [sampleToken, sampleToken].length = twiceSameToken.requirements.length :=
  C26_requirements_not_merged sampleBindings (sampleClient 50 1) twiceSameToken
    [sampleToken, sampleToken] [some 50, some 50] (by decide) sampleToken 50 [50, 50]
    (by decide) (by decide)

/-! ## `Add` and its error -/

/-- C27: `Add` called without argument returns the error "new action is nil"
and leaves the receiver unchanged; whenever `Add` returns an error, it was
called without argument (its variadic slice is nil), the error is that one and
the receiver is unchanged; for every non-empty list of non-nil batches, batches
with zero actions included, it returns nil, also when some of the arguments
are the receiver itself. -/
theorem C27_add_error (A : Client.Actions) :
    Actions.Add (some A) (variadic []) = (some A, .ok (some "new action is nil")) ∧
      (∀ (args : Option (List ActionsPtr)) (err : Error),
        (Actions.Add (some A) args).2 = .ok (some err) →
        args = none ∧ err = "new action is nil" ∧ (Actions.Add (some A) args).1 = some A) ∧
      (∀ bs : List Client.Actions, bs ≠ [] →
        (Actions.Add (some A) (variadic (bs.map (fun x => ActionsPtr.other (some x))))).2 =
          .ok none) ∧
      (∀ args : List ActionsPtr, args ≠ [] → ActionsPtr.other none ∉ args →
        (Actions.Add (some A) (variadic args)).2 = .ok none) := by
  refine ⟨rfl, ?_, ?_, ?_⟩
  · intro args err h
    cases args with
    | none =>
      simp only [Actions.Add, Except.ok.injEq, Option.some.injEq] at h
      exact ⟨rfl, h.symm, rfl⟩
    | some l =>
      simp only [Actions.Add] at h
      split at h <;> simp at h
  · intro bs hne
    cases bs with
    | nil => exact absurd rfl hne
    | cons x rest =>
      have h := addLoop_some (x :: rest) A
      simp only [List.map_cons] at h
      simp only [List.map_cons, variadic, Actions.Add, h]
  · intro args hne hnil
    obtain ⟨extra, h⟩ := addLoop_nonnil args A hnil
    rw [Add_of_addLoop A _ args hne h]

/-- C27 at a receiver of one action: no argument gives the error, two batches
(one of them with zero actions) give nil. -/
theorem C27_add_error_witness :
    Actions.Add (some ⟨[plainA]⟩) (variadic []) =
        (some ⟨[plainA]⟩, .ok (some "new action is nil")) ∧
      (Actions.Add (some ⟨[plainA]⟩)
        (variadic (([⟨[]⟩, ⟨[plainB]⟩] : List Client.Actions).map
          (fun x => ActionsPtr.other (some x))))).2 = .ok none :=
  ⟨(C27_add_error ⟨[plainA]⟩).1,
    (C27_add_error ⟨[plainA]⟩).2.2.1 [⟨[]⟩, ⟨[plainB]⟩] (by simp)⟩

/-! ## Index safety of `CombineActions` -/

theorem approvalLoop_truncate (b : Bindings) (c : DefiClient) :
    ∀ (ts : List Address) (as : List (Option Int)) (s : CombineState),
      approvalLoop b c ts (as.take ts.length) s = approvalLoop b c ts as s := by
  intro ts
  induction ts with
  | nil => intro as s; simp [approvalLoop]
  | cons t ts ih =>
    intro as s
    cases as with
    | nil => simp
    | cons a as =>
      simp only [List.length_cons, List.take_succ_cons, approvalLoop]
      cases (c.balanceOf b t).2 with
      | error err => rfl
      | ok balance =>
        cases a with
        | none => rfl
        | some amount => exact ih as _

theorem actionsLoop_truncate (b : Bindings) (c : DefiClient) :
    ∀ (acts : List action) (s : CombineState),
      actionsLoop b c (acts.map action.withoutSurplus) s = actionsLoop b c acts s := by
  intro acts
  induction acts with
  | nil => intro s; rfl
  | cons a rest ih =>
    intro s
    simp only [List.map_cons, actionsLoop, action.withoutSurplus, approvalLoop_truncate]
    cases a.ethersNeeded with
    | none => rfl
    | some ethers =>
      simp only []
      cases approvalLoop b c a.approvalTokens a.approvalTokenAmounts
          ⟨s.handlers ++ [a.handlerAddr], s.datas ++ [a.data],
            s.totalEthers + ethers, s.approvalTokens, s.approvalAmounts, s.events⟩ with
      | next s3 => exact ih s3
      | returned s3 err => rfl
      | panicked s3 p => rfl

theorem approvalLoop_panicked (b : Bindings) (c : DefiClient) :
    ∀ (ts : List Address) (as : List (Option Int)) (s s1 : CombineState) (p : Panic),
      approvalLoop b c ts as s = .panicked s1 p →
      (p = .indexOutOfRange ∧ as.length < ts.length) ∨
        (p = .nilDereference ∧ none ∈ as.take ts.length) := by
  intro ts
  induction ts with
  | nil => intro as s s1 p h; simp [approvalLoop] at h
  | cons t ts ih =>
    intro as s s1 p h
    cases as with
    | nil =>
      simp only [approvalLoop, Flow.panicked.injEq] at h
      exact Or.inl ⟨h.2.symm, by simp⟩
    | cons a as =>
      simp only [approvalLoop] at h
      cases hbal : (c.balanceOf b t).2 with
      | error err => simp [hbal] at h
      | ok balance =>
        cases a with
        | none =>
          simp only [hbal, Flow.panicked.injEq] at h
          exact Or.inr ⟨h.2.symm, by simp⟩
        | some amount =>
          simp only [hbal] at h
          rcases ih as _ s1 p h with ⟨h1, h2⟩ | ⟨h1, h2⟩
          · exact Or.inl ⟨h1, by simpa using h2⟩
          · exact Or.inr ⟨h1, by simp [h2]⟩

theorem actionsLoop_panicked (b : Bindings) (c : DefiClient) :
    ∀ (acts : List action) (s s1 : CombineState) (p : Panic),
      actionsLoop b c acts s = .panicked s1 p →
      (p = .indexOutOfRange ∧
          ∃ a ∈ acts, a.approvalTokenAmounts.length < a.approvalTokens.length) ∨
        (p = .nilDereference ∧
          ∃ a ∈ acts, a.ethersNeeded = none ∨
            none ∈ a.approvalTokenAmounts.take a.approvalTokens.length) := by
  intro acts
  induction acts with
  | nil => intro s s1 p h; simp [actionsLoop] at h
  | cons a rest ih =>
    intro s s1 p h
    simp only [actionsLoop] at h
    cases he : a.ethersNeeded with
    | none =>
      simp only [he, Flow.panicked.injEq] at h
      exact Or.inr ⟨h.2.symm, a, List.mem_cons_self _ _, Or.inl he⟩
    | some ethers =>
      simp only [he] at h
      cases hl : approvalLoop b c a.approvalTokens a.approvalTokenAmounts
          ⟨s.handlers ++ [a.handlerAddr], s.datas ++ [a.data],
            s.totalEthers + ethers, s.approvalTokens, s.approvalAmounts, s.events⟩ with
      | returned s3 err => simp [hl] at h
      | panicked s3 q =>
        simp only [hl, Flow.panicked.injEq] at h
        rw [← h.2]
        rcases approvalLoop_panicked b c _ _ _ _ _ hl with ⟨h1, h2⟩ | ⟨h1, h2⟩
        · exact Or.inl ⟨h1, a, List.mem_cons_self _ _, h2⟩
        · exact Or.inr ⟨h1, a, List.mem_cons_self _ _, Or.inr h2⟩
      | next s3 =>
        simp only [hl] at h
        rcases ih s3 s1 p h with ⟨h1, x, hx, h2⟩ | ⟨h1, x, hx, h2⟩
        · exact Or.inl ⟨h1, x, List.mem_cons_of_mem _ hx, h2⟩
        · exact Or.inr ⟨h1, x, List.mem_cons_of_mem _ hx, h2⟩

theorem approvalLoop_short (b : Bindings) (c : DefiClient) :
    ∀ (ts : List Address) (as : List (Option Int)) (s : CombineState),
      as.length < ts.length →
      (∀ req ∈ ts.zip as, (c.clampedAmount req).isSome = true) →
      (∀ t ∈ ts.take as.length, b.NewErc20 t = none) →
      ∃ s1, approvalLoop b c ts as s = .panicked s1 .indexOutOfRange ∧
        s1.events = s.events ++
          (ts.take as.length).map (fun t => Event.balanceOf t c.opts.From) := by
  intro ts
  induction ts with
  | nil => intro as s h; simp at h
  | cons t ts ih =>
    intro as s hlen hreq hnew
    cases as with
    | nil => exact ⟨s, by simp [approvalLoop], by simp⟩
    | cons a as =>
      have h0 := hreq (t, a) (by simp)
      have hn := hnew t (by simp)
      cases a with
      | none => simp [DefiClient.clampedAmount] at h0
      | some amount =>
        cases hb : c.conn.BalanceOf t c.opts.From with
        | error err => simp [DefiClient.clampedAmount, hb] at h0
        | ok balance =>
          have hbal : c.balanceOf b t = ([Event.balanceOf t c.opts.From], .ok balance) := by
            simp [DefiClient.balanceOf, hn, hb]
          obtain ⟨s1, h1, h2⟩ := ih as
            ⟨s.handlers, s.datas, s.totalEthers, s.approvalTokens ++ [t],
              s.approvalAmounts ++ [if balance > amount then amount else balance],
              s.events ++ [Event.balanceOf t c.opts.From]⟩
            (by simpa using hlen)
            (fun req hmem => hreq req (by simp [hmem]))
            (fun x hx => hnew x (by simp [hx]))
          refine ⟨s1, ?_, ?_⟩
          · simp only [approvalLoop, hbal]
            exact h1
          · rw [h2]
            simp

theorem actionsLoop_append (b : Bindings) (c : DefiClient) :
    ∀ (pre rest : List action) (s s1 : CombineState),
      actionsLoop b c pre s = .next s1 →
      actionsLoop b c (pre ++ rest) s = actionsLoop b c rest s1 := by
  intro pre
  induction pre with
  | nil =>
    intro rest s s1 h
    simp only [actionsLoop, Flow.next.injEq] at h
    subst h
    rfl
  | cons a pre ih =>
    intro rest s s1 h
    simp only [actionsLoop, List.cons_append] at h ⊢
    cases he : a.ethersNeeded with
    | none => simp [he] at h
    | some ethers =>
      simp only [he] at h ⊢
      cases hl : approvalLoop b c a.approvalTokens a.approvalTokenAmounts
          ⟨s.handlers ++ [a.handlerAddr], s.datas ++ [a.data],
            s.totalEthers + ethers, s.approvalTokens, s.approvalAmounts, s.events⟩ with
      | returned s3 err => simp [hl] at h
      | panicked s3 p => simp [hl] at h
      | next s3 =>
        simp only [hl] at h ⊢
        exact ih rest s3 s1 h

/-- C28: (1) on a batch in which every action has a non-nil `ethersNeeded` and
at least as many amounts as tokens, `CombineActions` makes no out-of-range
access (and does not panic at all when, moreover, no amount in use is nil);
(2) amounts beyond the number of tokens of an action are ignored: the call
gives the same result as on the batch without them; (3) when an action has
fewer amounts than tokens, and everything before its first missing amount goes
through (the earlier actions and requirements are well formed and their
balances are read), the indexing at the first missing amount fails: the call
panics with an index out of range after the balance reads made so far. -/
theorem C28_index_safety (b : Bindings) (c : DefiClient) (batch : Client.Actions) :
    ((∀ a ∈ batch.Actions, a.ethersNeeded.isSome = true) →
      (∀ a ∈ batch.Actions, a.approvalTokens.length ≤ a.approvalTokenAmounts.length) →
      (c.CombineActions b (some batch)).outcome ≠ .error .indexOutOfRange ∧
        (c.CombineActions b (some batch)).outcome ≠ .error .sliceBoundsOutOfRange ∧
        ((∀ a ∈ batch.Actions,
            none ∉ a.approvalTokenAmounts.take a.approvalTokens.length) →
          ∀ p, (c.CombineActions b (some batch)).outcome ≠ .error p)) ∧
    c.CombineActions b (some ⟨batch.Actions.map action.withoutSurplus⟩) =
      c.CombineActions b (some batch) ∧
    (∀ (pre : List action) (a : action) (post : List action),
      batch.Actions = pre ++ a :: post →
      (∀ x ∈ pre, x.ethersNeeded.isSome = true) →
      (∀ x ∈ pre, x.approvalTokens.length ≤ x.approvalTokenAmounts.length) →
      (∀ req ∈ pre.flatMap action.requirements, (c.clampedAmount req).isSome = true) →
      (∀ t ∈ pre.flatMap (fun x => x.approvalTokens), b.NewErc20 t = none) →
      a.ethersNeeded.isSome = true →
      a.approvalTokenAmounts.length < a.approvalTokens.length →
      (∀ req ∈ a.requirements, (c.clampedAmount req).isSome = true) →
      (∀ t ∈ a.approvalTokens.take a.approvalTokenAmounts.length, b.NewErc20 t = none) →
      c.CombineActions b (some batch) =
        ⟨(pre.flatMap (fun x => x.approvalTokens) ++
            a.approvalTokens.take a.approvalTokenAmounts.length).map
            (fun t => Event.balanceOf t c.opts.From),
          .error .indexOutOfRange⟩) := by
  refine ⟨?_, ?_, ?_⟩
  · intro hE hL
    have key : ∀ p, (c.CombineActions b (some batch)).outcome = .error p →
        p = .nilDereference ∧ ∃ a ∈ batch.Actions,
          none ∈ a.approvalTokenAmounts.take a.approvalTokens.length := by
      intro p hp
      unfold DefiClient.CombineActions at hp
      cases hl : actionsLoop b c batch.Actions ⟨[], [], 0, [], [], []⟩ with
      | returned s err => simp [hl] at hp
      | next s =>
        simp only [hl] at hp
        split at hp
        · split at hp
          · simp at hp
          · split at hp <;> simp at hp
        · simp at hp
      | panicked s q =>
        simp only [hl, Except.error.injEq] at hp
        subst hp
        rcases actionsLoop_panicked b c _ _ _ _ hl with ⟨_, a, ha, hshort⟩ | ⟨h1, a, ha, h2⟩
        · exact absurd (hL a ha) (by omega)
        · rcases h2 with h2 | h2
          · have := hE a ha
            rw [h2] at this
            simp at this
          · exact ⟨h1, a, ha, h2⟩
    refine ⟨?_, ?_, ?_⟩
    · intro h
      have := (key _ h).1
      cases this
    · intro h
      have := (key _ h).1
      cases this
    · intro hnil p h
      obtain ⟨_, a, ha, hmem⟩ := key p h
      exact hnil a ha hmem
  · simp only [DefiClient.CombineActions, actionsLoop_truncate]
  · intro pre a post hsplit hE hL hR hN he hshort hreq hnew
    obtain ⟨s1, hpre⟩ := actionsLoop_complete b c pre ⟨[], [], 0, [], [], []⟩ hE hL hR hN
    obtain ⟨_, _, _, _, _, _, _, hev⟩ := actionsLoop_next b c _ _ _ hpre
    simp only [List.nil_append] at hev
    obtain ⟨ethers, hethers⟩ := Option.isSome_iff_exists.mp he
    obtain ⟨s2, hloop, hev2⟩ := approvalLoop_short b c a.approvalTokens a.approvalTokenAmounts
      ⟨s1.handlers ++ [a.handlerAddr], s1.datas ++ [a.data], s1.totalEthers + ethers,
        s1.approvalTokens, s1.approvalAmounts, s1.events⟩ hshort hreq hnew
    have hall : actionsLoop b c batch.Actions ⟨[], [], 0, [], [], []⟩ =
        .panicked s2 .indexOutOfRange := by
      rw [hsplit, actionsLoop_append b c pre (a :: post) _ s1 hpre]
      simp only [actionsLoop, hethers, hloop]
    simp only [DefiClient.CombineActions, hall, hev2, hev, List.map_append]

/-- C28 at the batch that `Curve().AddLiquidityActions` returns for two tokens
and one amount: after reading the balance of the first token, `CombineActions`
panics with an index out of range. -/
theorem C28_index_safety_witness :
    (sampleClient 0 1).CombineActions sampleBindings (some curveTwoTokensOneAmount) =
      ⟨(([] : List action).flatMap (fun x => x.approvalTokens) ++
          [CoinToAddressMap DAI, CoinToAddressMap USDC].take
            ([some 1000000000000000000] : List (Option Int)).length).map
          (fun t => Event.balanceOf t (sampleClient 0 1).opts.From),
        .error .indexOutOfRange⟩ ∧
    ((sampleClient 0 1).CombineActions sampleBindings (some ⟨[plainA, plainB]⟩)).outcome ≠
      .error .indexOutOfRange :=
  ⟨(C28_index_safety sampleBindings (sampleClient 0 1) curveTwoTokensOneAmount).2.2
      [] ⟨hCurveAddr, [0xde, 0xad, 0xbe, 0xef], some 0,
        [CoinToAddressMap DAI, CoinToAddressMap USDC], [some 1000000000000000000]⟩ []
      rfl (by decide) (by decide) (by decide) (by decide) rfl (by decide) (by decide)
      (by decide),
    ((C28_index_safety sampleBindings (sampleClient 0 1) ⟨[plainA, plainB]⟩).1
      (by decide) (by decide)).1⟩

/-! ## `RedeemActions` -/

/-- The batch that `supplyActionsETH` or `redeemActionsETH` returns is one
action on the Compound-ether handler with `ethersNeeded` the size. -/
theorem supplyActionsETH_some (b : Bindings) (c : CompoundClient) (size : Option Int)
    (coin : coinType) (batch : Client.Actions)
    (h : c.supplyActionsETH b size coin = some batch) :
    ∃ data, batch = ⟨[⟨hCEtherAddr, data, size, [], []⟩]⟩ := by
  unfold CompoundClient.supplyActionsETH at h
  split at h
  · cases h
  · split at h
    · cases h
    · simp only [Option.some.injEq] at h
      exact ⟨_, h.symm⟩

theorem redeemActionsETH_some (b : Bindings) (c : CompoundClient) (size : Option Int)
    (coin : coinType) (batch : Client.Actions)
    (h : c.redeemActionsETH b size coin = some batch) :
    ∃ data, batch = ⟨[⟨hCEtherAddr, data, size, [], []⟩]⟩ := by
  unfold CompoundClient.redeemActionsETH at h
  split at h
  · cases h
  · split at h
    · cases h
    · simp only [Option.some.injEq] at h
      exact ⟨_, h.symm⟩

theorem redeemActionsERC20_some (b : Bindings) (c : CompoundClient) (size : Option Int)
    (coin : coinType) (batch : Client.Actions)
    (h : c.redeemActionsERC20 b size coin = some batch) :
    ∃ data, batch = ⟨[⟨hCTokenAddr, data, some 0, [CoinToCompoundMap coin], [size]⟩]⟩ := by
  unfold CompoundClient.redeemActionsERC20 at h
  split at h
  · cases h
  · split at h
    · cases h
    · simp only [Option.some.injEq] at h
      exact ⟨_, h.symm⟩

/-- C29: for every size, a batch returned by `RedeemActions(size, ETH)` is one
action on the Compound-ether handler with `ethersNeeded` the size (as for
`SupplyActions(size, ETH)`) and no approval requirement; for every coin other
than ETH a batch returned by `RedeemActions(size, coin)` is one action with
`ethersNeeded` 0 and the single approval requirement
(`CoinToCompoundMap[coin]`, size); the builder returns a batch whenever its ABI
parses and its call encodes; and the batch [supply s ETH, redeem r ETH]
combines, without any call, to the two Compound-ether targets and the total
s + r. -/
theorem C29_redeem_actions (b : Bindings) (c : CompoundClient) (dc : DefiClient)
    (size : Option Int) (coin : coinType) :
    (∀ batch, c.RedeemActions b size ETH = some batch →
      batch.Actions.map (fun a =>
          (a.handlerAddr, a.ethersNeeded, a.approvalTokens, a.approvalTokenAmounts)) =
        [(hCEtherAddr, size, [], [])]) ∧
    (∀ batch, c.SupplyActions b size ETH = some batch →
      batch.Actions.map (fun a =>
          (a.handlerAddr, a.ethersNeeded, a.approvalTokens, a.approvalTokenAmounts)) =
        [(hCEtherAddr, size, [], [])]) ∧
    (∀ batch, coin ≠ ETH → c.RedeemActions b size coin = some batch →
      batch.Actions.map (fun a =>
          (a.handlerAddr, a.ethersNeeded, a.approvalTokens, a.approvalTokenAmounts)) =
        [(hCTokenAddr, some 0, [CoinToCompoundMap coin], [size])]) ∧
    ((∀ abi, b.JSON abi = none) →
      (∀ abi method args, ∃ data, b.Pack abi method args = .ok data) →
      c.RedeemActions b size coin ≠ none) ∧
    (∀ (s r : Int) (supplied redeemed : Client.Actions),
      c.SupplyActions b (some s) ETH = some supplied →
      c.RedeemActions b (some r) ETH = some redeemed →
      dc.CombineActions b
          (Actions.Add (some ⟨[]⟩) (variadic [.other (some supplied), .other (some redeemed)])).1 =
        ⟨[], .ok ⟨some [hCEtherAddr, hCEtherAddr],
          some (supplied.Actions.map (fun a => a.data) ++
            redeemed.Actions.map (fun a => a.data)),
          some (s + r), none⟩⟩) := by
  refine ⟨?_, ?_, ?_, ?_, ?_⟩
  · intro batch h
    simp only [CompoundClient.RedeemActions, if_true] at h
    obtain ⟨data, rfl⟩ := redeemActionsETH_some b c size ETH batch h
    rfl
  · intro batch h
    simp only [CompoundClient.SupplyActions, if_true] at h
    obtain ⟨data, rfl⟩ := supplyActionsETH_some b c size ETH batch h
    rfl
  · intro batch hne h
    simp only [CompoundClient.RedeemActions, hne, if_false] at h
    obtain ⟨data, rfl⟩ := redeemActionsERC20_some b c size coin batch h
    rfl
  · intro hj hp
    unfold CompoundClient.RedeemActions
    by_cases hc : coin = ETH
    · obtain ⟨data, hd⟩ := hp .HcetherABI "redeem" [.uint size]
      simp [hc, CompoundClient.redeemActionsETH, hj, hd]
    · obtain ⟨data, hd⟩ := hp .HctokenABI "redeem"
        [.address (CoinToCompoundMap coin), .uint size]
      simp [hc, CompoundClient.redeemActionsERC20, hj, hd]
  · intro s r supplied redeemed hs hr
    simp only [CompoundClient.SupplyActions, if_true] at hs
    simp only [CompoundClient.RedeemActions, if_true] at hr
    obtain ⟨ds, rfl⟩ := supplyActionsETH_some b c (some s) ETH supplied hs
    obtain ⟨dr, rfl⟩ := redeemActionsETH_some b c (some r) ETH redeemed hr
    have hadd : (Actions.Add (some ⟨[]⟩)
        (variadic [.other (some (⟨[⟨hCEtherAddr, ds, some s, [], []⟩]⟩ : Client.Actions)),
          .other (some (⟨[⟨hCEtherAddr, dr, some r, [], []⟩]⟩ : Client.Actions))])).1 =
        some ⟨[⟨hCEtherAddr, ds, some s, [], []⟩, ⟨hCEtherAddr, dr, some r, [], []⟩]⟩ := by
      simp [Actions.Add, variadic, Actions.addLoop]
    rw [hadd, CombineActions_noApprovals b dc _ (by simp) (by simp)]
    simp [sumEthers]

/-- C29 at redeeming 7 cETH and 100000 cDAI, and at the batch [supply 5 ETH,
redeem 7 ETH], whose total is 12. -/
theorem C29_redeem_actions_witness :
    ([⟨hCEtherAddr, [0xde, 0xad, 0xbe, 0xef], some 7, [], []⟩] : List action).map
        (fun a => (a.handlerAddr, a.ethersNeeded, a.approvalTokens, a.approvalTokenAmounts)) =
      [(hCEtherAddr, some 7, [], [])] ∧
    ([⟨hCTokenAddr, [0xde, 0xad, 0xbe, 0xef], some 0, [CoinToCompoundMap DAI],
        [some 100000]⟩] : List action).map
        (fun a => (a.handlerAddr, a.ethersNeeded, a.approvalTokens, a.approvalTokenAmounts)) =
      [(hCTokenAddr, some 0, [CoinToCompoundMap DAI], [some 100000])] ∧
    (sampleClient 0 1).CombineActions sampleBindings
        (Actions.Add (some ⟨[]⟩)
          (variadic [.other (some ⟨[⟨hCEtherAddr, [0xde, 0xad, 0xbe, 0xef], some 5, [], []⟩]⟩),
            .other (some ⟨[⟨hCEtherAddr, [0xde, 0xad, 0xbe, 0xef], some 7, [], []⟩]⟩)])).1 =
      ⟨[], .ok ⟨some [hCEtherAddr, hCEtherAddr],
        some (([⟨hCEtherAddr, [0xde, 0xad, 0xbe, 0xef], some 5, [], []⟩] : List action).map
            (fun a => a.data) ++
          ([⟨hCEtherAddr, [0xde, 0xad, 0xbe, 0xef], some 7, [], []⟩] : List action).map
            (fun a => a.data)),
        some (5 + 7), none⟩⟩ :=
  ⟨(C29_redeem_actions sampleBindings (sampleClient 0 1).Compound (sampleClient 0 1)
      (some 7) DAI).1 ⟨[⟨hCEtherAddr, [0xde, 0xad, 0xbe, 0xef], some 7, [], []⟩]⟩ (by decide),
    (C29_redeem_actions sampleBindings (sampleClient 0 1).Compound (sampleClient 0 1)
      (some 100000) DAI).2.2.1
      ⟨[⟨hCTokenAddr, [0xde, 0xad, 0xbe, 0xef], some 0, [CoinToCompoundMap DAI],
        [some 100000]⟩]⟩ (by decide) (by decide),
    (C29_redeem_actions sampleBindings (sampleClient 0 1).Compound (sampleClient 0 1)
      (some 7) DAI).2.2.2.2 5 7
      ⟨[⟨hCEtherAddr, [0xde, 0xad, 0xbe, 0xef], some 5, [], []⟩]⟩
      ⟨[⟨hCEtherAddr, [0xde, 0xad, 0xbe, 0xef], some 7, [], []⟩]⟩ (by decide) (by decide)⟩

/-! ## `byte32PutString` -/

theorem fromHexChar_of_digit (c : Nat) (h : isHexDigit c = true) :
    ∃ d, d < 16 ∧ fromHexChar c = some d ∧
      (if d < 10 then 48 + d else 87 + d) = toLowerByte c := by
  simp only [isHexDigit, Bool.or_eq_true, Bool.and_eq_true, decide_eq_true_eq] at h
  rcases h with (⟨h1, h2⟩ | ⟨h1, h2⟩) | ⟨h1, h2⟩
  · refine ⟨c - 48, by omega, by simp [fromHexChar, h1, h2], ?_⟩
    have h3 : c - 48 < 10 := by omega
    have h4 : ¬ (65 ≤ c ∧ c ≤ 90) := by omega
    simp only [h3, if_true, toLowerByte, h4, if_false]
    omega
  · have h0 : ¬ (48 ≤ c ∧ c ≤ 57) := by omega
    refine ⟨c - 87, by omega, by simp [fromHexChar, h0, h1, h2], ?_⟩
    have h3 : ¬ c - 87 < 10 := by omega
    have h4 : ¬ (65 ≤ c ∧ c ≤ 90) := by omega
    simp only [h3, if_false, toLowerByte, h4]
    omega
  · have h0 : ¬ (48 ≤ c ∧ c ≤ 57) := by omega
    have h00 : ¬ (97 ≤ c ∧ c ≤ 102) := by omega
    refine ⟨c - 55, by omega, by simp [fromHexChar, h0, h00, h1, h2], ?_⟩
    have h3 : ¬ c - 55 < 10 := by omega
    have h4 : 65 ≤ c ∧ c ≤ 90 := by omega
    simp only [h3, if_false, toLowerByte]
    rw [if_pos h4]
    omega

theorem fromHexChar_of_not_digit (c : Nat) (h : isHexDigit c = false) :
    fromHexChar c = none := by
  simp only [isHexDigit, Bool.or_eq_false_iff, Bool.and_eq_false_imp, decide_eq_true_eq,
    decide_eq_false_iff_not] at h
  obtain ⟨⟨h1, h2⟩, h3⟩ := h
  have a1 : ¬ (48 ≤ c ∧ c ≤ 57) := fun hh => h1 hh.1 hh.2
  have a2 : ¬ (97 ≤ c ∧ c ≤ 102) := fun hh => h2 hh.1 hh.2
  have a3 : ¬ (65 ≤ c ∧ c ≤ 70) := fun hh => h3 hh.1 hh.2
  simp [fromHexChar, a1, a2, a3]

/-- Decoding a string of an even number of hexadecimal digits succeeds, gives
one byte per two digits, and encoding these bytes gives the string back in
lower case. -/
theorem hexDecodeString_valid :
    ∀ (n : Nat) (s : List Nat), s.length = 2 * n → (∀ c ∈ s, isHexDigit c = true) →
      ∃ d, hexDecodeString s = some d ∧ d.length = n ∧
        hexEncodeToString d = s.map toLowerByte := by
  intro n
  induction n with
  | zero =>
    intro s hlen _
    have : s = [] := List.length_eq_zero.mp (by omega)
    subst this
    exact ⟨[], rfl, rfl, rfl⟩
  | succ n ih =>
    intro s hlen hall
    match s, hlen, hall with
    | p :: q :: rest, hlen, hall =>
      obtain ⟨hi, hhi, hp, ep⟩ := fromHexChar_of_digit p (hall p (by simp))
      obtain ⟨lo, hlo, hq, eq⟩ := fromHexChar_of_digit q (hall q (by simp))
      obtain ⟨d, hd, hdl, hde⟩ := ih rest (by simp at hlen; omega)
        (fun c hc => hall c (by simp [hc]))
      refine ⟨(hi * 16 + lo) :: d, by simp [hexDecodeString, hp, hq, hd], by simp [hdl], ?_⟩
      have h1 : (hi * 16 + lo) / 16 = hi := by omega
      have h2 : (hi * 16 + lo) % 16 = lo := by omega
      simp only [hexEncodeToString, List.flatMap_cons, h1, h2, ep, eq, List.map_cons,
        List.cons_append, List.nil_append, List.cons.injEq, true_and]
      exact hde
    | [], hlen, _ => simp at hlen
    | [_], hlen, _ => simp at hlen; omega

/-- Decoding fails on a string of odd length or with a byte that is no
hexadecimal digit. -/
theorem hexDecodeString_invalid :
    ∀ (n : Nat) (s : List Nat), s.length ≤ n →
      (s.length % 2 = 1 ∨ ∃ c ∈ s, isHexDigit c = false) → hexDecodeString s = none := by
  intro n
  induction n with
  | zero =>
    intro s hlen h
    have : s = [] := List.length_eq_zero.mp (by omega)
    subst this
    simp at h
  | succ n ih =>
    intro s hlen h
    match s, hlen, h with
    | [], _, h => simp at h
    | [_], _, _ => rfl
    | p :: q :: rest, hlen, h =>
      simp only [hexDecodeString]
      cases hp : fromHexChar p with
      | none => rfl
      | some hi =>
        cases hq : fromHexChar q with
        | none => rfl
        | some lo =>
          have hrest : hexDecodeString rest = none := by
            apply ih rest (by simp at hlen; omega)
            rcases h with h | ⟨c, hc, hbad⟩
            · left
              simp only [List.length_cons] at h
              omega
            · right
              simp only [List.mem_cons] at hc
              rcases hc with hc | hc | hc
              · subst hc
                rw [fromHexChar_of_not_digit _ hbad] at hp
                cases hp
              · subst hc
                rw [fromHexChar_of_not_digit _ hbad] at hq
                cases hq
              · exact ⟨c, hc, hbad⟩
          rw [hrest]

theorem copyAt_full (d : List Nat) (h : d.length = 32) :
    copyAt (List.replicate 32 0) 0 d = d := by
  simp [copyAt, h]

/-- C30: for every string s of exactly 64 hexadecimal characters,
`byte32PutString` returns the 32 bytes that s decodes to, and hex-encoding them
gives s back in lower case; for every s that is not valid hex (odd length, or a
byte that is no hexadecimal digit) it returns 32 zero bytes; the ETH entry of
`CoinToIlkMap` is the bytes of "ETH-A" followed by 27 zero bytes. -/
theorem C30_byte32PutString (s : List Nat) :
    (s.length = 64 → (∀ c ∈ s, isHexDigit c = true) →
      hexDecodeString s = some (byte32PutString s) ∧
        (byte32PutString s).length = 32 ∧
        hexEncodeToString (byte32PutString s) = s.map toLowerByte) ∧
    ((s.length % 2 = 1 ∨ ∃ c ∈ s, isHexDigit c = false) →
      byte32PutString s = List.replicate 32 0) ∧
    CoinToIlkMap ETH = stringBytes "ETH-A" ++ List.replicate 27 0 := by
  refine ⟨?_, ?_, by decide⟩
  · intro hlen hall
    obtain ⟨d, hd, hdl, hde⟩ := hexDecodeString_valid 32 s (by omega) hall
    have hres : byte32PutString s = d := by
      have hgt : s.length > 32 := by omega
      simp only [byte32PutString, hd, hgt, if_true]
      exact copyAt_full d hdl
    rw [hres]
    exact ⟨hd, hdl, hde⟩
  · intro hbad
    simp only [byte32PutString, hexDecodeString_invalid s.length s (le_refl _) hbad]

/-- C30 at the string of the ETH entry of `CoinToIlkMap` and at a string with
the byte `g`. -/
theorem C30_byte32PutString_witness :
    (hexDecodeString
          (stringBytes "4554482d41000000000000000000000000000000000000000000000000000000") =
        some (byte32PutString
          (stringBytes "4554482d41000000000000000000000000000000000000000000000000000000")) ∧
      (byte32PutString
        (stringBytes
          "4554482d41000000000000000000000000000000000000000000000000000000")).length = 32 ∧
      hexEncodeToString (byte32PutString
          (stringBytes "4554482d41000000000000000000000000000000000000000000000000000000")) =
        (stringBytes
          "4554482d41000000000000000000000000000000000000000000000000000000").map
          toLowerByte) ∧
    byte32PutString (stringBytes "0g") = List.replicate 32 0 :=
  ⟨(C30_byte32PutString
      (stringBytes "4554482d41000000000000000000000000000000000000000000000000000000")).1
      (by decide) (by decide),
    (C30_byte32PutString (stringBytes "0g")).2.1
      (Or.inr ⟨103, by decide, by decide⟩)⟩

end Client

